import Mathlib

/-!
# PumpPilot: tracker, nonce manager, calldata encoder and unit parsing

A shallow embedding of the Go sources under `backend/internal` together with
theorems about the embedded functions.

* `internal/app/tracker.go`            : `runTracker`
* `internal/txbuilder/noncemanager.go` : `NonceManager.Next`, `NonceManager.Reset`
* `internal/txbuilder/txbuilder.go`    : calldata encoders and transaction builders
* `internal/txbuilder/erc20.go`        : `ParseUnits`

Machine integers are natural numbers or integers with the wrap-around written
out: `uint64` arithmetic is taken modulo `2^64`, and the Go `int` counter of the
tracker is the 64-bit two's complement one.
-/

deriving instance DecidableEq for Except

namespace PumpPilot

/-! ## Machine integers -/

/-- The modulus of `uint64` arithmetic, `2^64`. -/
@[reducible] def u64 : Nat := 18446744073709551616

/-- The bound of the uint256 ABI type, `2^256`. -/
@[reducible] def u256 : Nat := 2 ^ 256

/-- Go `int` (64-bit) wrap-around: the two's complement value of an integer. -/
def wrapInt (x : Int) : Int :=
  (x + 9223372036854775808) % 18446744073709551616 - 9223372036854775808

/-! ## Tracker (`internal/app/tracker.go`) -/

/-- The per-block counters `blockState{expected, done}`. -/
structure blockState where
  expected : Int
  done : Int
deriving DecidableEq, Repr

/-- One input of the tracker's `select`: a `queue.BlockFiltered` value received
on `filtered`, or a block number received on `ack`. -/
inductive TrackerInput where
  | filtered (BlockNumber : Nat) (FilteredCount : Int)
  | ack (b : Nat)
deriving DecidableEq, Repr

/-- The local variables of `runTracker`, with two ghost fields: `saveCalls`
counts the calls of `cp.Save` made so far and `persisted` logs, in order, the
values for which `cp.Save` returned no error. The map `completed` only ever
holds the value `true`, so it is kept as the list of its keys. -/
structure TrackerState where
  last : Nat
  next : Nat
  states : Nat → Option blockState
  completed : List Nat
  saveCalls : Nat
  persisted : List Nat

/-- The state at loop entry: `last := cp.Last()`, `next := last + 1` (uint64),
both maps empty. -/
def TrackerState.init (L : Nat) : TrackerState where
  last := L
  next := (L + 1) % u64
  states := fun _ => none
  completed := []
  saveCalls := 0
  persisted := []

/-- Go `states[b] = st`. -/
def setState (m : Nat → Option blockState) (b : Nat) (st : blockState) :
    Nat → Option blockState :=
  fun k => if k = b then some st else m k

/-- Go `delete(states, b)`. -/
def deleteState (m : Nat → Option blockState) (b : Nat) : Nat → Option blockState :=
  fun k => if k = b then none else m k

/-- Go `completed[b] = true`. -/
def markCompleted (c : List Nat) (b : Nat) : List Nat :=
  if b ∈ c then c else b :: c

/-- Go `delete(completed, b)`. -/
def deleteCompleted (c : List Nat) (b : Nat) : List Nat :=
  c.filter (fun k => decide (k ≠ b))

/-- The `case f := <-filtered` branch after the `f.BlockNumber <= last` guard. -/
def onFiltered (s : TrackerState) (b : Nat) (n : Int) : TrackerState :=
  let st0 : blockState := (s.states b).getD ⟨0, 0⟩
  let st : blockState := { st0 with expected := n }
  if st.expected = 0 ∧ st.done = 0 then
    { s with completed := markCompleted s.completed b, states := deleteState s.states b }
  else
    { s with states := setState s.states b st }

/-- The `case b := <-ack` branch after the `b <= last` guard. -/
def onAck (s : TrackerState) (b : Nat) : TrackerState :=
  let st0 : blockState := (s.states b).getD ⟨0, 0⟩
  let st : blockState := { st0 with done := wrapInt (st0.done + 1) }
  if 0 < st.expected ∧ st.expected ≤ st.done then
    { s with completed := markCompleted s.completed b, states := deleteState s.states b }
  else
    { s with states := setState s.states b st }

/-- The body of the drain loop once `cp.Save(next)` has returned no error:
`delete(completed, next)`, `last = next`, `next++` (uint64); the saved value
joins the log. -/
def advance (s : TrackerState) : TrackerState :=
  { s with
    saveCalls := s.saveCalls + 1
    persisted := s.persisted ++ [s.next]
    completed := deleteCompleted s.completed s.next
    last := s.next
    next := (s.next + 1) % u64 }

/-- The loop `for completed[next] { ... }`. `save i` tells whether the `i`-th
call of `cp.Save` succeeds; a failed call leaves the loop by `break`. Every
iteration that stays in the loop removes `next` from `completed`, so
`completed.length` iterations are enough (`drain_fuel_enough`). -/
def drain (save : Nat → Bool) : Nat → TrackerState → TrackerState
  | 0, s => s
  | fuel + 1, s =>
    if s.next ∈ s.completed then
      if save s.saveCalls then drain save fuel (advance s)
      else { s with saveCalls := s.saveCalls + 1 }
    else s

/-- One iteration of the outer `for` loop of `runTracker` on one received
input. An input for a block `<= last` takes the `continue` and so skips the
drain loop. -/
def trackerStep (save : Nat → Bool) (s : TrackerState) : TrackerInput → TrackerState
  | .filtered b n =>
    if b ≤ s.last then s
    else
      let s1 := onFiltered s b n
      drain save s1.completed.length s1
  | .ack b =>
    if b ≤ s.last then s
    else
      let s1 := onAck s b
      drain save s1.completed.length s1

/-- The tracker run on a finite trace of inputs, from checkpoint `L`, up to the
cancellation of the context. -/
def runTracker (save : Nat → Bool) (L : Nat) (trace : List TrackerInput) : TrackerState :=
  trace.foldl (trackerStep save) (TrackerState.init L)

/-! ## Nonce manager (`internal/txbuilder/noncemanager.go`) -/

/-- A byte. -/
abbrev Byte := Fin 256

/-- The type `common.Address`: an array of 20 bytes. -/
structure Address where
  bytes : List Byte
  size : bytes.length = 20
deriving DecidableEq

/-- The `ChainClient` as the nonce manager sees it: `PendingNonceAt addr j` is
the answer of the chain to the `j`-th pending-nonce query made for `addr`
(counted from 0), an error or a `uint64`. -/
structure ChainClient where
  PendingNonceAt : Address → Nat → Except String Nat

/-- The struct `NonceManager`. The field `queried` is a ghost: the number of
`PendingNonceAt` calls made so far for each address. The mutex is not modelled;
the methods below are the critical sections. -/
structure NonceManager where
  client : Option ChainClient
  next : Address → Option Nat
  queried : Address → Nat

/-- The constructor `NewNonceManager`. -/
def NewNonceManager (client : Option ChainClient) : NonceManager where
  client := client
  next := fun _ => none
  queried := fun _ => 0

/-- Go `m[addr] = v` on a map keyed by address. -/
def setAddr {α : Type} (m : Address → α) (addr : Address) (v : α) : Address → α :=
  fun k => if k = addr then v else m k

/-- The method `NonceManager.Next`: the returned pair `(uint64, error)` and the
manager afterwards. -/
def NonceManager.Next (m : NonceManager) (addr : Address) :
    Except String Nat × NonceManager :=
  match m.client with
  | none => (Except.error "nonce manager client is nil", m)
  | some c =>
    match m.next addr with
    | some n => (Except.ok n, { m with next := setAddr m.next addr (some ((n + 1) % u64)) })
    | none =>
      let m1 : NonceManager :=
        { m with queried := setAddr m.queried addr (m.queried addr + 1) }
      match c.PendingNonceAt addr (m.queried addr) with
      | Except.error e => (Except.error e, m1)
      | Except.ok nonce =>
        (Except.ok nonce, { m1 with next := setAddr m1.next addr (some ((nonce + 1) % u64)) })

/-- The method `NonceManager.Reset`: `delete(m.next, addr)`. -/
def NonceManager.Reset (m : NonceManager) (addr : Address) : NonceManager :=
  { m with next := setAddr m.next addr none }

/-- A call made on a nonce manager. -/
inductive NonceCall where
  | callNext (addr : Address)
  | callReset (addr : Address)
deriving DecidableEq

/-- A sequence of calls run in order on a manager: the results of the `Next`
calls, each with its address, in call order, and the manager afterwards. -/
def runCalls : NonceManager → List NonceCall →
    List (Address × Except String Nat) × NonceManager
  | m, [] => ([], m)
  | m, NonceCall.callNext a :: rest =>
    let r := m.Next a
    let out := runCalls r.2 rest
    ((a, r.1) :: out.1, out.2)
  | m, NonceCall.callReset a :: rest => runCalls (m.Reset a) rest

/-- The results of the `Next` calls made for one address, in call order. -/
def resultsFor (a : Address) (out : List (Address × Except String Nat)) :
    List (Except String Nat) :=
  (out.filter (fun r => decide (r.1 = a))).map (fun r => r.2)

/-! ## Calldata encoder and builder (`internal/txbuilder/txbuilder.go`) -/

/-- The little-endian base-256 digits of `v`; `fuel` bounds the number of
digits produced. -/
def bytesLE : Nat → Nat → List Byte
  | 0, _ => []
  | fuel + 1, v => if v = 0 then [] else Fin.ofNat (v % 256) :: bytesLE fuel (v / 256)

/-- Go `(*big.Int).Bytes` on a non-negative value: the big-endian bytes with no
leading zero byte (none at all for 0). A number has at most as many base-256
digits as its value, so the fuel `v` is enough. -/
def bigBytes (v : Nat) : List Byte :=
  (bytesLE v v).reverse

/-- The function `common.LeftPadBytes` of go-ethereum: the slice itself when it
already has `l` bytes or more, else the slice behind `l - len(slice)` zero
bytes. -/
def LeftPadBytes (slice : List Byte) (l : Nat) : List Byte :=
  if l ≤ slice.length then slice
  else List.replicate (l - slice.length) (0 : Byte) ++ slice

/-- The function `encodeUint256`; a `*big.Int` is `Option Int`, `none` being
`nil`. -/
def encodeUint256 (v : Option Int) : Except String (List Byte) :=
  match v with
  | none => Except.error "value is nil"
  | some x =>
    if x < 0 then Except.error "value must be non-negative"
    else Except.ok (LeftPadBytes (bigBytes x.toNat) 32)

/-- The function `encodeAddress`. -/
def encodeAddress (addr : Address) : List Byte :=
  LeftPadBytes addr.bytes 32

/-- The selector `mustSelector("0xd6febde8")`. -/
def selectorBuy : List Byte := [0xd6, 0xfe, 0xbd, 0xe8]

/-- The selector `mustSelector("0xd3c9727c")`. -/
def selectorSell : List Byte := [0xd3, 0xc9, 0x72, 0x7c]

/-- The selector `mustSelector("0x095ea7b3")`. -/
def selectorApprove : List Byte := [0x09, 0x5e, 0xa7, 0xb3]

/-- Go `fmt.Errorf(label + ": %w", err)` as far as the message goes. -/
def wrapErr (label : String) (r : Except String (List Byte)) : Except String (List Byte) :=
  match r with
  | Except.error e => Except.error (label ++ ": " ++ e)
  | Except.ok v => Except.ok v

/-- The function `buildBuyData`; `deadline` is a `uint64`. -/
def buildBuyData (minTokensOut : Option Int) (deadline : Nat) : Except String (List Byte) :=
  match wrapErr "minTokensOut" (encodeUint256 minTokensOut) with
  | Except.error e => Except.error e
  | Except.ok arg0 =>
    match wrapErr "deadline" (encodeUint256 (some (Int.ofNat deadline))) with
    | Except.error e => Except.error e
    | Except.ok arg1 => Except.ok (([] ++ selectorBuy) ++ arg0 ++ arg1)

/-- The function `buildSellData`. -/
def buildSellData (tokenAmountIn minRefundWei : Option Int) (deadline : Nat) :
    Except String (List Byte) :=
  match wrapErr "tokenAmountIn" (encodeUint256 tokenAmountIn) with
  | Except.error e => Except.error e
  | Except.ok arg0 =>
    match wrapErr "minRefundWei" (encodeUint256 minRefundWei) with
    | Except.error e => Except.error e
    | Except.ok arg1 =>
      match wrapErr "deadline" (encodeUint256 (some (Int.ofNat deadline))) with
      | Except.error e => Except.error e
      | Except.ok arg2 => Except.ok (([] ++ selectorSell) ++ arg0 ++ arg1 ++ arg2)

/-- The function `buildApproveData`. -/
def buildApproveData (spender : Address) (amount : Option Int) : Except String (List Byte) :=
  let arg0 := encodeAddress spender
  match wrapErr "amount" (encodeUint256 amount) with
  | Except.error e => Except.error e
  | Except.ok arg1 => Except.ok (([] ++ selectorApprove) ++ arg0 ++ arg1)

/-- The struct `FeeParams`. -/
structure FeeParams where
  MaxFeePerGas : Option Int
  MaxPriorityFeePerGas : Option Int
deriving DecidableEq

/-- The struct `BuildParams`. -/
structure BuildParams where
  Nonce : Nat
  GasLimit : Nat
  Fee : FeeParams
deriving DecidableEq

/-- The transaction made by `types.NewTx(&types.DynamicFeeTx{...})`: the fields
of the inner dynamic-fee transaction. -/
structure Transaction where
  ChainID : Int
  Nonce : Nat
  Gas : Nat
  GasFeeCap : Int
  GasTipCap : Int
  To : Address
  Value : Int
  Data : List Byte
deriving DecidableEq

/-- The function `buildDynamicTx`. -/
def buildDynamicTx (chainID : Option Int) (toAddr : Address) (value : Option Int)
    (data : List Byte) (p : BuildParams) : Except String Transaction :=
  match chainID with
  | none => Except.error "chainID is required"
  | some cid =>
    match value with
    | none => Except.error "value is required"
    | some val =>
      if p.GasLimit = 0 then Except.error "gasLimit is required"
      else
        match p.Fee.MaxFeePerGas, p.Fee.MaxPriorityFeePerGas with
        | some maxFee, some maxPrio =>
          if maxFee < 0 ∨ maxPrio < 0 then Except.error "fee values must be non-negative"
          else if val < 0 then Except.error "value must be non-negative"
          else
            Except.ok
              { ChainID := cid, Nonce := p.Nonce, Gas := p.GasLimit, GasFeeCap := maxFee,
                GasTipCap := maxPrio, To := toAddr, Value := val, Data := data }
        | _, _ => Except.error "maxFeePerGas and maxPriorityFeePerGas are required"

/-- A `time.Time` as its count of nanoseconds since the Unix epoch. -/
structure Time where
  unixNano : Int
deriving DecidableEq

/-- Go `t.Add(d)` for a `time.Duration` of `d` nanoseconds. -/
def Time.Add (t : Time) (d : Int) : Time :=
  ⟨t.unixNano + d⟩

/-- Go `t.Unix()`: the whole seconds since the epoch, rounded down. -/
def Time.Unix (t : Time) : Int :=
  t.unixNano / 1000000000

/-- The struct `Builder`. The field `now` is the value the clock function
returns when a build method calls it; `DefaultDeadline` is in nanoseconds. -/
structure Builder where
  ChainID : Option Int
  DefaultDeadline : Int
  now : Time

/-- The constructors `NewBuilder` and `NewBuilderWithClock` with the clock
reading `now`; a non-positive deadline becomes `120 * time.Second`. -/
def NewBuilderWithClock (chainID : Int) (defaultDeadline : Int) (now : Time) : Builder where
  ChainID := some chainID
  DefaultDeadline := if defaultDeadline ≤ 0 then 120 * 1000000000 else defaultDeadline
  now := now

/-- The expression `uint64(b.now().Add(b.DefaultDeadline).Unix())`: the
conversion of the `int64` to `uint64` is the residue modulo `2^64`. -/
def Builder.deadline (b : Builder) : Nat :=
  ((b.now.Add b.DefaultDeadline).Unix % (u64 : Int)).toNat

/-- The method `Builder.BuildBuyTx`. -/
def Builder.BuildBuyTx (b : Builder) (pair : Address) (ethInWei minTokensOut : Option Int)
    (p : BuildParams) : Except String Transaction :=
  if ethInWei = none ∨ minTokensOut = none then
    Except.error "ethInWei and minTokensOut are required"
  else
    match buildBuyData minTokensOut b.deadline with
    | Except.error e => Except.error e
    | Except.ok data => buildDynamicTx b.ChainID pair ethInWei data p

/-- The method `Builder.BuildSellTx`. -/
def Builder.BuildSellTx (b : Builder) (pair : Address) (tokenAmountIn minRefundWei : Option Int)
    (p : BuildParams) : Except String Transaction :=
  if tokenAmountIn = none ∨ minRefundWei = none then
    Except.error "tokenAmountIn and minRefundWei are required"
  else
    match buildSellData tokenAmountIn minRefundWei b.deadline with
    | Except.error e => Except.error e
    | Except.ok data => buildDynamicTx b.ChainID pair (some 0) data p

/-- The method `Builder.BuildApproveTx`. -/
def Builder.BuildApproveTx (b : Builder) (token spender : Address) (amount : Option Int)
    (p : BuildParams) : Except String Transaction :=
  if amount = none then Except.error "amount is required"
  else
    match buildApproveData spender amount with
    | Except.error e => Except.error e
    | Except.ok data => buildDynamicTx b.ChainID token (some 0) data p

/-- The parameters `buildDynamicTx` accepts: a non-zero gas limit and two fee
caps that are present and not negative. -/
def BuildParams.valid (p : BuildParams) : Prop :=
  p.GasLimit ≠ 0 ∧
  (∃ f : Int, p.Fee.MaxFeePerGas = some f ∧ 0 ≤ f) ∧
  (∃ t : Int, p.Fee.MaxPriorityFeePerGas = some t ∧ 0 ≤ t)

/-- The value of a big-endian byte string. -/
def fromBytesBE (bs : List Byte) : Nat :=
  bs.foldl (fun acc b => acc * 256 + b.val) 0

/-- ABI decoding of static arguments: the `i`-th 32-byte word (from 0) that
follows the 4-byte selector. -/
def abiWord (data : List Byte) (i : Nat) : List Byte :=
  (data.drop (4 + 32 * i)).take 32

/-- ABI decoding of a uint256 word: its big-endian value. -/
def decodeUint (w : List Byte) : Nat :=
  fromBytesBE w

/-- ABI decoding of an address word: its last 20 bytes. -/
def decodeAddressBytes (w : List Byte) : List Byte :=
  w.drop 12

/-- The address `common.HexToAddress` gives for 20 equal bytes `x`, as in the
tests of `txbuilder_test.go` (`0x1111...`, `0x2222...`, ...). -/
def testAddress (x : Byte) : Address :=
  ⟨List.replicate 20 x, List.length_replicate 20 x⟩

/-- The parameters of `TestBuildBuyTxCalldata`. -/
def testBuyParams : BuildParams :=
  { Nonce := 7, GasLimit := 210000,
    Fee := { MaxFeePerGas := some 1000000000, MaxPriorityFeePerGas := some 200000000 } }

/-- The parameters of `TestBuildSellTxCalldata`. -/
def testSellParams : BuildParams :=
  { Nonce := 1, GasLimit := 210000,
    Fee := { MaxFeePerGas := some 1000000000, MaxPriorityFeePerGas := some 200000000 } }

/-- The parameters of `TestBuildApproveTxCalldata`. -/
def testApproveParams : BuildParams :=
  { Nonce := 2, GasLimit := 70000,
    Fee := { MaxFeePerGas := some 1000000000, MaxPriorityFeePerGas := some 200000000 } }

/-- The builder of `TestBuildBuyTxCalldata`: chain 8453, a deadline of 120 s
and a clock fixed at `time.Unix(1700000000, 0)`. -/
def testBuyBuilder : Builder :=
  NewBuilderWithClock 8453 (120 * 1000000000) ⟨1700000000 * 1000000000⟩

/-- The builder of `TestBuildSellTxCalldata` (and, but for the clock, of
`TestBuildApproveTxCalldata`): a deadline of 60 s. -/
def testSellBuilder : Builder :=
  NewBuilderWithClock 8453 (60 * 1000000000) ⟨1700000000 * 1000000000⟩

/-- A chain client that reports the pending nonce 7 for every address. -/
def testClient : ChainClient :=
  ⟨fun _ _ => Except.ok 7⟩

/-- A call sequence with three `Next` calls for `0x1111...` and calls for
`0x2222...` in between. -/
def testCalls : List NonceCall :=
  [NonceCall.callNext (testAddress 0x11), NonceCall.callNext (testAddress 0x22),
   NonceCall.callNext (testAddress 0x11), NonceCall.callReset (testAddress 0x22),
   NonceCall.callNext (testAddress 0x22), NonceCall.callNext (testAddress 0x11)]

/-! ## Unit parsing (`internal/txbuilder/erc20.go`)

A Go string is taken as its sequence of Unicode characters; `len` counts the
bytes of the UTF-8 encoding. -/

/-- Go `unicode.IsSpace`: the characters with the Unicode White_Space property. -/
def isSpace (c : Char) : Bool :=
  let n := c.toNat
  decide (n = 0x09 ∨ n = 0x0A ∨ n = 0x0B ∨ n = 0x0C ∨ n = 0x0D ∨ n = 0x20 ∨ n = 0x85 ∨
    n = 0xA0 ∨ n = 0x1680 ∨ (0x2000 ≤ n ∧ n ≤ 0x200A) ∨ n = 0x2028 ∨ n = 0x2029 ∨
    n = 0x202F ∨ n = 0x205F ∨ n = 0x3000)

/-- Go `strings.TrimSpace`. -/
def TrimSpace (s : List Char) : List Char :=
  ((s.dropWhile isSpace).reverse.dropWhile isSpace).reverse

/-- Go `len(s)` of a string: the number of bytes of its UTF-8 encoding. -/
def byteLen (s : List Char) : Nat :=
  (s.map Char.utf8Size).sum

/-- Go `strings.SplitN(s, ".", 2)`: the text before the first dot and, when
there is a dot, the text after it. -/
def splitDot (s : List Char) : List Char × Option (List Char) :=
  match s.dropWhile (fun c => decide (c ≠ '.')) with
  | [] => (s.takeWhile (fun c => decide (c ≠ '.')), none)
  | _ :: after => (s.takeWhile (fun c => decide (c ≠ '.')), some after)

/-- The digit scan of `(*big.Int).SetString` in base 10: every character has to
be one of `0` to `9`. -/
def scanDigits : Nat → List Char → Option Nat
  | acc, [] => some acc
  | acc, c :: cs =>
    if c.isDigit then scanDigits (acc * 10 + (c.toNat - 48)) cs else none

/-- Go `new(big.Int).SetString(s, 10)`: an optional sign, then one decimal digit
or more and nothing else; `none` stands for `ok == false`. -/
def SetString10 (s : List Char) : Option Int :=
  match s with
  | [] => none
  | c :: rest =>
    if c = '+' then
      (if rest = [] then none else (scanDigits 0 rest).map Int.ofNat)
    else if c = '-' then
      (if rest = [] then none else (scanDigits 0 rest).map (fun n => -Int.ofNat n))
    else (scanDigits 0 (c :: rest)).map Int.ofNat

/-- The function `ParseUnits`; `decimals` is a `uint8`. -/
def ParseUnits (amount : List Char) (decimals : Nat) : Except String Int :=
  let amount := TrimSpace amount
  if amount = [] then Except.error "amount is empty"
  else if amount.head? = some '-' then Except.error "amount must be non-negative"
  else
    let parts := splitDot amount
    let intPart := parts.1
    let fracPart := parts.2.getD []
    let intPart := if intPart = [] then ['0'] else intPart
    if decimals < byteLen fracPart then
      Except.error
        ("too many decimal places: " ++ toString (byteLen fracPart) ++ " > " ++ toString decimals)
    else
      let fracPart := fracPart ++ List.replicate (decimals - byteLen fracPart) '0'
      let combined := intPart ++ fracPart
      let combined := combined.dropWhile (fun c => decide (c = '0'))
      if combined = [] then Except.ok 0
      else
        match SetString10 combined with
        | none => Except.error "invalid number format"
        | some v => Except.ok v

/-- The number a string of decimal digits denotes (0 for the empty string). -/
def decimalValue (s : List Char) : Nat :=
  Nat.ofDigits 10 (s.reverse.map (fun c => c.toNat - 48))

/-- A string of decimal digits. -/
def allDigits (s : List Char) : Prop :=
  ∀ c ∈ s, c.isDigit = true

/-! ## Invariants used in the proofs -/

/-- The invariant of the tracker loop for a run started at checkpoint `L`: the
log of persisted values is `L+1, ..., last`, every block marked completed lies
above `last`, and `next` is the uint64 successor of `last`. -/
def TrackerInv (L : Nat) (s : TrackerState) : Prop :=
  (∃ k, s.persisted = List.range' (L + 1) k ∧ s.last = L + k) ∧
  (∀ b ∈ s.completed, s.last < b) ∧
  s.next = (s.last + 1) % u64

/-- The number of `BlockAck{b}` inputs in a trace. -/
def ackCount (b : Nat) (trace : List TrackerInput) : Nat :=
  trace.count (TrackerInput.ack b)

/-- The invariant behind the ack accounting for a block `b` whose published
count is `n`, after `acks` acknowledgements of `b` have been received: the
counter `done` of `b` never exceeds `acks`, `expected` is unset or `n`, and
`b` is marked completed or committed only once `n` acknowledgements came. -/
def AckInv (b : Nat) (n : Int) (acks : Nat) (s : TrackerState) : Prop :=
  (∀ st, s.states b = some st →
    -9223372036854775808 ≤ st.done ∧ st.done ≤ (acks : Int) ∧
      (st.expected = 0 ∨ st.expected = n)) ∧
  (b ∈ s.completed → n ≤ (acks : Int)) ∧
  (b ≤ s.last → n ≤ (acks : Int))

instance allDigits.decidable (s : List Char) : Decidable (allDigits s) := by
  unfold allDigits
  infer_instance

/-- The block number an input of the tracker carries. -/
def TrackerInput.block : TrackerInput → Nat
  | TrackerInput.filtered b _ => b
  | TrackerInput.ack b => b

/-- A `cp.Save` that fails on its first call and succeeds afterwards. -/
def saveFailsOnce : Nat → Bool :=
  fun i => decide (1 ≤ i)

/-! ## Fee oracle (`internal/txbuilder/fees.go`)

A `float64` multiplier is taken as the exact rational number it denotes (the one
`new(big.Rat).SetFloat64` gives); NaN and the infinities are outside the model.
The locks are not modelled: the methods run one after the other. -/

/-- The struct `FeeOracleConfig`; `RefreshInterval` is in nanoseconds. -/
structure FeeOracleConfig where
  RefreshInterval : Int
  MaxFeeMultiplier : Rat
  MinPriorityFeeWei : Option Int

/-- What the chain client answers during one `Refresh`: `HeaderByNumber` is the
`BaseFee` field of the latest header (`none` when the header has none) or an
error, `SuggestGasPrice` a price (possibly `nil`) or an error and
`SuggestGasTipCap` a tip or an error. -/
structure FeeAnswers where
  HeaderByNumber : Except String (Option Int)
  SuggestGasPrice : Except String (Option Int)
  SuggestGasTipCap : Except String Int

/-- The struct `FeeOracle` without its client and lock; `lastSync` is `none` for
the zero `time.Time`. -/
structure FeeOracle where
  cfg : FeeOracleConfig
  baseFee : Option Int
  tipCap : Option Int
  lastSync : Option Time

/-- The constructor `NewFeeOracle`: a non-positive interval becomes 5 s and a
non-positive multiplier 2.0. -/
def NewFeeOracle (cfg : FeeOracleConfig) : FeeOracle where
  cfg :=
    { RefreshInterval := if cfg.RefreshInterval ≤ 0 then 5 * 1000000000 else cfg.RefreshInterval
      MaxFeeMultiplier := if cfg.MaxFeeMultiplier ≤ 0 then 2 else cfg.MaxFeeMultiplier
      MinPriorityFeeWei := cfg.MinPriorityFeeWei }
  baseFee := none
  tipCap := none
  lastSync := none

/-- The method `FeeOracle.fetchBaseFee`: the base fee of the header, or the
suggested gas price on a chain without one. -/
def fetchBaseFee (ans : FeeAnswers) : Except String (Option Int) :=
  match ans.HeaderByNumber with
  | Except.error e => Except.error e
  | Except.ok (some baseFee) => Except.ok (some baseFee)
  | Except.ok none =>
    match ans.SuggestGasPrice with
    | Except.error e => Except.error e
    | Except.ok price => Except.ok price

/-- The method `FeeOracle.Refresh` at clock reading `now`: the returned error
(`none` for `nil`) and the oracle afterwards. -/
def FeeOracle.Refresh (o : FeeOracle) (ans : FeeAnswers) (now : Time) :
    Option String × FeeOracle :=
  match fetchBaseFee ans with
  | Except.error e => (some e, o)
  | Except.ok baseFee =>
    match ans.SuggestGasTipCap with
    | Except.error e => (some e, o)
    | Except.ok tip =>
      let tip1 : Int :=
        match o.cfg.MinPriorityFeeWei with
        | some minTip => if tip < minTip then minTip else tip
        | none => tip
      (none, { o with baseFee := baseFee, tipCap := some tip1, lastSync := some now })

/-- The method `FeeOracle.snapshot`: the stored pair, after a synchronous
refresh when one of the two is missing. -/
def FeeOracle.snapshot (o : FeeOracle) (ans : FeeAnswers) (now : Time) :
    Except String (Int × Int) × FeeOracle :=
  match o.baseFee, o.tipCap with
  | some baseFee, some tip => (Except.ok (baseFee, tip), o)
  | _, _ =>
    match o.Refresh ans now with
    | (some e, o1) => (Except.error e, o1)
    | (none, o1) =>
      match o1.baseFee, o1.tipCap with
      | some baseFee, some tip => (Except.ok (baseFee, tip), o1)
      | _, _ => (Except.error "fee oracle unavailable", o1)

/-- The function `mulFloat`: `out.Div(r.Num(), r.Denom())` is the Euclidean
quotient of the numerator by the positive denominator of the product. -/
def mulFloat (v : Option Int) (f : Rat) : Int :=
  match v with
  | none => 0
  | some x =>
    if f = 1 then x
    else ((x : Rat) * f).num / (((x : Rat) * f).den : Int)

/-- The method `FeeOracle.Fees`. -/
def FeeOracle.Fees (o : FeeOracle) (ans : FeeAnswers) (now : Time) :
    Except String FeeParams × FeeOracle :=
  match o.snapshot ans now with
  | (Except.error e, o1) => (Except.error e, o1)
  | (Except.ok (baseFee, tip), o1) =>
    (Except.ok
      { MaxFeePerGas := some (mulFloat (some baseFee) o1.cfg.MaxFeeMultiplier + tip)
        MaxPriorityFeePerGas := some tip }, o1)

/-- An oracle that holds base fee 1 and tip 0 with the multiplier 1.5. -/
def testOracle : FeeOracle :=
  { cfg := { RefreshInterval := 5 * 1000000000, MaxFeeMultiplier := 3 / 2,
             MinPriorityFeeWei := none }
    baseFee := some 1
    tipCap := some 0
    lastSync := none }

/-- Chain answers with base fee 1000 in the header and a suggested tip of 7. -/
def testFeeAnswers : FeeAnswers :=
  { HeaderByNumber := Except.ok (some 1000)
    SuggestGasPrice := Except.ok (some 5)
    SuggestGasTipCap := Except.ok 7 }

/-! ## Gas multiplier (`internal/txbuilder/auto.go`) and `float64`

A `float64` is NaN, an infinity or a finite number `(-1)^neg * mant * 2^exp`;
every finite `float64` has such a form with `mant < 2^53` and
`-1074 <= exp <= 971`. Arithmetic is IEEE 754 binary64 with rounding to
nearest, ties to even. -/

/-- A value of the Go type `float64`. -/
inductive Float64 where
  | nan
  | inf (neg : Bool)
  | finite (neg : Bool) (mant : Nat) (exp : Int)
deriving DecidableEq

/-- The number of binary digits of `n` (0 for `n = 0`), by halving; `fuel`
bounds the number of halvings. -/
def bitLenAux : Nat → Nat → Nat
  | 0, _ => 0
  | fuel + 1, n => if n = 0 then 0 else bitLenAux fuel (n / 2) + 1

/-- The number of binary digits of `n`: `n` halvings are enough. -/
def bitLen (n : Nat) : Nat :=
  bitLenAux n n

/-- The `float64` nearest to `(-1)^neg * M * 2^E`, ties to even: the mantissa
keeps 53 bits (fewer below `2^-1022`), and a rounded value of `2^1024` or more
is an infinity. -/
def roundNearestEven (neg : Bool) (M : Nat) (E : Int) : Float64 :=
  if M = 0 then Float64.finite neg 0 0
  else
    let bits : Int := (bitLen M : Int)
    let e : Int := max (E + bits - 53) (-1074)
    if e ≤ E then
      (if E + bits > 1024 then Float64.inf neg else Float64.finite neg M E)
    else
      let k : Nat := (e - E).toNat
      let q : Nat := M / 2 ^ k
      let r : Nat := M % 2 ^ k
      let half : Nat := 2 ^ (k - 1)
      let m : Nat := if half < r ∨ (r = half ∧ q % 2 = 1) then q + 1 else q
      if m = 0 then Float64.finite neg 0 0
      else if e + (bitLen m : Int) > 1024 then Float64.inf neg
      else Float64.finite neg m e

/-- The conversion `float64(gas)` of a `uint64`. -/
def Float64.ofUint64 (gas : Nat) : Float64 :=
  roundNearestEven false gas 0

/-- The product `a * b` of two `float64` values. -/
def Float64.mul : Float64 → Float64 → Float64
  | Float64.nan, _ => Float64.nan
  | _, Float64.nan => Float64.nan
  | Float64.inf n1, Float64.inf n2 => Float64.inf (xor n1 n2)
  | Float64.inf n1, Float64.finite n2 m _ =>
    if m = 0 then Float64.nan else Float64.inf (xor n1 n2)
  | Float64.finite n1 m _, Float64.inf n2 =>
    if m = 0 then Float64.nan else Float64.inf (xor n1 n2)
  | Float64.finite n1 m1 e1, Float64.finite n2 m2 e2 =>
    roundNearestEven (xor n1 n2) (m1 * m2) (e1 + e2)

/-- The comparison `x <= 0` of a `float64`: false for NaN. -/
def Float64.leZero : Float64 → Bool
  | Float64.nan => false
  | Float64.inf neg => neg
  | Float64.finite neg mant _ => neg || decide (mant = 0)

/-- The integer part of `mant * 2^exp`. -/
def truncVal (mant : Nat) (exp : Int) : Nat :=
  if 0 ≤ exp then mant * 2 ^ exp.toNat else mant / 2 ^ (-exp).toNat

/-- The conversion `uint64(x)` of a `float64`: the fraction is discarded; for a
value no `uint64` represents (NaN, an infinity, a value of `2^64` or more or of
`-1` or less) the result depends on the implementation and is `impl x`. -/
def Float64.toUint64 (impl : Float64 → Nat) (x : Float64) : Nat :=
  match x with
  | Float64.nan => impl x % u64
  | Float64.inf _ => impl x % u64
  | Float64.finite neg mant exp =>
    let t : Nat := truncVal mant exp
    if neg then (if t = 0 then 0 else impl x % u64)
    else if t < u64 then t else impl x % u64

/-- The function `applyGasMultiplier`. -/
def applyGasMultiplier (impl : Float64 → Nat) (gas : Nat) (mult : Float64) : Nat :=
  if mult.leZero then gas
  else
    let adjusted := Float64.toUint64 impl ((Float64.ofUint64 gas).mul mult)
    if adjusted < gas then gas else adjusted

/-- The rational number a finite `float64` denotes (0 for NaN and the
infinities). -/
def Float64.toRat : Float64 → Rat
  | Float64.nan => 0
  | Float64.inf _ => 0
  | Float64.finite neg mant exp => (if neg then -1 else 1) * (mant : Rat) * (2 : Rat) ^ exp

/-- The `float64` of the Go literal `1.2`, `0x3FF3333333333333`. -/
def float64_1_2 : Float64 :=
  Float64.finite false 5404319552844595 (-52)

/-- The `float64` of the Go literal `1.5`. -/
def float64_1_5 : Float64 :=
  Float64.finite false 3 (-1)

/-- The result of an out-of-range conversion on amd64: `0x8000000000000000`. -/
def implAmd64 : Float64 → Nat :=
  fun _ => 9223372036854775808

/-! ## Auto builder and trade service (`internal/txbuilder/auto.go`,
`internal/trade/service.go`) -/

/-- The struct `AutoBuilderConfig`. -/
structure AutoBuilderConfig where
  GasLimitMultiplier : Float64

/-- The struct `AutoBuilder`; the `NonceProvider` is the `NonceManager`, the one
implementation of the interface. -/
structure AutoBuilder where
  builder : Option Builder
  client : Option ChainClient
  oracle : Option FeeOracle
  cfg : AutoBuilderConfig
  nonce : Option NonceManager

/-- The constructor `NewAutoBuilder`: a non-positive gas multiplier becomes 1.2. -/
def NewAutoBuilder (builder : Option Builder) (client : Option ChainClient)
    (oracle : Option FeeOracle) (cfg : AutoBuilderConfig) : AutoBuilder where
  builder := builder
  client := client
  oracle := oracle
  cfg :=
    { GasLimitMultiplier :=
        if cfg.GasLimitMultiplier.leZero then float64_1_2 else cfg.GasLimitMultiplier }
  nonce := none

/-- The method `AutoBuilder.SetNonceProvider`. -/
def AutoBuilder.SetNonceProvider (a : AutoBuilder) (provider : Option NonceManager) :
    AutoBuilder :=
  { a with nonce := provider }

/-- The method `AutoBuilder.ResetNonce`. -/
def AutoBuilder.ResetNonce (a : AutoBuilder) (sender : Address) : AutoBuilder :=
  match a.nonce with
  | some m => { a with nonce := some (m.Reset sender) }
  | none => a

/-- The method `AutoBuilder.ChainID`. -/
def AutoBuilder.ChainID (a : AutoBuilder) : Int :=
  match a.builder with
  | none => 0
  | some b =>
    match b.ChainID with
    | none => 0
    | some cid => cid

/-- The struct `TxResult`; `Tx` holds the transaction that `TxSummary`
summarises. -/
structure TxResult where
  Tx : Option Transaction
  TxHash : String
  SimulationError : String

/-- The struct `Service`; for the RPC client and the key store only their
presence (`!= nil`) matters here. -/
structure Service where
  auto : Option AutoBuilder
  client : Bool
  keys : Bool

/-- What the collaborators of `signAndSend` answer during one call: the error of
`client.CallContract` in `simulateTx` (`none` for `nil`), the result of
`keys.SignTransaction`, the error of `client.SendTransaction`, and the text of
`signed.Hash().Hex()`. -/
structure SendEnv where
  CallContract : Option String
  SignTransaction : Except String Transaction
  SendTransaction : Option String
  hashHex : Transaction → String

/-- A call `signAndSend` makes on a collaborator, for the call log. -/
inductive TradeCall where
  | simulate
  | sign (sender : Address) (chainID : Int)
  | send (signed : Transaction)
  | resetNonce (sender : Address)
deriving DecidableEq

/-- The result of one `signAndSend`: the returned pair `(*TxResult, error)`, or
`none` when the Go code dereferences the nil client in `SendTransaction`; the
service afterwards; the calls made, in order. -/
structure SendOutcome where
  returned : Option (Option TxResult × Option String)
  service : Service
  calls : List TradeCall

/-- The function `simulateTx`. -/
def simulateTx (clientPresent : Bool) (env : SendEnv) : Option String :=
  if clientPresent then env.CallContract else some "client is nil"

/-- The method `Service.signAndSend`. -/
def Service.signAndSend (s : Service) (env : SendEnv) (sender : Address)
    (tx : Option Transaction) (simulate : Bool) : SendOutcome :=
  match tx with
  | none => ⟨some (none, some "transaction is nil"), s, []⟩
  | some t =>
    match s.auto with
    | none => ⟨some (none, some "auto builder not configured"), s, []⟩
    | some a =>
      let simErr : Option String := if simulate then simulateTx s.client env else none
      let pre : List TradeCall := if simulate then [TradeCall.simulate] else []
      match simErr with
      | some e => ⟨some (some ⟨some t, "", e⟩, none), s, pre⟩
      | none =>
        if s.keys = false then ⟨some (none, some "keystore not configured"), s, pre⟩
        else
          match env.SignTransaction with
          | Except.error e =>
            ⟨some (none, some e), { s with auto := some (a.ResetNonce sender) },
              pre ++ [TradeCall.sign sender a.ChainID, TradeCall.resetNonce sender]⟩
          | Except.ok signed =>
            if s.client = false then
              ⟨none, s, pre ++ [TradeCall.sign sender a.ChainID]⟩
            else
              match env.SendTransaction with
              | some e =>
                ⟨some (none, some e), { s with auto := some (a.ResetNonce sender) },
                  pre ++ [TradeCall.sign sender a.ChainID, TradeCall.send signed,
                    TradeCall.resetNonce sender]⟩
              | none =>
                ⟨some (some ⟨some signed, env.hashHex signed, ""⟩, none), s,
                  pre ++ [TradeCall.sign sender a.ChainID, TradeCall.send signed]⟩

/-- A service with key store, client and an auto builder whose nonce manager
has handed out nonces to `0x1111...` and `0x2222...`. -/
def testService : Service :=
  { auto := some
      { builder := some testBuyBuilder, client := some testClient, oracle := some testOracle,
        cfg := ⟨float64_1_2⟩,
        nonce := some (runCalls (NewNonceManager (some testClient)) testCalls).2 }
    client := true
    keys := true }

/-- A transaction as `buildDynamicTx` makes it, for the examples. -/
def testTx : Transaction :=
  { ChainID := 8453, Nonce := 7, Gas := 210000, GasFeeCap := 1000000000,
    GasTipCap := 200000000, To := testAddress 0x11, Value := 1, Data := selectorBuy }

/-- Collaborators whose signing fails. -/
def testEnvSignFails : SendEnv :=
  { CallContract := none, SignTransaction := Except.error "locked",
    SendTransaction := none, hashHex := fun _ => "0xhash" }

/-! ## Queue items and filter (`internal/queue/types.go`, `internal/app/filter.go`) -/

/-- The type `common.Hash`: an array of 32 bytes. -/
structure Hash where
  bytes : List Byte
  size : bytes.length = 32
deriving DecidableEq

/-- The struct `queue.RawTx`; the field `Type` is named `TxType` here. -/
structure RawTx where
  Hash : String
  From : String
  To : String
  Nonce : Nat
  ValueWei : String
  Gas : Nat
  GasPriceWei : String
  MaxFeePerGasWei : String
  MaxPriorityFeeWei : String
  TxType : Nat
  Input : String
  ParseErrors : List String
deriving DecidableEq

/-- The struct `queue.TxItem`; `Tx` is `none` for a nil pointer. -/
structure TxItem where
  BlockNumber : Nat
  BlockHash : Hash
  Timestamp : Nat
  Tx : Option RawTx
  End : Bool
deriving DecidableEq

/-- The struct `queue.FilteredTx`. -/
structure FilteredTx where
  BlockNumber : Nat
  BlockHash : Hash
  Timestamp : Nat
  Tx : Option RawTx
deriving DecidableEq

/-- The struct `queue.BlockFiltered`. -/
structure BlockFiltered where
  BlockNumber : Nat
  FilteredCount : Int
deriving DecidableEq

/-- A value `runFilter` sends: a `FilteredTx` on `out` or a `BlockFiltered` on
`blockFiltered`. The outputs of a run are listed in sending order. -/
inductive FilterOut where
  | forwarded (f : FilteredTx)
  | published (b : BlockFiltered)
deriving DecidableEq

/-- One received item in the loop of `runFilter`: the map `counts` afterwards
and what is sent. `EqualFold` is `strings.EqualFold` and `factoryHex` the text
`common.HexToAddress(cfg.FactoryAddress).Hex()`. -/
def filterStep (EqualFold : String → String → Bool) (factoryHex : String)
    (counts : Nat → Option Int) (item : TxItem) : (Nat → Option Int) × List FilterOut :=
  if item.End then
    (fun k => if k = item.BlockNumber then none else counts k,
      [FilterOut.published ⟨item.BlockNumber, (counts item.BlockNumber).getD 0⟩])
  else
    match item.Tx with
    | none => (counts, [])
    | some tx =>
      if tx.To = "" then (counts, [])
      else if EqualFold tx.To factoryHex = false then (counts, [])
      else
        (fun k =>
            if k = item.BlockNumber then
              some (wrapInt ((counts item.BlockNumber).getD 0 + 1))
            else counts k,
          [FilterOut.forwarded ⟨item.BlockNumber, item.BlockHash, item.Timestamp, some tx⟩])

/-- The loop of `runFilter` on the items received, from a given map `counts`,
up to the cancellation of the context. -/
def runFilterFrom (EqualFold : String → String → Bool) (factoryHex : String) :
    (Nat → Option Int) → List TxItem → (Nat → Option Int) × List FilterOut
  | counts, [] => (counts, [])
  | counts, item :: rest =>
    let r := filterStep EqualFold factoryHex counts item
    let r2 := runFilterFrom EqualFold factoryHex r.1 rest
    (r2.1, r.2 ++ r2.2)

/-- The function `runFilter` on a finite sequence of received items: the map
`counts` at the end and the values sent, in order. -/
def runFilter (EqualFold : String → String → Bool) (factoryHex : String)
    (items : List TxItem) : (Nat → Option Int) × List FilterOut :=
  runFilterFrom EqualFold factoryHex (fun _ => none) items

/-- The `FilteredTx` values among the outputs, in order. -/
def forwardedOf : List FilterOut → List FilteredTx
  | [] => []
  | FilterOut.forwarded f :: rest => f :: forwardedOf rest
  | FilterOut.published _ :: rest => forwardedOf rest

/-- The `BlockFiltered` values among the outputs, in order. -/
def publishedOf : List FilterOut → List BlockFiltered
  | [] => []
  | FilterOut.forwarded _ :: rest => publishedOf rest
  | FilterOut.published b :: rest => b :: publishedOf rest

/-- An item that is to be forwarded: not an END marker, with a transaction whose
`to` is not empty and equals the factory address under case folding. -/
def matchesFactory (EqualFold : String → String → Bool) (factoryHex : String)
    (item : TxItem) : Bool :=
  !item.End &&
    (match item.Tx with
     | none => false
     | some tx => decide (tx.To ≠ "") && EqualFold tx.To factoryHex)

/-- The `FilteredTx` made from an item. -/
def toFiltered (item : TxItem) : FilteredTx :=
  ⟨item.BlockNumber, item.BlockHash, item.Timestamp, item.Tx⟩

/-- The number of items to be forwarded for block `B` in the history `pre`
since the last END marker of `B` (or since the start). -/
def countSinceEnd (EqualFold : String → String → Bool) (factoryHex : String) (B : Nat)
    (pre : List TxItem) : Nat :=
  ((pre.reverse.takeWhile (fun it => !(it.End && decide (it.BlockNumber = B)))).filter
    (fun it => matchesFactory EqualFold factoryHex it && decide (it.BlockNumber = B))).length

/-- What the filter is to send for the items `rest` after the history `pre`:
for an END marker of block `B` one `BlockFiltered` with the count since the
previous END of `B`, for an item to be forwarded its `FilteredTx`, for any
other item nothing. -/
def expectedOutputs (EqualFold : String → String → Bool) (factoryHex : String) :
    List TxItem → List TxItem → List FilterOut
  | _, [] => []
  | pre, item :: rest =>
    (if item.End then
        [FilterOut.published
          ⟨item.BlockNumber, (countSinceEnd EqualFold factoryHex item.BlockNumber pre : Int)⟩]
      else if matchesFactory EqualFold factoryHex item then
        [FilterOut.forwarded (toFiltered item)]
      else [])
    ++ expectedOutputs EqualFold factoryHex (pre ++ [item]) rest

/-- The map `counts` that belongs to a history: no entry for a block without
forwarded items since its last END, else the number of these items. -/
def CountsOf (EqualFold : String → String → Bool) (factoryHex : String)
    (pre : List TxItem) (counts : Nat → Option Int) : Prop :=
  ∀ B, counts B =
    if countSinceEnd EqualFold factoryHex B pre = 0 then none
    else some (countSinceEnd EqualFold factoryHex B pre : Int)

/-- A hash of 32 equal bytes, for the examples. -/
def testHash (x : Byte) : Hash :=
  ⟨List.replicate 32 x, List.length_replicate 32 x⟩

/-- A transaction record sent to `toAddr`, for the examples. -/
def testRawTx (toAddr : String) : RawTx :=
  { Hash := "0xabc", From := "0x01", To := toAddr, Nonce := 0, ValueWei := "0", Gas := 21000,
    GasPriceWei := "", MaxFeePerGasWei := "", MaxPriorityFeeWei := "", TxType := 2,
    Input := "0x", ParseErrors := [] }

/-- A case-insensitive comparison of ASCII texts, standing for
`strings.EqualFold` in the examples. -/
def asciiEqualFold (a b : String) : Bool :=
  a.data.map Char.toLower == b.data.map Char.toLower

/-- The items of two blocks: block 5 with one transaction to the factory and one
to another address, block 6 with none. -/
def testItems : List TxItem :=
  [⟨5, testHash 5, 100, some (testRawTx "0xFAC"), false⟩,
   ⟨5, testHash 5, 100, some (testRawTx "0xother"), false⟩,
   ⟨5, testHash 5, 100, none, true⟩,
   ⟨6, testHash 6, 101, none, true⟩]

/-! ## Retry helper and enricher (`internal/util/retry.go`, `internal/app/enrich.go`)

The context is never cancelled in this model: `ctx.Err()` is `nil`, every timer
fires and every channel send goes through. -/

/-- What a call of `util.Retry` leaves: the returned error (`none` for `nil`),
the variables the operation has captured, the number of invocations of the
operation and the waits made between them, in nanoseconds. -/
structure RetryResult (σ : Type) where
  err : Option String
  state : σ
  calls : Nat
  waits : List Int

/-- The loop of `Retry` from the iteration `attempt`, with `remaining = max -
attempt` iterations after it. `fn attempt s` is the invocation number `attempt`
of the operation on the captured variables `s`. The wait after a failed
attempt is `backoff * time.Duration(1<<attempt)` in `int64` arithmetic. -/
def retryFrom {σ : Type} (backoff : Int) (fn : Nat → σ → Option String × σ) :
    Nat → Nat → σ → List Int → RetryResult σ
  | 0, attempt, s, waits =>
    match fn attempt s with
    | (none, s1) => ⟨none, s1, attempt + 1, waits⟩
    | (some e, s1) => ⟨some e, s1, attempt + 1, waits⟩
  | remaining + 1, attempt, s, waits =>
    match fn attempt s with
    | (none, s1) => ⟨none, s1, attempt + 1, waits⟩
    | (some _, s1) =>
      retryFrom backoff fn remaining (attempt + 1) s1
        (waits ++ [wrapInt (backoff * wrapInt (2 ^ attempt))])

/-- The function `util.Retry` under a context that is not cancelled; for a
negative `max` the loop body never runs and `nil` is returned. -/
def Retry {σ : Type} (max : Int) (backoff : Int) (fn : Nat → σ → Option String × σ) (s : σ) :
    RetryResult σ :=
  if max < 0 then ⟨none, s, 0, []⟩
  else retryFrom backoff fn max.toNat 0 s []

/-- The fields of `types.Log` a decoder reads. -/
structure Log where
  Address : PumpPilot.Address
  Topics : List Hash
  Data : List Byte
deriving DecidableEq

/-- The fields of `types.Receipt` the enricher reads. -/
structure Receipt where
  Status : Nat
  CumulativeGasUsed : Nat
  GasUsed : Nat
  TransactionIndex : Nat
  Logs : List Log
  EffectiveGasPrice : Option Int
  ContractAddress : PumpPilot.Address
deriving DecidableEq

/-- The struct `queue.ReceiptInfo`. -/
structure ReceiptInfo where
  Status : Nat
  CumulativeGasUsed : Nat
  GasUsed : Nat
  EffectiveGasPrice : String
  ContractAddress : String
  TxIndex : Nat
  LogsCount : Int
deriving DecidableEq

/-- The struct `queue.DecodedMethod`; the argument map is kept as a list of
name and rendered value. -/
structure DecodedMethod where
  Name : String
  Args : List (String × String)
deriving DecidableEq

/-- The struct `queue.DecodedLog`. -/
structure DecodedLog where
  Event : String
  Address : String
  Args : List (String × String)
  Topics : List String
  Data : String
deriving DecidableEq

/-- The struct `queue.EnrichedTx`; the field `Type` is named `TxType` here. -/
structure EnrichedTx where
  Chain : String
  ChainID : Nat
  BlockNumber : Nat
  BlockHash : String
  BlockTimestamp : Nat
  TxHash : String
  From : String
  To : String
  Nonce : Nat
  ValueWei : String
  Gas : Nat
  GasPriceWei : String
  MaxFeePerGasWei : String
  MaxPriorityFee : String
  TxType : Nat
  Input : String
  Method : Option DecodedMethod
  Receipt : Option ReceiptInfo
  DecodedLogs : List DecodedLog
  PoolAddress : String
  TokenAddresses : List String
  Errors : List String
  Meta : List (String × String)
deriving DecidableEq

/-- The configuration fields the enricher reads: `cfg.Chain`, `cfg.ChainID`,
`cfg.Performance.RetryMax`, `cfg.Performance.RetryBackoff` (nanoseconds),
`cfg.Decoding.DecodeLogs` and `cfg.Decoding.DecodeInput`. -/
structure EnrichConfig where
  Chain : String
  ChainID : Nat
  RetryMax : Int
  RetryBackoff : Int
  DecodeLogs : Bool
  DecodeInput : Bool

/-- The functions the enricher calls on values: `Hash.Hex`, `Address.Hex`,
`hexutil.Decode`, and the decoder's `DecodeLogs` and `DecodeInput`, each by its
result. -/
structure EnrichLib where
  hashHex : Hash → String
  addressHex : PumpPilot.Address → String
  hexDecode : String → Except String (List Byte)
  DecodeLogs : List Log → Except String (List DecodedLog × String × List String)
  DecodeInput : List Byte → Except String (Option DecodedMethod)

/-- The function `fetchReceiptWithRetry`; `TransactionReceipt j` is the answer
of the client to the call number `j`. The captured variable `receipt` is set
by a successful call only. -/
def fetchReceiptWithRetry (cfg : EnrichConfig)
    (TransactionReceipt : Nat → Except String (Option Receipt)) :
    Option Receipt × Option String :=
  let r := Retry cfg.RetryMax cfg.RetryBackoff
    (fun j (receipt : Option Receipt) =>
      match TransactionReceipt j with
      | Except.error e => (some e, receipt)
      | Except.ok rc => (none, rc))
    none
  (r.state, r.err)

/-- The zero value `common.Address{}`. -/
def zeroAddress : PumpPilot.Address :=
  ⟨List.replicate 20 0, List.length_replicate 20 0⟩

/-- The record `enrichWorker` starts from: the copied fields and the parse
errors of the transaction. -/
def enrichStart (lib : EnrichLib) (cfg : EnrichConfig) (item : FilteredTx) (tx : RawTx) :
    EnrichedTx :=
  { Chain := cfg.Chain, ChainID := cfg.ChainID, BlockNumber := item.BlockNumber,
    BlockHash := lib.hashHex item.BlockHash, BlockTimestamp := item.Timestamp,
    TxHash := tx.Hash, From := tx.From, To := tx.To, Nonce := tx.Nonce,
    ValueWei := tx.ValueWei, Gas := tx.Gas, GasPriceWei := tx.GasPriceWei,
    MaxFeePerGasWei := tx.MaxFeePerGasWei, MaxPriorityFee := tx.MaxPriorityFeeWei,
    TxType := 0, Input := tx.Input, Method := none, Receipt := none, DecodedLogs := [],
    PoolAddress := "", TokenAddresses := [], Errors := [] ++ tx.ParseErrors, Meta := [] }

/-- The block `if item.Tx.Type > 255 { ... } else { ... }`. -/
def enrichType (tx : RawTx) (e : EnrichedTx) : EnrichedTx :=
  if 255 < tx.TxType then { e with TxType := 255, Errors := e.Errors ++ ["tx_type_overflow"] }
  else { e with TxType := tx.TxType }

/-- The struct literal `&queue.ReceiptInfo{...}` with the two optional fields
filled in. -/
def receiptInfo (lib : EnrichLib) (receipt : Receipt) : ReceiptInfo :=
  { Status := receipt.Status, CumulativeGasUsed := receipt.CumulativeGasUsed,
    GasUsed := receipt.GasUsed, TxIndex := receipt.TransactionIndex,
    LogsCount := (receipt.Logs.length : Int),
    EffectiveGasPrice :=
      match receipt.EffectiveGasPrice with
      | some p => toString p
      | none => "",
    ContractAddress :=
      if receipt.ContractAddress ≠ zeroAddress then lib.addressHex receipt.ContractAddress
      else "" }

/-- The block `if item.Tx.Hash == "" { ... } else { ... }`: the receipt fetch
and the decoding of its logs. -/
def enrichReceipt (lib : EnrichLib) (cfg : EnrichConfig)
    (TransactionReceipt : Nat → Except String (Option Receipt)) (tx : RawTx) (e : EnrichedTx) :
    EnrichedTx :=
  if tx.Hash = "" then { e with Errors := e.Errors ++ ["missing_tx_hash"] }
  else
    match fetchReceiptWithRetry cfg TransactionReceipt with
    | (_, some rerr) => { e with Errors := e.Errors ++ ["receipt: " ++ rerr] }
    | (none, none) => e
    | (some receipt, none) =>
      let e1 : EnrichedTx := { e with Receipt := some (receiptInfo lib receipt) }
      if cfg.DecodeLogs then
        match lib.DecodeLogs receipt.Logs with
        | Except.error derr => { e1 with Errors := e1.Errors ++ ["decode_logs: " ++ derr] }
        | Except.ok (logs, pool, tokens) =>
          { e1 with DecodedLogs := logs, PoolAddress := pool, TokenAddresses := tokens }
      else e1

/-- The block `if cfg.Decoding.DecodeInput && item.Tx.Input != "" { ... }`. -/
def enrichInput (lib : EnrichLib) (cfg : EnrichConfig) (tx : RawTx) (e : EnrichedTx) :
    EnrichedTx :=
  if cfg.DecodeInput = true ∧ tx.Input ≠ "" then
    match lib.hexDecode tx.Input with
    | Except.error derr => { e with Errors := e.Errors ++ ["decode_input_hex: " ++ derr] }
    | Except.ok inputBytes =>
      match lib.DecodeInput inputBytes with
      | Except.error err => { e with Errors := e.Errors ++ ["decode_input: " ++ err] }
      | Except.ok method => { e with Method := method }
  else e

/-- The record `enrichWorker` has built for one item when it reaches the two
sends. -/
def enrichItem (lib : EnrichLib) (cfg : EnrichConfig)
    (TransactionReceipt : Nat → Except String (Option Receipt)) (item : FilteredTx)
    (tx : RawTx) : EnrichedTx :=
  enrichInput lib cfg tx
    (enrichReceipt lib cfg TransactionReceipt tx (enrichType tx (enrichStart lib cfg item tx)))

/-- A value `enrichWorker` sends: an `EnrichedTx` on `out` or a block number on
`blockAck`. The outputs of a worker are listed in sending order. -/
inductive EnrichOut where
  | enriched (e : EnrichedTx)
  | ack (b : Nat)
deriving DecidableEq

/-- The loop of `enrichWorker` on the items it consumes, each with the answers
of the client to the receipt calls made for it: an item without transaction
takes the `continue`, any other item is enriched, sent on `out` and then
acknowledged on `blockAck`. -/
def enrichWorker (lib : EnrichLib) (cfg : EnrichConfig) :
    List (FilteredTx × (Nat → Except String (Option Receipt))) → List EnrichOut
  | [] => []
  | (item, rpc) :: rest =>
    match item.Tx with
    | none => enrichWorker lib cfg rest
    | some tx =>
      EnrichOut.enriched (enrichItem lib cfg rpc item tx) :: EnrichOut.ack item.BlockNumber ::
        enrichWorker lib cfg rest

/-- Library functions for the examples: decoders that always fail. -/
def testLib : EnrichLib :=
  { hashHex := fun _ => "0xblock", addressHex := fun _ => "0xaddr",
    hexDecode := fun _ => Except.error "bad hex",
    DecodeLogs := fun _ => Except.error "no abi",
    DecodeInput := fun _ => Except.error "no abi" }

/-- A configuration for the examples: three retries, both decodings on. -/
def testEnrichConfig : EnrichConfig :=
  { Chain := "base", ChainID := 8453, RetryMax := 3, RetryBackoff := 500000000,
    DecodeLogs := true, DecodeInput := true }

/-! ## Block fetcher (`internal/app/block_fetcher.go`)

The context is never cancelled: every send on `out` goes through. The log
lines are not modelled. -/

/-- The struct `rpcTx`; `To` is `none` for a nil pointer and the field `Type`
is named `TxType` here. -/
structure rpcTx where
  Hash : String
  From : String
  To : Option String
  Nonce : String
  Value : String
  Gas : String
  GasPrice : String
  MaxFeePerGas : String
  MaxPriorityFeePerGas : String
  TxType : String
  Input : String
deriving DecidableEq

/-- The struct `rpcBlock`. -/
structure rpcBlock where
  Number : String
  Hash : String
  Timestamp : String
  Transactions : List rpcTx
deriving DecidableEq

/-- The functions of go-ethereum the block fetcher calls: `hexutil.DecodeUint64`,
`hexutil.DecodeBig` (an error carries its text) and `common.HexToHash`. -/
structure HexLib where
  DecodeUint64 : String → Except String Nat
  DecodeBig : String → Except String Int
  HexToHash : String → Hash

/-- Go `strings.TrimSpace` on a string value. -/
def trimString (s : String) : String :=
  String.mk (TrimSpace s.data)

/-- The function `decodeUint64`: the decoded value and the slice `*errs`
afterwards; the entry is `fmt.Sprintf("%s: %v", field, err)`. -/
def decodeUint64 (lib : HexLib) (value : String) (errs : List String) (field : String) :
    Nat × List String :=
  let value := trimString value
  if value = "" then (0, errs)
  else
    match lib.DecodeUint64 value with
    | Except.error err => (0, errs ++ [field ++ ": " ++ err])
    | Except.ok v => (v, errs)

/-- The function `decodeBigString`: the decimal text of the decoded value and
the slice `*errs` afterwards. -/
def decodeBigString (lib : HexLib) (value : String) (errs : List String) (field : String)
    (allowZero : Bool) : String × List String :=
  let value := trimString value
  if value = "" then
    (if allowZero then "0" else "", errs)
  else
    match lib.DecodeBig value with
    | Except.error err =>
      (if allowZero then "0" else "", errs ++ [field ++ ": " ++ err])
    | Except.ok v => (toString v, errs)

/-- The function `parseRawTx`; `none` stands for the result `(nil, false)`. -/
def parseRawTx (lib : HexLib) (tx : rpcTx) : Option RawTx :=
  let errs : List String := []
  let toAddr : String :=
    match tx.To with
    | some t => trimString t
    | none => ""
  let input := trimString tx.Input
  let input := if input = "" then "0x" else input
  let nonce := decodeUint64 lib tx.Nonce errs "nonce"
  let gas := decodeUint64 lib tx.Gas nonce.2 "gas"
  let txType := decodeUint64 lib tx.TxType gas.2 "type"
  let value := decodeBigString lib tx.Value txType.2 "value" true
  let gasPrice := decodeBigString lib tx.GasPrice value.2 "gasPrice" false
  let maxFee := decodeBigString lib tx.MaxFeePerGas gasPrice.2 "maxFeePerGas" false
  let maxPriority :=
    decodeBigString lib tx.MaxPriorityFeePerGas maxFee.2 "maxPriorityFeePerGas" false
  if tx.Hash = "" then none
  else
    some
      { Hash := tx.Hash, From := tx.From, To := toAddr, Nonce := nonce.1, ValueWei := value.1,
        Gas := gas.1, GasPriceWei := gasPrice.1, MaxFeePerGasWei := maxFee.1,
        MaxPriorityFeeWei := maxPriority.1, TxType := txType.1, Input := input,
        ParseErrors := maxPriority.2 }

/-- The loop `for _, tx := range block.Transactions` of `pushBlock`: the items
sent on `out`, in order; a transaction `parseRawTx` rejects takes the
`continue`. -/
def pushTxs (lib : HexLib) (blockNumber : Nat) (blockHash : Hash) (blockTime : Nat) :
    List rpcTx → List TxItem
  | [] => []
  | tx :: rest =>
    match parseRawTx lib tx with
    | none => pushTxs lib blockNumber blockHash blockTime rest
    | some raw =>
      { BlockNumber := blockNumber, BlockHash := blockHash, Timestamp := blockTime,
        Tx := some raw, End := false } ::
        pushTxs lib blockNumber blockHash blockTime rest

/-- The block number `pushBlock` stamps on its items: the decoded `block.Number`,
or the requested number when the field is empty or does not decode. -/
def pushBlockNumber (lib : HexLib) (block : rpcBlock) (requested : Nat) : Nat :=
  if block.Number ≠ "" then
    match lib.DecodeUint64 block.Number with
    | Except.ok n => n
    | Except.error _ => requested
  else requested

/-- The timestamp `pushBlock` stamps on its items: the decoded `block.Timestamp`,
or 0 when the field is empty or does not decode. -/
def pushBlockTime (lib : HexLib) (block : rpcBlock) : Nat :=
  if block.Timestamp ≠ "" then
    match lib.DecodeUint64 block.Timestamp with
    | Except.ok ts => ts
    | Except.error _ => 0
  else 0

/-- The function `pushBlock`: the items sent on `out`, in order. -/
def pushBlock (lib : HexLib) (block : rpcBlock) (requested : Nat) : List TxItem :=
  let blockNumber := pushBlockNumber lib block requested
  let blockHash := lib.HexToHash block.Hash
  let blockTime := pushBlockTime lib block
  pushTxs lib blockNumber blockHash blockTime block.Transactions ++
    [{ BlockNumber := blockNumber, BlockHash := blockHash, Timestamp := blockTime,
       Tx := none, End := true }]

/-- The entry a numeric field leaves in `parse_errors`: none when the trimmed
text is empty or decodes, the field name and the error text otherwise. -/
def fieldError {α : Type} (decode : String → Except String α) (field value : String) :
    Option String :=
  if trimString value = "" then none
  else
    match decode (trimString value) with
    | Except.error err => some (field ++ ": " ++ err)
    | Except.ok _ => none

/-- Decoders for the examples: only `0x1` and `0x10` decode. -/
def testHexLib : HexLib :=
  { DecodeUint64 := fun s =>
      if s = "0x1" then Except.ok 1 else if s = "0x10" then Except.ok 16
      else Except.error "invalid hex string"
    DecodeBig := fun s =>
      if s = "0x1" then Except.ok 1 else if s = "0x10" then Except.ok 16
      else Except.error "invalid hex string"
    HexToHash := fun _ => testHash 7 }

/-- A block of three transactions: a well-formed one, one without hash and one
whose nonce does not decode. -/
def testBlock : rpcBlock :=
  { Number := "0x10", Hash := "0x07", Timestamp := "0x1"
    Transactions :=
      [⟨"0xaa", "0x01", some " 0xFAC ", "0x1", "0x10", "0x1", "", "", "", "0x1", ""⟩,
       ⟨"", "0x01", none, "0x1", "", "", "", "", "", "", "0x"⟩,
       ⟨"0xbb", "0x02", none, "zz", "", "", "", "", "", "", "0x"⟩] }

/-! ## Reader (`internal/app/reader.go`, `internal/config/config.go`)

The reader is followed up to the cancellation of its context: every send on
`out` goes through. -/

/-- The fields of `Config.Ingestion` the reader uses; the two numbers are
`uint64`. -/
structure IngestionConfig where
  StartBlock : String
  Confirmations : Nat
  ReorgReplayDepth : Nat

/-- Go `strconv.ParseUint(s, 10, 64)`: one decimal digit or more and nothing
else, with a value below `2^64`; `none` stands for an error. -/
def ParseUint10 (s : List Char) : Option Nat :=
  if s = [] then none
  else
    match scanDigits 0 s with
    | none => none
    | some v => if v < u64 then some v else none

/-- The method `Config.StartBlockNumber`: the pair `(number, latest)`, or `none`
for the error `invalid start_block`. `strings.ToLower` is taken on the ASCII
letters; no other character has a lower case among the letters of `latest`. -/
def StartBlockNumber (cfg : IngestionConfig) : Option (Nat × Bool) :=
  if cfg.StartBlock.data.map Char.toLower = "latest".data then some (0, true)
  else
    match ParseUint10 cfg.StartBlock.data with
    | none => none
    | some v => some (v, false)

/-- The function `runReader` up to `nextBlock := startBlock`: the first value of
`nextBlock`, or `none` when `fetchHead` or `StartBlockNumber` returns an error.
`lastProcessed` is `cp.Last()` and `head` the result of `fetchHead`. -/
def readerStart (cfg : IngestionConfig) (lastProcessed : Nat) (head : Except String Nat) :
    Option Nat :=
  match head with
  | Except.error _ => none
  | Except.ok head =>
    match StartBlockNumber cfg with
    | none => none
    | some (startBlock, startLatest) =>
      let startBlock := if lastProcessed > 0 then (lastProcessed + 1) % u64 else startBlock
      let startLatest := if lastProcessed > 0 then false else startLatest
      let startBlock :=
        if startLatest then
          (if head > cfg.Confirmations then head - cfg.Confirmations else 0)
        else startBlock
      let startBlock :=
        if cfg.ReorgReplayDepth > 0 then
          (if startBlock > cfg.ReorgReplayDepth then startBlock - cfg.ReorgReplayDepth else 0)
        else startBlock
      some startBlock

/-- The variables of the loop of `runReader`, with a ghost field: `emitted`
logs, in order, every number sent on `out` together with the value of
`currentHead` at the send. -/
structure ReaderState where
  nextBlock : Nat
  currentHead : Nat
  emitted : List (Nat × Nat)
deriving DecidableEq

/-- The value `uint64(ready)` of the loop: `ready` is
`int64(currentHead) - int64(confirmations)` in `int64` arithmetic, raised to 0
when negative. -/
def readyBlock (confirmations currentHead : Nat) : Nat :=
  let ready : Int := wrapInt (wrapInt currentHead - wrapInt confirmations)
  let ready : Int := if ready < 0 then 0 else ready
  ready.toNat

/-- The loop `for nextBlock <= uint64(ready)`: each iteration sends `nextBlock`
and increments it (uint64). `ready + 1 - nextBlock` iterations are enough. -/
def emitReady (ready : Nat) : Nat → ReaderState → ReaderState
  | 0, s => s
  | fuel + 1, s =>
    if s.nextBlock ≤ ready then
      emitReady ready fuel
        { s with
          emitted := s.emitted ++ [(s.nextBlock, s.currentHead)]
          nextBlock := (s.nextBlock + 1) % u64 }
    else s

/-- One iteration of the outer loop of `runReader`: `h` is the value received
from `headCh`, or `none` when the `default` branch is taken. -/
def readerStep (confirmations : Nat) (s : ReaderState) (h : Option Nat) : ReaderState :=
  let s1 : ReaderState :=
    match h with
    | some h => if h > s.currentHead then { s with currentHead := h } else s
    | none => s
  let ready := readyBlock confirmations s1.currentHead
  emitReady ready (ready + 1 - s1.nextBlock) s1

/-- The loop of `runReader` from `nextBlock := startBlock`, `currentHead := head`
over the iterations `updates`. -/
def readerLoop (confirmations startBlock head : Nat) (updates : List (Option Nat)) :
    ReaderState :=
  updates.foldl (readerStep confirmations) ⟨startBlock, head, []⟩

/-- An ingestion configuration for the examples. -/
def testIngestion : IngestionConfig :=
  { StartBlock := "latest", Confirmations := 2, ReorgReplayDepth := 5 }

/-- The invariant of the loop of `runReader` started at `start`: the numbers
sent are `start, start + 1, ...` up to `nextBlock`, each was at most
`uint64(ready)` for the head current at its send, and no logged head exceeds the
current one. -/
def ReaderInv (confirmations start : Nat) (s : ReaderState) : Prop :=
  (∃ k, s.emitted.map Prod.fst = List.range' start k ∧ s.nextBlock = start + k) ∧
  (∀ p ∈ s.emitted, p.1 ≤ readyBlock confirmations p.2 ∧ p.2 ≤ s.currentHead)

/-! ## Invocations of the operation of `util.Retry` -/

/-- The captured variables as invocation number `i` of the operation finds
them, when every invocation before it has run. -/
def retryState {σ : Type} (fn : Nat → σ → Option String × σ) (s : σ) : Nat → σ
  | 0 => s
  | i + 1 => (fn i (retryState fn s i)).2

/-- The error invocation number `i` of the operation returns (`none` for
`nil`). -/
def retryErr {σ : Type} (fn : Nat → σ → Option String × σ) (s : σ) (i : Nat) :
    Option String :=
  (fn i (retryState fn s i)).1

/-- The zero value `rpcBlock{}`. -/
def zeroBlock : rpcBlock :=
  { Number := "", Hash := "", Timestamp := "", Transactions := [] }

/-- The function `fetchBlockWithRetry`. `CallContext j block` is the call number
`j` of `eth_getBlockByNumber`, which decodes the response into the captured
variable `block`: the returned error (`none` for `nil`) and the content of
`block` afterwards, given its content before. A response that fails to decode
may leave fields set, and a later response is decoded over what is there. The
result is the pair `(&block, err)`. -/
def fetchBlockWithRetry (retryMax retryBackoff : Int)
    (CallContext : Nat → rpcBlock → Option String × rpcBlock) : rpcBlock × Option String :=
  let r := Retry retryMax retryBackoff
    (fun j (block : rpcBlock) => CallContext j block)
    zeroBlock
  (r.state, r.err)

/-- An operation that fails on its first two invocations and succeeds on the
third, counting its invocations in the captured variable. -/
def testRetryFn : Nat → Nat → Option String × Nat :=
  fun i n => (if i < 2 then some "rpc down" else none, n + 1)

/-! ## Invariants of a tracker that waits for block `L + 1` -/

/-- Every block marked completed or persisted satisfies `P`. -/
def CoveredInv (P : Nat → Prop) (s : TrackerState) : Prop :=
  ∀ x, (x ∈ s.completed ∨ x ∈ s.persisted) → P x

/-- The state of a run from checkpoint `L` in which `cp.Save` has not been
called: `last` and `next` are as at the start, nothing is persisted and every
block marked completed lies above `L + 1`. -/
def IdleInv (L : Nat) (s : TrackerState) : Prop :=
  s.next = (L + 1) % u64 ∧ s.last = L ∧ s.persisted = [] ∧ s.saveCalls = 0 ∧
  ∀ x ∈ s.completed, L + 1 < x

/-! ## Building through the auto builder (`internal/txbuilder/auto.go`,
`internal/trade/service.go`)

A call of a method on a nil client or a dereference of a nil builder panics;
the result is then `none`. -/

/-- The fields of `ethereum.CallMsg` that `estimateGas` sets. -/
structure CallMsg where
  From : Address
  To : Address
  Value : Option Int
  Data : List Byte
  GasFeeCap : Option Int
  GasTipCap : Option Int

/-- What the chain answers during one build: the answers a fee refresh gets and
the clock reading at it, the answer to the `PendingNonceAt` that `nextNonce`
makes itself when no provider is set, the answer to `EstimateGas`, and what an
out-of-range `uint64` conversion gives on the platform. -/
structure BuildEnv where
  feeAnswers : FeeAnswers
  now : Time
  PendingNonceAt : Except String Nat
  EstimateGas : CallMsg → Except String Nat
  impl : Float64 → Nat

/-- The method `AutoBuilder.fees`. -/
def AutoBuilder.fees (a : AutoBuilder) (env : BuildEnv) :
    Except String FeeParams × AutoBuilder :=
  match a.oracle with
  | none => (Except.error "fee oracle is not configured", a)
  | some o =>
    ((o.Fees env.feeAnswers env.now).1,
      { a with oracle := some (o.Fees env.feeAnswers env.now).2 })

/-- The method `AutoBuilder.nextNonce`. -/
def AutoBuilder.nextNonce (a : AutoBuilder) (env : BuildEnv) (sender : Address) :
    Option (Except String Nat) × AutoBuilder :=
  match a.nonce with
  | some m => (some (m.Next sender).1, { a with nonce := some (m.Next sender).2 })
  | none =>
    match a.client with
    | none => (none, a)
    | some _ => (some env.PendingNonceAt, a)

/-- The method `AutoBuilder.estimateGas`; the error is an `EstimateGasError`,
whose text is `estimate gas failed: ` followed by the text of the cause. -/
def AutoBuilder.estimateGas (a : AutoBuilder) (env : BuildEnv) (sender toAddr : Address)
    (value : Option Int) (data : List Byte) (fees : FeeParams) : Option (Except String Nat) :=
  let msg : CallMsg :=
    { From := sender, To := toAddr, Value := value, Data := data,
      GasFeeCap := fees.MaxFeePerGas, GasTipCap := fees.MaxPriorityFeePerGas }
  match a.client with
  | none => none
  | some _ =>
    match env.EstimateGas msg with
    | Except.error e => some (Except.error ("estimate gas failed: " ++ e))
    | Except.ok gas =>
      some (Except.ok (applyGasMultiplier env.impl gas a.cfg.GasLimitMultiplier))

/-- The method `AutoBuilder.buildTx`: the returned pair `(*types.Transaction,
error)` and the builder afterwards. -/
def AutoBuilder.buildTx (a : AutoBuilder) (env : BuildEnv) (sender toAddr : Address)
    (value : Option Int) (data : List Byte) :
    Option (Except String Transaction) × AutoBuilder :=
  match a.fees env with
  | (Except.error e, a1) => (some (Except.error e), a1)
  | (Except.ok fees, a1) =>
    match a1.nextNonce env sender with
    | (none, a2) => (none, a2)
    | (some (Except.error e), a2) => (some (Except.error e), a2)
    | (some (Except.ok nonce), a2) =>
      match a2.estimateGas env sender toAddr value data fees with
      | none => (none, a2)
      | some (Except.error e) => (some (Except.error e), a2)
      | some (Except.ok gasLimit) =>
        match a2.builder with
        | none => (none, a2)
        | some b =>
          (some (buildDynamicTx b.ChainID toAddr value data
            { Nonce := nonce, GasLimit := gasLimit, Fee := fees }), a2)

/-- The method `AutoBuilder.BuildBuyTx`. -/
def AutoBuilder.BuildBuyTx (a : AutoBuilder) (env : BuildEnv) (sender pair : Address)
    (ethInWei minTokensOut : Option Int) :
    Option (Except String Transaction) × AutoBuilder :=
  match a.builder, a.client with
  | some b, some _ =>
    if ethInWei = none ∨ minTokensOut = none then
      (some (Except.error "ethInWei and minTokensOut are required"), a)
    else
      match buildBuyData minTokensOut b.deadline with
      | Except.error e => (some (Except.error e), a)
      | Except.ok data => a.buildTx env sender pair ethInWei data
  | _, _ => (some (Except.error "builder and client are required"), a)

/-- The method `AutoBuilder.BuildSellTx`. -/
def AutoBuilder.BuildSellTx (a : AutoBuilder) (env : BuildEnv) (sender pair : Address)
    (tokenAmountIn minRefundWei : Option Int) :
    Option (Except String Transaction) × AutoBuilder :=
  match a.builder, a.client with
  | some b, some _ =>
    if tokenAmountIn = none ∨ minRefundWei = none then
      (some (Except.error "tokenAmountIn and minRefundWei are required"), a)
    else
      match buildSellData tokenAmountIn minRefundWei b.deadline with
      | Except.error e => (some (Except.error e), a)
      | Except.ok data => a.buildTx env sender pair (some 0) data
  | _, _ => (some (Except.error "builder and client are required"), a)

/-- The method `AutoBuilder.BuildApproveTx`. -/
def AutoBuilder.BuildApproveTx (a : AutoBuilder) (env : BuildEnv)
    (sender token spender : Address) (amount : Option Int) :
    Option (Except String Transaction) × AutoBuilder :=
  match a.builder, a.client with
  | some _, some _ =>
    if amount = none then (some (Except.error "amount is required"), a)
    else
      match buildApproveData spender amount with
      | Except.error e => (some (Except.error e), a)
      | Except.ok data => a.buildTx env sender token (some 0) data
  | _, _ => (some (Except.error "builder and client are required"), a)

/-- The tail shared by `Service.Buy`, `Service.Sell` and `Service.Approve`: the
statements from `tx, err := s.auto.Build...Tx(...)` on, given the result of that
call. -/
def Service.afterBuild (s : Service) (senv : SendEnv) (sender : Address)
    (built : Option (Except String Transaction) × AutoBuilder) (simulate : Bool) :
    SendOutcome :=
  match built with
  | (none, a1) => ⟨none, { s with auto := some a1 }, []⟩
  | (some (Except.error e), a1) => ⟨some (none, some e), { s with auto := some a1 }, []⟩
  | (some (Except.ok tx), a1) =>
    Service.signAndSend { s with auto := some a1 } senv sender (some tx) simulate

/-- The method `Service.Buy`. `parsed` is the outcome of the parsing steps
(`parseAddress` twice, `parseEthAmount`, `resolveDecimals`,
`parseTokenAmount`): their first error, or `from`, `pair`, `ethValue` and
`minOut`. -/
def Service.Buy (s : Service) (benv : BuildEnv) (senv : SendEnv)
    (parsed : Except String (Address × Address × Option Int × Option Int))
    (simulate : Bool) : SendOutcome :=
  match parsed with
  | Except.error e => ⟨some (none, some e), s, []⟩
  | Except.ok (sender, pair, ethValue, minOut) =>
    match s.auto with
    | none => ⟨none, s, []⟩
    | some a => s.afterBuild senv sender (a.BuildBuyTx benv sender pair ethValue minOut) simulate

/-- The method `Service.Sell`; `parsed` holds `from`, `pair`, `tokenIn` and
`minRefund`. -/
def Service.Sell (s : Service) (benv : BuildEnv) (senv : SendEnv)
    (parsed : Except String (Address × Address × Option Int × Option Int))
    (simulate : Bool) : SendOutcome :=
  match parsed with
  | Except.error e => ⟨some (none, some e), s, []⟩
  | Except.ok (sender, pair, tokenIn, minRefund) =>
    match s.auto with
    | none => ⟨none, s, []⟩
    | some a =>
      s.afterBuild senv sender (a.BuildSellTx benv sender pair tokenIn minRefund) simulate

/-- The method `Service.Approve`; `parsed` holds `from`, `spender`, `token` and
`amount`. -/
def Service.Approve (s : Service) (benv : BuildEnv) (senv : SendEnv)
    (parsed : Except String (Address × Address × Address × Option Int))
    (simulate : Bool) : SendOutcome :=
  match parsed with
  | Except.error e => ⟨some (none, some e), s, []⟩
  | Except.ok (sender, spender, token, amount) =>
    match s.auto with
    | none => ⟨none, s, []⟩
    | some a =>
      s.afterBuild senv sender (a.BuildApproveTx benv sender token spender amount) simulate

/-- Chain answers with a failing `EstimateGas`. -/
def testEnvEstimateFails : BuildEnv :=
  { feeAnswers := testFeeAnswers, now := ⟨0⟩, PendingNonceAt := Except.ok 7,
    EstimateGas := fun _ => Except.error "execution reverted", impl := implAmd64 }

/-- Chain answers with an estimate of 21000 gas. -/
def testEnvEstimateOk : BuildEnv :=
  { feeAnswers := testFeeAnswers, now := ⟨0⟩, PendingNonceAt := Except.ok 7,
    EstimateGas := fun _ => Except.ok 21000, impl := implAmd64 }

/-- Collaborators that sign and send without error. -/
def testEnvSendOk : SendEnv :=
  { CallContract := none, SignTransaction := Except.ok testTx,
    SendTransaction := none, hashHex := fun _ => "0xhash" }

/-- The auto builder of `testService`. -/
def testAuto : AutoBuilder :=
  { builder := some testBuyBuilder, client := some testClient, oracle := some testOracle,
    cfg := ⟨float64_1_2⟩,
    nonce := some (runCalls (NewNonceManager (some testClient)) testCalls).2 }

/-! ## API authentication (`internal/api/server.go`)

`strings.ToLower` is taken on the ASCII letters: no other character has a
lower case among the characters of `bearer `, so a match of the prefix means
that the first seven bytes of the header are seven ASCII characters and
`auth[7:]` is the text after them. -/

/-- The headers of a request that `withAuth` reads: the values of
`r.Header.Get("X-API-Key")` and `r.Header.Get("Authorization")`, empty for an
absent header. -/
structure AuthRequest where
  XAPIKey : String
  Authorization : String
deriving DecidableEq

/-- What the handler made by `withAuth` does with a request: it invokes `next`,
or it answers through `writeError` with a status and a message and returns. -/
inductive AuthOutcome where
  | next
  | writeError (status : Nat) (message : String)
deriving DecidableEq

/-- Go `strings.HasPrefix(s, pre)`. -/
def HasPrefix (s pre : String) : Bool :=
  pre.data.isPrefixOf s.data

/-- Go `strings.ToLower` on ASCII text. -/
def ToLower (s : String) : String :=
  String.mk (s.data.map Char.toLower)

/-- The handler `s.withAuth(next)` for the configured `api.auth_token`. -/
def withAuth (authToken : String) (r : AuthRequest) : AuthOutcome :=
  if authToken ≠ "" then
    let token := r.XAPIKey
    let token :=
      if token = "" then
        (let auth := r.Authorization
         if HasPrefix (ToLower auth) "bearer " then trimString (String.mk (auth.data.drop 7))
         else token)
      else token
    if token ≠ authToken then AuthOutcome.writeError 401 "unauthorized"
    else AuthOutcome.next
  else AuthOutcome.next

/-- The token of a request as the specification describes it: the `X-API-Key`
header when it is non-empty; otherwise, when the first seven characters of the
`Authorization` header are `bearer ` in any letter case, the text after them
without surrounding white space; otherwise none. -/
def requestToken (r : AuthRequest) : Option String :=
  if r.XAPIKey ≠ "" then some r.XAPIKey
  else if (r.Authorization.data.take 7).map Char.toLower = "bearer ".data then
    some (trimString (String.mk (r.Authorization.data.drop 7)))
  else none

/-! ## Theorems: tracker -/

theorem mem_markCompleted (c : List Nat) (b x : Nat) :
    x ∈ markCompleted c b ↔ x = b ∨ x ∈ c := by
  unfold markCompleted
  split_ifs with h
  · constructor
    · intro hx; exact Or.inr hx
    · rintro (rfl | hx)
      · exact h
      · exact hx
  · simp

theorem mem_deleteCompleted (c : List Nat) (b x : Nat) :
    x ∈ deleteCompleted c b ↔ x ∈ c ∧ x ≠ b := by
  simp [deleteCompleted]

theorem trackerInv_init (L : Nat) : TrackerInv L (TrackerState.init L) := by
  refine ⟨⟨0, ?_, ?_⟩, ?_, ?_⟩ <;> simp [TrackerState.init]

theorem advance_inv (L : Nat) (s : TrackerState) (h : TrackerInv L s)
    (hmem : s.next ∈ s.completed) : TrackerInv L (advance s) := by
  obtain ⟨⟨k, hp, hl⟩, hc, hn⟩ := h
  have hlt : s.last < s.next := hc _ hmem
  have hnext : s.next = s.last + 1 := by
    simp only [u64] at hn
    omega
  refine ⟨⟨k + 1, ?_, ?_⟩, ?_, ?_⟩
  · simp only [advance, hp, hnext, hl]
    rw [List.range'_concat]
    simp
    omega
  · simp only [advance, hnext, hl]; omega
  · intro b hb
    simp only [advance] at hb ⊢
    rw [mem_deleteCompleted] at hb
    have := hc b hb.1
    have hne := hb.2
    omega
  · rfl

theorem drain_inv (save : Nat → Bool) (L : Nat) :
    ∀ (fuel : Nat) (s : TrackerState), TrackerInv L s → TrackerInv L (drain save fuel s) := by
  intro fuel
  induction fuel with
  | zero => intro s h; simpa [drain] using h
  | succ fuel ih =>
    intro s h
    simp only [drain]
    split_ifs with hmem hsave
    · exact ih _ (advance_inv L s h hmem)
    · exact h
    · exact h

theorem onFiltered_inv (L : Nat) (s : TrackerState) (b : Nat) (n : Int)
    (hb : s.last < b) (h : TrackerInv L s) : TrackerInv L (onFiltered s b n) := by
  obtain ⟨hp, hc, hn⟩ := h
  unfold onFiltered
  simp only
  split_ifs
  · refine ⟨hp, ?_, hn⟩
    intro x hx
    rw [mem_markCompleted] at hx
    rcases hx with rfl | hx
    · exact hb
    · exact hc x hx
  · exact ⟨hp, hc, hn⟩

theorem onAck_inv (L : Nat) (s : TrackerState) (b : Nat)
    (hb : s.last < b) (h : TrackerInv L s) : TrackerInv L (onAck s b) := by
  obtain ⟨hp, hc, hn⟩ := h
  unfold onAck
  simp only
  split_ifs
  · refine ⟨hp, ?_, hn⟩
    intro x hx
    rw [mem_markCompleted] at hx
    rcases hx with rfl | hx
    · exact hb
    · exact hc x hx
  · exact ⟨hp, hc, hn⟩

theorem trackerStep_inv (save : Nat → Bool) (L : Nat) (s : TrackerState) (e : TrackerInput)
    (h : TrackerInv L s) : TrackerInv L (trackerStep save s e) := by
  cases e with
  | filtered b n =>
    simp only [trackerStep]
    split_ifs with hb
    · exact h
    · exact drain_inv save L _ _ (onFiltered_inv L s b n (by omega) h)
  | ack b =>
    simp only [trackerStep]
    split_ifs with hb
    · exact h
    · exact drain_inv save L _ _ (onAck_inv L s b (by omega) h)

theorem foldl_trackerStep_inv (save : Nat → Bool) (L : Nat) (trace : List TrackerInput) :
    ∀ s : TrackerState, TrackerInv L s → TrackerInv L (trace.foldl (trackerStep save) s) := by
  induction trace with
  | nil => intro s h; exact h
  | cons e rest ih => intro s h; exact ih _ (trackerStep_inv save L s e h)

theorem runTracker_inv (save : Nat → Bool) (L : Nat) (trace : List TrackerInput) :
    TrackerInv L (runTracker save L trace) :=
  foldl_trackerStep_inv save L trace _ (trackerInv_init L)

/-- C1: for every trace of inputs and every pattern of `cp.Save` successes and
failures, the values persisted by a run started at checkpoint `L` are exactly
`L+1, L+2, ..., L+k` for some `k` (possibly 0), in that order, and the
committed `last` is then `L+k`. -/
theorem checkpoint_persisted_contiguous (save : Nat → Bool) (L : Nat)
    (trace : List TrackerInput) :
    ∃ k, (runTracker save L trace).persisted = List.range' (L + 1) k ∧
      (runTracker save L trace).last = L + k :=
  (runTracker_inv save L trace).1

theorem drain_states (save : Nat → Bool) :
    ∀ (fuel : Nat) (s : TrackerState), (drain save fuel s).states = s.states := by
  intro fuel
  induction fuel with
  | zero => intro s; rfl
  | succ fuel ih =>
    intro s
    simp only [drain]
    split_ifs
    · rw [ih]; rfl
    · rfl
    · rfl

theorem drain_persisted_extends (save : Nat → Bool) :
    ∀ (fuel : Nat) (s : TrackerState),
      ∃ rest, (drain save fuel s).persisted = s.persisted ++ rest := by
  intro fuel
  induction fuel with
  | zero => intro s; exact ⟨[], by simp [drain]⟩
  | succ fuel ih =>
    intro s
    simp only [drain]
    split_ifs
    · obtain ⟨rest, hr⟩ := ih (advance s)
      exact ⟨s.next :: rest, by rw [hr]; simp [advance]⟩
    · exact ⟨[], by simp⟩
    · exact ⟨[], by simp⟩

theorem drain_last_mono (save : Nat → Bool) (L : Nat) :
    ∀ (fuel : Nat) (s : TrackerState), TrackerInv L s → s.last ≤ (drain save fuel s).last := by
  intro fuel
  induction fuel with
  | zero => intro s _; exact le_refl _
  | succ fuel ih =>
    intro s h
    simp only [drain]
    split_ifs with hmem hsave
    · have h1 := ih _ (advance_inv L s h hmem)
      have h2 : s.last < s.next := h.2.1 _ hmem
      have h3 : (advance s).last = s.next := rfl
      omega
    · exact le_refl _
    · exact le_refl _

theorem trackerStep_last_mono (save : Nat → Bool) (L : Nat) (s : TrackerState)
    (e : TrackerInput) (h : TrackerInv L s) : s.last ≤ (trackerStep save s e).last := by
  cases e with
  | filtered b n =>
    simp only [trackerStep]
    split_ifs with hb
    · exact le_refl _
    · have h1 := drain_last_mono save L (onFiltered s b n).completed.length _
        (onFiltered_inv L s b n (by omega) h)
      have h2 : (onFiltered s b n).last = s.last := by
        unfold onFiltered; simp only; split_ifs <;> rfl
      omega
  | ack b =>
    simp only [trackerStep]
    split_ifs with hb
    · exact le_refl _
    · have h1 := drain_last_mono save L (onAck s b).completed.length _
        (onAck_inv L s b (by omega) h)
      have h2 : (onAck s b).last = s.last := by
        unfold onAck; simp only; split_ifs <;> rfl
      omega

theorem foldl_last_mono (save : Nat → Bool) (L : Nat) (trace : List TrackerInput) :
    ∀ s : TrackerState, TrackerInv L s → s.last ≤ (trace.foldl (trackerStep save) s).last := by
  induction trace with
  | nil => intro s _; exact le_refl _
  | cons e rest ih =>
    intro s h
    have h1 := trackerStep_last_mono save L s e h
    have h2 := ih _ (trackerStep_inv save L s e h)
    simp only [List.foldl_cons]
    omega

theorem length_deleteCompleted_lt (c : List Nat) (x : Nat) (hx : x ∈ c) :
    (deleteCompleted c x).length < c.length := by
  unfold deleteCompleted
  rw [List.length_filter_lt_length_iff_exists]
  exact ⟨x, hx, by simp⟩

/-- The fuel `completed.length` is enough for the drain loop: allowing one more
iteration changes nothing, the loop has left by its own condition or by
`break`. -/
theorem drain_fuel_enough (save : Nat → Bool) :
    ∀ (fuel : Nat) (s : TrackerState), s.completed.length ≤ fuel →
      drain save (fuel + 1) s = drain save fuel s := by
  intro fuel
  induction fuel with
  | zero =>
    intro s h
    have hnil : s.completed = [] := List.length_eq_zero.mp (by omega)
    simp [drain, hnil]
  | succ fuel ih =>
    intro s h
    rw [drain]
    conv_rhs => rw [drain]
    split_ifs with hmem hsave
    · apply ih
      have := length_deleteCompleted_lt s.completed s.next hmem
      simp only [advance]
      omega
    · rfl
    · rfl

theorem wrapInt_bounds (x : Int) :
    -9223372036854775808 ≤ wrapInt x ∧ wrapInt x < 9223372036854775808 := by
  unfold wrapInt
  omega

theorem wrapInt_le (x : Int) (h : -9223372036854775808 ≤ x) : wrapInt x ≤ x := by
  unfold wrapInt
  omega

theorem wrapInt_eq (x : Int) (h1 : -9223372036854775808 ≤ x) (h2 : x < 9223372036854775808) :
    wrapInt x = x := by
  unfold wrapInt
  omega

theorem ackInv_mono (b : Nat) (n : Int) (a a2 : Nat) (s : TrackerState)
    (h : AckInv b n a s) (ha : a ≤ a2) : AckInv b n a2 s := by
  obtain ⟨h1, h2, h3⟩ := h
  refine ⟨?_, ?_, ?_⟩
  · intro st hst
    obtain ⟨x, y, z⟩ := h1 st hst
    exact ⟨x, by omega, z⟩
  · intro hb
    have := h2 hb
    omega
  · intro hb
    have := h3 hb
    omega

theorem advance_ackInv (L b : Nat) (n : Int) (a : Nat) (s : TrackerState)
    (hI : TrackerInv L s) (hmem : s.next ∈ s.completed) (hA : AckInv b n a s) :
    AckInv b n a (advance s) := by
  obtain ⟨h1, h2, h3⟩ := hA
  refine ⟨h1, ?_, ?_⟩
  · intro hb
    simp only [advance] at hb
    rw [mem_deleteCompleted] at hb
    exact h2 hb.1
  · intro hb
    simp only [advance] at hb
    by_cases hle : b ≤ s.last
    · exact h3 hle
    · have hlt : s.last < s.next := hI.2.1 _ hmem
      have hn := hI.2.2
      simp only [u64] at hn
      have hbn : b = s.next := by omega
      exact h2 (hbn ▸ hmem)

theorem drain_ackInv (save : Nat → Bool) (L b : Nat) (n : Int) (a : Nat) :
    ∀ (fuel : Nat) (s : TrackerState), TrackerInv L s → AckInv b n a s →
      AckInv b n a (drain save fuel s) := by
  intro fuel
  induction fuel with
  | zero => intro s _ hA; exact hA
  | succ fuel ih =>
    intro s hI hA
    simp only [drain]
    split_ifs with hmem hsave
    · exact ih _ (advance_inv L s hI hmem) (advance_ackInv L b n a s hI hmem hA)
    · exact hA
    · exact hA

theorem onFiltered_ackInv (b : Nat) (n : Int) (a : Nat) (s : TrackerState) (b2 : Nat) (m : Int)
    (hpub : b2 = b → m = n) (hn : 1 ≤ n) (hA : AckInv b n a s) :
    AckInv b n a (onFiltered s b2 m) := by
  obtain ⟨h1, h2, h3⟩ := hA
  unfold onFiltered
  simp only
  split_ifs with hc
  · have hne : b ≠ b2 := by
      intro hEq
      have := hpub hEq.symm
      omega
    refine ⟨?_, ?_, h3⟩
    · intro st hst
      simp only [deleteState, hne, if_false] at hst
      exact h1 st hst
    · intro hb
      simp only at hb
      rw [mem_markCompleted] at hb
      rcases hb with hb | hb
      · exact absurd hb hne
      · exact h2 hb
  · refine ⟨?_, h2, h3⟩
    intro st hst
    simp only [setState] at hst
    by_cases hEq : b = b2
    · simp only [hEq, if_true, Option.some.injEq] at hst
      subst hst
      have hm := hpub hEq.symm
      cases hs : s.states b2 with
      | none =>
        simp only [Option.getD]
        exact ⟨by omega, by omega, Or.inr hm⟩
      | some st0 =>
        obtain ⟨x, y, _⟩ := h1 st0 (hEq ▸ hs)
        simp only [Option.getD]
        exact ⟨x, y, Or.inr hm⟩
    · simp only [hEq, if_false] at hst
      exact h1 st hst

theorem onAck_ackInv (b : Nat) (n : Int) (a : Nat) (s : TrackerState) (b2 : Nat)
    (hA : AckInv b n a s) :
    AckInv b n (a + if b2 = b then 1 else 0) (onAck s b2) := by
  by_cases hEq : b2 = b
  · subst hEq
    simp only [if_true]
    obtain ⟨h1, h2, h3⟩ := hA
    have hst0 : -9223372036854775808 ≤ ((s.states b2).getD ⟨0, 0⟩).done ∧
        ((s.states b2).getD ⟨0, 0⟩).done ≤ (a : Int) ∧
        (((s.states b2).getD ⟨0, 0⟩).expected = 0 ∨ ((s.states b2).getD ⟨0, 0⟩).expected = n) := by
      cases hs : s.states b2 with
      | none => simp only [Option.getD]; exact ⟨by omega, by omega, by simp⟩
      | some st0 => simp only [Option.getD]; exact h1 st0 hs
    obtain ⟨hlo, hhi, hexp⟩ := hst0
    have hw := wrapInt_le (((s.states b2).getD ⟨0, 0⟩).done + 1) (by omega)
    have hwb := wrapInt_bounds (((s.states b2).getD ⟨0, 0⟩).done + 1)
    unfold onAck
    simp only
    split_ifs with hc
    · refine ⟨?_, ?_, ?_⟩
      · intro st hst
        simp [deleteState] at hst
      · intro _
        push_cast
        omega
      · intro hb
        have := h3 hb
        push_cast
        omega
    · refine ⟨?_, ?_, ?_⟩
      · intro st hst
        simp only [setState, if_true, Option.some.injEq] at hst
        subst hst
        refine ⟨hwb.1, ?_, hexp⟩
        push_cast
        omega
      · intro hb
        have := h2 hb
        push_cast
        omega
      · intro hb
        have := h3 hb
        push_cast
        omega
  · simp only [hEq, if_false, Nat.add_zero]
    obtain ⟨h1, h2, h3⟩ := hA
    have hne : b ≠ b2 := fun h => hEq h.symm
    unfold onAck
    simp only
    split_ifs with hc
    · refine ⟨?_, ?_, h3⟩
      · intro st hst
        simp only [deleteState, hne, if_false] at hst
        exact h1 st hst
      · intro hb
        simp only at hb
        rw [mem_markCompleted] at hb
        rcases hb with hb | hb
        · exact absurd hb hne
        · exact h2 hb
    · refine ⟨?_, h2, h3⟩
      intro st hst
      simp only [setState, hne, if_false] at hst
      exact h1 st hst

theorem ackCount_cons (b : Nat) (e : TrackerInput) (t : List TrackerInput) :
    ackCount b (e :: t) = (if e = TrackerInput.ack b then 1 else 0) + ackCount b t := by
  unfold ackCount
  rw [List.count_cons]
  by_cases h : e = TrackerInput.ack b
  · simp [h]; omega
  · simp [h]

theorem trackerStep_ackInv (save : Nat → Bool) (L b : Nat) (n : Int) (a : Nat)
    (s : TrackerState) (e : TrackerInput) (hI : TrackerInv L s) (hA : AckInv b n a s)
    (hpub : ∀ m, e = TrackerInput.filtered b m → m = n) (hn : 1 ≤ n) :
    AckInv b n (a + if e = TrackerInput.ack b then 1 else 0) (trackerStep save s e) := by
  cases e with
  | filtered b2 m =>
    simp only [reduceCtorEq, if_false, Nat.add_zero, trackerStep]
    split_ifs with hb
    · exact hA
    · apply drain_ackInv save L b n a _ _ (onFiltered_inv L s b2 m (by omega) hI)
      apply onFiltered_ackInv b n a s b2 m _ hn hA
      intro hEq
      exact hpub m (by rw [hEq])
  | ack b2 =>
    have h0 := onAck_ackInv b n a s b2 hA
    simp only [trackerStep, TrackerInput.ack.injEq]
    by_cases hb : b2 ≤ s.last
    · simp only [hb, if_true]
      exact ackInv_mono b n a _ s hA (by omega)
    · simp only [hb, if_false]
      exact drain_ackInv save L b n _ _ _ (onAck_inv L s b2 (by omega) hI) h0

theorem foldl_ackInv (save : Nat → Bool) (L b : Nat) (n : Int) (hn : 1 ≤ n)
    (trace : List TrackerInput) :
    ∀ (s : TrackerState) (a : Nat), TrackerInv L s → AckInv b n a s →
      (∀ m, TrackerInput.filtered b m ∈ trace → m = n) →
      AckInv b n (a + ackCount b trace) (trace.foldl (trackerStep save) s) := by
  induction trace with
  | nil =>
    intro s a _ hA _
    simpa [ackCount] using hA
  | cons e rest ih =>
    intro s a hI hA hpub
    have h1 := trackerStep_ackInv save L b n a s e hI hA
      (fun m hm => hpub m (by rw [hm]; exact List.mem_cons_self _ _)) hn
    have h2 := ih _ _ (trackerStep_inv save L s e hI) h1
      (fun m hm => hpub m (List.mem_cons_of_mem _ hm))
    rw [ackCount_cons, ← Nat.add_assoc]
    exact h2

theorem ackInv_init (L b : Nat) (n : Int) (hb : L < b) :
    AckInv b n 0 (TrackerState.init L) := by
  refine ⟨?_, ?_, ?_⟩
  · intro st hst
    simp [TrackerState.init] at hst
  · intro h
    simp [TrackerState.init] at h
  · intro h
    simp only [TrackerState.init] at h
    omega

/-- The safety half of the ack accounting: in a run from checkpoint `L < b`
where every `BlockFiltered` published for `b` carries the count `n >= 1`, a
persisted value `c >= b` implies that `n` acknowledgements of `b` were
received. -/
theorem persisted_needs_acks (save : Nat → Bool) (L b : Nat) (n : Int)
    (trace : List TrackerInput) (hb : L < b) (hn : 1 ≤ n)
    (hpub : ∀ m, TrackerInput.filtered b m ∈ trace → m = n)
    (c : Nat) (hc : c ∈ (runTracker save L trace).persisted) (hbc : b ≤ c) :
    n ≤ (ackCount b trace : Int) := by
  have hI := runTracker_inv save L trace
  have hA := foldl_ackInv save L b n hn trace _ 0 (trackerInv_init L) (ackInv_init L b n hb) hpub
  obtain ⟨⟨k, hp, hl⟩, _, _⟩ := hI
  rw [hp, List.mem_range'_1] at hc
  have hle : b ≤ (runTracker save L trace).last := by omega
  have := hA.2.2 hle
  simpa using this

theorem trackerStep_states_other (save : Nat → Bool) (s : TrackerState) (e : TrackerInput)
    (b : Nat) (h1 : e ≠ TrackerInput.ack b) (h2 : ∀ m, e ≠ TrackerInput.filtered b m) :
    (trackerStep save s e).states b = s.states b := by
  cases e with
  | filtered b2 m =>
    have hne : b ≠ b2 := fun h => h2 m (by rw [h])
    simp only [trackerStep]
    split_ifs with hb
    · rfl
    · rw [drain_states]
      unfold onFiltered
      simp only
      split_ifs <;> simp [deleteState, setState, hne]
  | ack b2 =>
    have hne : b ≠ b2 := fun h => h1 (by rw [h])
    simp only [trackerStep]
    split_ifs with hb
    · rfl
    · rw [drain_states]
      unfold onAck
      simp only
      split_ifs <;> simp [deleteState, setState, hne]

theorem foldl_states_other (save : Nat → Bool) (b : Nat) (trace : List TrackerInput)
    (h : ∀ e ∈ trace, e ≠ TrackerInput.ack b ∧ ∀ m, e ≠ TrackerInput.filtered b m) :
    ∀ s : TrackerState, (trace.foldl (trackerStep save) s).states b = s.states b := by
  induction trace with
  | nil => intro s; rfl
  | cons e rest ih =>
    intro s
    simp only [List.foldl_cons]
    rw [ih (fun x hx => h x (List.mem_cons_of_mem _ hx))]
    exact trackerStep_states_other save s e b (h e (List.mem_cons_self _ _)).1
      (h e (List.mem_cons_self _ _)).2

theorem trackerStep_ack_counts (save : Nat → Bool) (s : TrackerState) (b : Nat) (n c : Int)
    (hlast : s.last < b) (hs : s.states b = some ⟨n, c⟩) (hc0 : 0 ≤ c) (hcn : c + 1 < n)
    (hn2 : n < 9223372036854775808) :
    (trackerStep save s (TrackerInput.ack b)).states b = some ⟨n, c + 1⟩ := by
  have hw : wrapInt (c + 1) = c + 1 := wrapInt_eq _ (by omega) (by omega)
  simp only [trackerStep]
  rw [if_neg (by omega), drain_states]
  unfold onAck
  simp only [hs, Option.getD, hw]
  rw [if_neg (by omega)]
  simp [setState]

theorem foldl_ack_counts (save : Nat → Bool) (L b : Nat) (n : Int)
    (hn2 : n < 9223372036854775808) (trace : List TrackerInput) :
    ∀ (s : TrackerState) (c : Int), TrackerInv L s →
      (trace.foldl (trackerStep save) s).last < b →
      s.states b = some ⟨n, c⟩ → 0 ≤ c → c + (ackCount b trace : Int) < n →
      (∀ m, TrackerInput.filtered b m ∉ trace) →
      (trace.foldl (trackerStep save) s).states b = some ⟨n, c + (ackCount b trace : Int)⟩ := by
  induction trace with
  | nil =>
    intro s c _ _ hs _ _ _
    simpa [ackCount] using hs
  | cons e rest ih =>
    intro s c hI hlast hs hc0 hcn hnf
    simp only [List.foldl_cons] at hlast ⊢
    have hI1 := trackerStep_inv save L s e hI
    have hm1 := trackerStep_last_mono save L s e hI
    have hm2 := foldl_last_mono save L rest _ hI1
    have hnf2 : ∀ m, TrackerInput.filtered b m ∉ rest :=
      fun m hm => hnf m (List.mem_cons_of_mem _ hm)
    rw [ackCount_cons] at hcn ⊢
    by_cases he : e = TrackerInput.ack b
    · subst he
      simp only [if_true] at hcn ⊢
      push_cast at hcn ⊢
      have hs1 := trackerStep_ack_counts save s b n c (by omega) hs hc0 (by omega) hn2
      have := ih _ (c + 1) hI1 hlast hs1 (by omega) (by omega) hnf2
      rw [this]
      congr 2
      omega
    · simp only [he, if_false] at hcn ⊢
      have hs1 : (trackerStep save s e).states b = some ⟨n, c⟩ := by
        rw [trackerStep_states_other save s e b he
          (fun m hm => hnf m (by rw [hm]; exact List.mem_cons_self _ _))]
        exact hs
      have := ih _ c hI1 hlast hs1 hc0 (by simpa using hcn) hnf2
      rw [this]
      simp

theorem trackerStep_filtered_sets (save : Nat → Bool) (s : TrackerState) (b : Nat) (n : Int)
    (hlast : s.last < b) (hs : s.states b = none) (hn : 1 ≤ n) :
    (trackerStep save s (TrackerInput.filtered b n)).states b = some ⟨n, 0⟩ := by
  simp only [trackerStep]
  rw [if_neg (by omega), drain_states]
  unfold onFiltered
  simp only [hs, Option.getD]
  rw [if_neg (by omega)]
  simp [setState]

/-- The last ack of a block that is next in line: with `expected = n`, `done =
n - 1` and `b = last + 1`, an ack of `b` whose `cp.Save` succeeds persists `b`,
and persists `b + 1` right after it when `b + 1` is already marked completed
and its `cp.Save` succeeds too. -/
theorem last_ack_persists (save : Nat → Bool) (L : Nat) (s : TrackerState) (b : Nat) (n : Int)
    (hI : TrackerInv L s) (hlast : s.last + 1 = b) (hb2 : b < u64)
    (hs : s.states b = some ⟨n, n - 1⟩) (hn : 1 ≤ n) (hn2 : n < 9223372036854775808)
    (hsave : save s.saveCalls = true) :
    (∃ rest, (trackerStep save s (TrackerInput.ack b)).persisted = s.persisted ++ b :: rest) ∧
    (b + 1 ∈ s.completed → save (s.saveCalls + 1) = true → b + 1 < u64 →
      ∃ rest, (trackerStep save s (TrackerInput.ack b)).persisted =
        s.persisted ++ b :: (b + 1) :: rest) := by
  have hw : wrapInt (n - 1 + 1) = n := by
    rw [wrapInt_eq _ (by omega) (by omega)]; omega
  have hnext : s.next = b := by
    have := hI.2.2
    simp only [u64] at this hb2
    omega
  have hon : onAck s b =
      { s with completed := markCompleted s.completed b, states := deleteState s.states b } := by
    unfold onAck
    simp only [hs, Option.getD, hw]
    rw [if_pos ⟨by omega, le_refl _⟩]
  have hstep : trackerStep save s (TrackerInput.ack b) =
      drain save ((onAck s b).completed.length + 1) (advance (onAck s b)) := by
    simp only [trackerStep]
    rw [if_neg (by omega)]
    rw [← drain_fuel_enough save _ _ (le_refl _),
      ← drain_fuel_enough save _ _ (Nat.le_succ _)]
    rw [drain]
    have hmem : (onAck s b).next ∈ (onAck s b).completed := by
      rw [hon]
      simp only [hnext]
      rw [mem_markCompleted]
      exact Or.inl rfl
    have hsv : save (onAck s b).saveCalls = true := by
      rw [hon]; exact hsave
    rw [if_pos hmem, if_pos hsv]
  have hadv : (advance (onAck s b)).persisted = s.persisted ++ [b] := by
    rw [hon]; simp [advance, hnext]
  constructor
  · obtain ⟨rest, hr⟩ := drain_persisted_extends save ((onAck s b).completed.length + 1)
      (advance (onAck s b))
    exact ⟨rest, by rw [hstep, hr, hadv]; simp⟩
  · intro hmem1 hsave1 hb1
    have hnext2 : (advance (onAck s b)).next = b + 1 := by
      rw [hon]
      simp only [advance, hnext, u64] at hb1 ⊢
      omega
    have hmem2 : (advance (onAck s b)).next ∈ (advance (onAck s b)).completed := by
      rw [hnext2, hon]
      simp only [advance, hnext]
      rw [mem_deleteCompleted, mem_markCompleted]
      exact ⟨Or.inr hmem1, by omega⟩
    have hsv2 : save (advance (onAck s b)).saveCalls = true := by
      rw [hon]; exact hsave1
    rw [hstep, drain, if_pos hmem2, if_pos hsv2]
    obtain ⟨rest, hr⟩ := drain_persisted_extends save (onAck s b).completed.length
      (advance (advance (onAck s b)))
    refine ⟨rest, ?_⟩
    rw [hr]
    have : (advance (advance (onAck s b))).persisted = s.persisted ++ [b] ++ [b + 1] := by
      show (advance (onAck s b)).persisted ++ [(advance (onAck s b)).next] = _
      rw [hadv, hnext2]
    rw [this]
    simp

theorem ack_unpublished (save : Nat → Bool) (s : TrackerState) (b : Nat) (c : Int)
    (hlast : s.last < b) (hc : s.completed = []) (hs : (s.states b).getD ⟨0, 0⟩ = ⟨0, c⟩)
    (hc0 : 0 ≤ c) (hc1 : c + 1 < 9223372036854775808) :
    trackerStep save s (TrackerInput.ack b) =
      { s with states := setState s.states b ⟨0, c + 1⟩ } := by
  have hw : wrapInt (c + 1) = c + 1 := wrapInt_eq _ (by omega) (by omega)
  simp only [trackerStep]
  rw [if_neg (by omega)]
  have hon : onAck s b = { s with states := setState s.states b ⟨0, c + 1⟩ } := by
    unfold onAck
    simp only [hs, hw]
    rw [if_neg (by omega)]
  rw [hon]
  simp only [hc, List.length_nil, drain]

theorem acks_unpublished (save : Nat → Bool) (b : Nat) :
    ∀ (k : Nat) (s : TrackerState) (c : Int), s.last < b → s.completed = [] →
      (s.states b).getD ⟨0, 0⟩ = ⟨0, c⟩ → 0 ≤ c → c + (k : Int) < 9223372036854775808 →
      ((List.replicate k (TrackerInput.ack b)).foldl (trackerStep save) s).last = s.last ∧
      ((List.replicate k (TrackerInput.ack b)).foldl (trackerStep save) s).completed = [] ∧
      ((List.replicate k (TrackerInput.ack b)).foldl (trackerStep save) s).persisted =
        s.persisted ∧
      (((List.replicate k (TrackerInput.ack b)).foldl (trackerStep save) s).states b).getD
        ⟨0, 0⟩ = ⟨0, c + (k : Int)⟩ := by
  intro k
  induction k with
  | zero =>
    intro s c _ hc hs _ _
    simpa using ⟨hc, hs⟩
  | succ k ih =>
    intro s c hlast hc hs hc0 hck
    push_cast at hck ⊢
    rw [List.replicate_succ, List.foldl_cons,
      ack_unpublished save s b c hlast hc hs hc0 (by omega)]
    have := ih { s with states := setState s.states b ⟨0, c + 1⟩ } (c + 1) hlast hc
      (by simp [setState]) (by omega) (by omega)
    obtain ⟨h1, h2, h3, h4⟩ := this
    refine ⟨h1, h2, h3, ?_⟩
    rw [h4]
    congr 1
    omega

/-- The defect behind C2 in general: from any checkpoint `L`, for any block
`b > L` and any count `n >= 1`, when the `n` acks of `b` all arrive before
`BlockFiltered{b, n}`, block `b` is not marked completed and nothing is
persisted although `done = expected = n`. -/
theorem acks_first_never_completes (save : Nat → Bool) (L b k : Nat) (hb : L < b)
    (hk : 1 ≤ k) (hk2 : (k : Int) < 9223372036854775808) :
    (runTracker save L (List.replicate k (TrackerInput.ack b) ++
        [TrackerInput.filtered b (k : Int)])).states b = some ⟨(k : Int), (k : Int)⟩ ∧
    (runTracker save L (List.replicate k (TrackerInput.ack b) ++
        [TrackerInput.filtered b (k : Int)])).completed = [] ∧
    (runTracker save L (List.replicate k (TrackerInput.ack b) ++
        [TrackerInput.filtered b (k : Int)])).persisted = [] := by
  obtain ⟨h1, h2, h3, h4⟩ := acks_unpublished save b k (TrackerState.init L) 0 hb rfl rfl
    (le_refl _) (by omega)
  simp only [runTracker, List.foldl_append, List.foldl_cons, List.foldl_nil]
  generalize (List.replicate k (TrackerInput.ack b)).foldl (trackerStep save)
    (TrackerState.init L) = r at h1 h2 h3 h4
  have hlast : ¬ b ≤ r.last := by
    rw [h1]
    simp only [TrackerState.init]
    omega
  simp only [zero_add] at h4
  have hk0 : ¬ ((k : Int) = 0 ∧ (k : Int) = 0) := by omega
  have hon : onFiltered r b (k : Int) =
      { r with states := setState r.states b ⟨(k : Int), (k : Int)⟩ } := by
    unfold onFiltered
    simp only [h4]
    rw [if_neg hk0]
  simp only [trackerStep]
  rw [if_neg hlast, hon]
  simp only [h2, List.length_nil, drain]
  refine ⟨by simp [setState], trivial, ?_⟩
  rw [h3]
  rfl

/-- C2: the tracker run at the failing input. From checkpoint 0 with every
`cp.Save` succeeding, the one ack of block 1 followed by `BlockFiltered{1, 1}`
leaves block 1 not completed and nothing persisted, with the entry
`{expected: 1, done: 1}` kept in `states`; the same two inputs in the other
order persist checkpoint 1. The final state depends on the arrival order. -/
theorem filtered_after_acks_not_completed :
    1 ∉ (runTracker (fun _ => true) 0
        [TrackerInput.ack 1, TrackerInput.filtered 1 1]).completed ∧
    (runTracker (fun _ => true) 0
        [TrackerInput.ack 1, TrackerInput.filtered 1 1]).persisted = [] ∧
    (runTracker (fun _ => true) 0
        [TrackerInput.ack 1, TrackerInput.filtered 1 1]).states 1 = some ⟨1, 1⟩ ∧
    (runTracker (fun _ => true) 0
        [TrackerInput.filtered 1 1, TrackerInput.ack 1]).persisted = [1] := by
  decide

/-- C3, counterexample: from checkpoint 0, `BlockFiltered{1, 1}` arrives before
the one ack of block 1 and `1 = last + 1`, yet when `cp.Save` fails the ack
persists nothing: block 1 stays in `completed` and `last` stays 0. -/
theorem last_ack_not_persisted_when_save_fails :
    (runTracker (fun _ => false) 0 [TrackerInput.filtered 1 1]).last + 1 = 1 ∧
    ackCount 1 [TrackerInput.filtered 1 1, TrackerInput.ack 1] = 1 ∧
    1 ∉ (runTracker (fun _ => false) 0
        [TrackerInput.filtered 1 1, TrackerInput.ack 1]).persisted ∧
    (runTracker (fun _ => false) 0
        [TrackerInput.filtered 1 1, TrackerInput.ack 1]).completed = [1] ∧
    (runTracker (fun _ => false) 0
        [TrackerInput.filtered 1 1, TrackerInput.ack 1]).last = 0 := by
  decide

/-- C3, amended: let `b` be a block above the start checkpoint `L` and `n` a
count with `1 <= n`. (1) In every trace whose `BlockFiltered` inputs for `b` all
carry the count `n`, a persisted checkpoint `c >= b` implies that the trace
holds at least `n` acks of `b`, whatever else arrives in between. (2) When
`BlockFiltered{b, n}` arrives before any ack of `b`, `n - 1` acks of `b` follow
among other inputs, and `b = last + 1` when the `n`-th ack is processed, then
that ack persists `b` provided its `cp.Save` succeeds, and persists `b + 1`
right after it when `b + 1` is marked completed and its `cp.Save` succeeds. -/
theorem ack_accounting (save : Nat → Bool) (L b : Nat) (n : Int)
    (hb : L < b) (hb2 : b < u64) (hn : 1 ≤ n) (hn2 : n < 9223372036854775808) :
    (∀ (trace : List TrackerInput),
      (∀ m, TrackerInput.filtered b m ∈ trace → m = n) →
      ∀ c ∈ (runTracker save L trace).persisted, b ≤ c → n ≤ (ackCount b trace : Int)) ∧
    (∀ (pre mid : List TrackerInput),
      (∀ e ∈ pre, e ≠ TrackerInput.ack b ∧ ∀ m, e ≠ TrackerInput.filtered b m) →
      (∀ m, TrackerInput.filtered b m ∉ mid) →
      (ackCount b mid : Int) + 1 = n →
      (runTracker save L (pre ++ TrackerInput.filtered b n :: mid)).last + 1 = b →
      save (runTracker save L (pre ++ TrackerInput.filtered b n :: mid)).saveCalls = true →
      (∃ rest,
        (runTracker save L (pre ++ TrackerInput.filtered b n :: mid ++
          [TrackerInput.ack b])).persisted =
        (runTracker save L (pre ++ TrackerInput.filtered b n :: mid)).persisted ++ b :: rest) ∧
      (b + 1 ∈ (runTracker save L (pre ++ TrackerInput.filtered b n :: mid)).completed →
        save ((runTracker save L (pre ++ TrackerInput.filtered b n :: mid)).saveCalls + 1)
          = true →
        b + 1 < u64 →
        ∃ rest,
          (runTracker save L (pre ++ TrackerInput.filtered b n :: mid ++
            [TrackerInput.ack b])).persisted =
          (runTracker save L (pre ++ TrackerInput.filtered b n :: mid)).persisted ++
            b :: (b + 1) :: rest)) := by
  constructor
  · intro trace hpub c hc hbc
    exact persisted_needs_acks save L b n trace hb hn hpub c hc hbc
  · intro pre mid hpre hmid hcount hlast hsave
    have hrun : runTracker save L (pre ++ TrackerInput.filtered b n :: mid ++
        [TrackerInput.ack b]) =
        trackerStep save (runTracker save L (pre ++ TrackerInput.filtered b n :: mid))
          (TrackerInput.ack b) := by
      simp [runTracker, List.foldl_append]
    have hIfin := runTracker_inv save L (pre ++ TrackerInput.filtered b n :: mid)
    -- the state after `pre`, after the publication, and after `mid`
    have hIpre : TrackerInv L (pre.foldl (trackerStep save) (TrackerState.init L)) :=
      foldl_trackerStep_inv save L pre _ (trackerInv_init L)
    have hsplit : runTracker save L (pre ++ TrackerInput.filtered b n :: mid) =
        mid.foldl (trackerStep save)
          (trackerStep save (pre.foldl (trackerStep save) (TrackerState.init L))
            (TrackerInput.filtered b n)) := by
      simp [runTracker, List.foldl_append]
    have hIpub := trackerStep_inv save L _ (TrackerInput.filtered b n) hIpre
    have hmono2 := foldl_last_mono save L mid _ hIpub
    have hmono1 := trackerStep_last_mono save L _ (TrackerInput.filtered b n) hIpre
    rw [← hsplit] at hmono2
    have hspre : (pre.foldl (trackerStep save) (TrackerState.init L)).states b = none := by
      rw [foldl_states_other save b pre hpre]
      rfl
    have hspub := trackerStep_filtered_sets save _ b n (by omega) hspre hn
    have hsfin : (runTracker save L (pre ++ TrackerInput.filtered b n :: mid)).states b =
        some ⟨n, n - 1⟩ := by
      rw [hsplit]
      have := foldl_ack_counts save L b n hn2 mid _ 0 hIpub
        (by rw [← hsplit]; omega) hspub (le_refl _) (by omega) hmid
      rw [this]
      congr 2
      omega
    rw [hrun]
    exact last_ack_persists save L _ b n hIfin hlast hb2 hsfin hn hn2 hsave

/-- Witness for C3 (`ack_accounting`) on the out-of-order scenario: from checkpoint
0 the filter publishes `{1, 3}` and `{2, 1}`, the acks of block 1 arrive
interleaved with the ack of block 2, and the third ack of block 1 persists 1
and then 2. -/
theorem ack_accounting_witness :
    (3 : Int) ≤ (ackCount 1 [TrackerInput.filtered 1 3, TrackerInput.filtered 2 1,
      TrackerInput.ack 1, TrackerInput.ack 2, TrackerInput.ack 1, TrackerInput.ack 1] : Int) ∧
    ∃ rest, (runTracker (fun _ => true) 0 ([] ++ TrackerInput.filtered 1 3 ::
        [TrackerInput.filtered 2 1, TrackerInput.ack 1, TrackerInput.ack 2, TrackerInput.ack 1]
        ++ [TrackerInput.ack 1])).persisted =
      (runTracker (fun _ => true) 0 ([] ++ TrackerInput.filtered 1 3 ::
        [TrackerInput.filtered 2 1, TrackerInput.ack 1, TrackerInput.ack 2,
          TrackerInput.ack 1])).persisted ++ 1 :: (1 + 1) :: rest :=
  ⟨(ack_accounting (fun _ => true) 0 1 3 (by decide) (by decide) (by decide) (by decide)).1
      [TrackerInput.filtered 1 3, TrackerInput.filtered 2 1,
        TrackerInput.ack 1, TrackerInput.ack 2, TrackerInput.ack 1, TrackerInput.ack 1]
      (by intro m hm; simpa using hm) 2 (by decide) (by decide),
    ((ack_accounting (fun _ => true) 0 1 3 (by decide) (by decide) (by decide) (by decide)).2
      [] [TrackerInput.filtered 2 1, TrackerInput.ack 1, TrackerInput.ack 2, TrackerInput.ack 1]
      (by simp) (by simp) (by decide) (by decide) (by decide)).2
      (by decide) (by decide) (by decide)⟩

/-! ## Theorems: nonce manager -/

theorem next_other_next (m : NonceManager) (a b : Address) (h : b ≠ a) :
    (m.Next b).2.next a = m.next a := by
  have hab : a ≠ b := fun e => h e.symm
  unfold NonceManager.Next
  split
  · rfl
  · split
    · simp [setAddr, hab]
    · split <;> simp [setAddr, hab]

theorem next_other_queried (m : NonceManager) (a b : Address) (h : b ≠ a) :
    (m.Next b).2.queried a = m.queried a := by
  have hab : a ≠ b := fun e => h e.symm
  unfold NonceManager.Next
  split
  · rfl
  · split
    · rfl
    · split <;> simp [setAddr, hab]

theorem next_client (m : NonceManager) (b : Address) :
    (m.Next b).2.client = m.client := by
  unfold NonceManager.Next
  split
  · rfl
  · split
    · rfl
    · split <;> rfl

theorem next_cached (m : NonceManager) (c : ChainClient) (a : Address) (v : Nat)
    (hc : m.client = some c) (hv : m.next a = some v) :
    (m.Next a).1 = Except.ok v ∧ (m.Next a).2.next a = some ((v + 1) % u64) ∧
      (m.Next a).2.queried a = m.queried a := by
  unfold NonceManager.Next
  simp [hc, hv, setAddr]

theorem next_uncached (m : NonceManager) (c : ChainClient) (a : Address) (p : Nat)
    (hc : m.client = some c) (hv : m.next a = none)
    (hp : c.PendingNonceAt a (m.queried a) = Except.ok p) :
    (m.Next a).1 = Except.ok p ∧ (m.Next a).2.next a = some ((p + 1) % u64) ∧
      (m.Next a).2.queried a = m.queried a + 1 := by
  unfold NonceManager.Next
  simp [hc, hv, hp, setAddr]

theorem resultsFor_cons (a b : Address) (r : Except String Nat)
    (out : List (Address × Except String Nat)) :
    resultsFor a ((b, r) :: out) =
      if b = a then r :: resultsFor a out else resultsFor a out := by
  unfold resultsFor
  by_cases h : b = a <;> simp [List.filter_cons, h]

theorem range_map_shift (v : Nat) (k : Nat) :
    (List.range (k + 1)).map (fun i => (Except.ok ((v + i) % u64) : Except String Nat)) =
      Except.ok (v % u64) ::
        (List.range k).map (fun i => (Except.ok (((v + 1) % u64 + i) % u64) : Except String Nat)) := by
  rw [List.range_succ_eq_map, List.map_cons, List.map_map]
  congr 1
  apply List.map_congr_left
  intro i _
  simp only [Function.comp, u64]
  congr 1
  omega

/-- Once an entry for `a` is cached, the `Next(a)` calls of a sequence without
`Reset(a)` return the cached value and its uint64 successors, and the chain is
not queried for `a`. -/
theorem runCalls_cached (c : ChainClient) (a : Address) (calls : List NonceCall) :
    ∀ (m : NonceManager) (v : Nat), m.client = some c → m.next a = some v → v < u64 →
      NonceCall.callReset a ∉ calls →
      resultsFor a (runCalls m calls).1 =
        (List.range (calls.count (NonceCall.callNext a))).map
          (fun i => (Except.ok ((v + i) % u64) : Except String Nat)) ∧
      (runCalls m calls).2.queried a = m.queried a := by
  induction calls with
  | nil => intro m v _ _ _ _; simp [runCalls, resultsFor]
  | cons call rest ih =>
    intro m v hc hv hv64 hnr
    have hnr2 : NonceCall.callReset a ∉ rest := fun h => hnr (List.mem_cons_of_mem _ h)
    cases call with
    | callNext b =>
      simp only [runCalls]
      by_cases hb : b = a
      · subst hb
        obtain ⟨h1, h2, h3⟩ := next_cached m c b v hc hv
        have hmod : (v + 1) % u64 < u64 := Nat.mod_lt _ (by decide)
        obtain ⟨ih1, ih2⟩ := ih (m.Next b).2 ((v + 1) % u64)
          (by rw [next_client]; exact hc) h2 hmod hnr2
        rw [resultsFor_cons, if_pos rfl, ih1, ih2, h1, h3, List.count_cons_self,
          range_map_shift, Nat.mod_eq_of_lt hv64]
        exact ⟨rfl, rfl⟩
      · obtain ⟨ih1, ih2⟩ := ih (m.Next b).2 v (by rw [next_client]; exact hc)
          (by rw [next_other_next m a b hb]; exact hv) hv64 hnr2
        have hne : NonceCall.callNext b ≠ NonceCall.callNext a := by
          intro h; exact hb (NonceCall.callNext.inj h)
        rw [resultsFor_cons, if_neg hb, ih1, ih2, List.count_cons_of_ne hne.symm,
          next_other_queried m a b hb]
        exact ⟨rfl, rfl⟩
    | callReset b =>
      have hb : a ≠ b := by
        intro h; exact hnr (by rw [h]; exact List.mem_cons_self _ _)
      simp only [runCalls]
      obtain ⟨ih1, ih2⟩ := ih (m.Reset b) v hc
        (by simp [NonceManager.Reset, setAddr, hb, hv]) hv64 hnr2
      rw [ih1, ih2, List.count_cons_of_ne (by simp)]
      exact ⟨rfl, rfl⟩

/-- C4: take a manager with a client and no cached entry for `a`, and let the
chain report the pending nonce `p` at the first query for `a`. For every
sequence of calls without `Reset(a)`, with any calls for other addresses
interleaved, the `k` calls `Next(a)` all succeed and return `p, p+1, ...,
p+k-1` in call order, in uint64 arithmetic (so exactly these values when
`p + k <= 2^64`), and when `k >= 1` the chain is queried exactly once for
`a`. -/
theorem nonce_contiguous (c : ChainClient) (m : NonceManager) (a : Address) (p : Nat)
    (calls : List NonceCall)
    (hc : m.client = some c) (hv : m.next a = none)
    (hp : c.PendingNonceAt a (m.queried a) = Except.ok p) (hp64 : p < u64)
    (hnr : NonceCall.callReset a ∉ calls) :
    resultsFor a (runCalls m calls).1 =
      (List.range (calls.count (NonceCall.callNext a))).map
        (fun i => (Except.ok ((p + i) % u64) : Except String Nat)) ∧
    (p + calls.count (NonceCall.callNext a) ≤ u64 →
      resultsFor a (runCalls m calls).1 =
        (List.range' p (calls.count (NonceCall.callNext a))).map Except.ok) ∧
    (NonceCall.callNext a ∈ calls → (runCalls m calls).2.queried a = m.queried a + 1) := by
  have key : ∀ (calls : List NonceCall) (m : NonceManager), m.client = some c →
      m.next a = none → c.PendingNonceAt a (m.queried a) = Except.ok p →
      NonceCall.callReset a ∉ calls →
      resultsFor a (runCalls m calls).1 =
        (List.range (calls.count (NonceCall.callNext a))).map
          (fun i => (Except.ok ((p + i) % u64) : Except String Nat)) ∧
      (NonceCall.callNext a ∈ calls → (runCalls m calls).2.queried a = m.queried a + 1) ∧
      (NonceCall.callNext a ∉ calls → (runCalls m calls).2.queried a = m.queried a) := by
    intro calls
    induction calls with
    | nil => intro m _ _ _ _; simp [runCalls, resultsFor]
    | cons call rest ih =>
      intro m hc hv hp hnr
      have hnr2 : NonceCall.callReset a ∉ rest := fun h => hnr (List.mem_cons_of_mem _ h)
      cases call with
      | callNext b =>
        simp only [runCalls]
        by_cases hb : b = a
        · subst hb
          obtain ⟨h1, h2, h3⟩ := next_uncached m c b p hc hv hp
          have hmod : (p + 1) % u64 < u64 := Nat.mod_lt _ (by decide)
          obtain ⟨r1, r2⟩ := runCalls_cached c b rest (m.Next b).2 ((p + 1) % u64)
            (by rw [next_client]; exact hc) h2 hmod hnr2
          rw [resultsFor_cons, if_pos rfl, r1, r2, h1, h3, List.count_cons_self,
            range_map_shift, Nat.mod_eq_of_lt hp64]
          refine ⟨rfl, fun _ => rfl, fun h => absurd (List.mem_cons_self _ _) h⟩
        · have hne : NonceCall.callNext b ≠ NonceCall.callNext a := by
            intro h; exact hb (NonceCall.callNext.inj h)
          obtain ⟨r1, r2, r3⟩ := ih (m.Next b).2 (by rw [next_client]; exact hc)
            (by rw [next_other_next m a b hb]; exact hv)
            (by rw [next_other_queried m a b hb]; exact hp) hnr2
          rw [resultsFor_cons, if_neg hb, r1, List.count_cons_of_ne hne.symm]
          refine ⟨rfl, ?_, ?_⟩
          · intro hmem
            rcases List.mem_cons.mp hmem with h | h
            · exact absurd h.symm hne
            · rw [r2 h, next_other_queried m a b hb]
          · intro hmem
            rw [r3 (fun h => hmem (List.mem_cons_of_mem _ h)), next_other_queried m a b hb]
      | callReset b =>
        have hb : a ≠ b := by
          intro h; exact hnr (by rw [h]; exact List.mem_cons_self _ _)
        simp only [runCalls]
        obtain ⟨r1, r2, r3⟩ := ih (m.Reset b) hc
          (by simp [NonceManager.Reset, setAddr, hb, hv]) hp hnr2
        rw [r1, List.count_cons_of_ne (by simp)]
        refine ⟨rfl, ?_, ?_⟩
        · intro hmem
          rcases List.mem_cons.mp hmem with h | h
          · cases h
          · exact r2 h
        · intro hmem
          exact r3 (fun h => hmem (List.mem_cons_of_mem _ h))
  obtain ⟨r1, r2, _⟩ := key calls m hc hv hp hnr
  refine ⟨r1, ?_, r2⟩
  intro hk
  rw [r1, List.range'_eq_map_range, List.map_map]
  apply List.map_congr_left
  intro i hi
  have hi2 : i < calls.count (NonceCall.callNext a) := List.mem_range.mp hi
  simp only [Function.comp]
  congr 1
  apply Nat.mod_eq_of_lt
  simp only [u64] at hk ⊢
  omega

/-- Witness for C4 (`nonce_contiguous`): with the chain reporting 7, three
`Next(0x1111...)` calls interleaved with calls for `0x2222...` return 7, 8, 9
and query the chain once for `0x1111...`. -/
theorem nonce_contiguous_witness :
    resultsFor (testAddress 0x11) (runCalls (NewNonceManager (some testClient)) testCalls).1 =
      (List.range' 7 (testCalls.count (NonceCall.callNext (testAddress 0x11)))).map Except.ok ∧
    (runCalls (NewNonceManager (some testClient)) testCalls).2.queried (testAddress 0x11) =
      (NewNonceManager (some testClient)).queried (testAddress 0x11) + 1 :=
  ⟨(nonce_contiguous testClient (NewNonceManager (some testClient)) (testAddress 0x11) 7
      testCalls rfl rfl rfl (by decide) (by decide)).2.1 (by decide),
    (nonce_contiguous testClient (NewNonceManager (some testClient)) (testAddress 0x11) 7
      testCalls rfl rfl rfl (by decide) (by decide)).2.2 (by decide)⟩

/-! ## Theorems: calldata encoder -/

theorem fromBytesBE_append_single (xs : List Byte) (d : Byte) :
    fromBytesBE (xs ++ [d]) = fromBytesBE xs * 256 + d.val := by
  simp [fromBytesBE, List.foldl_append]

theorem fromBytesBE_reverse_bytesLE :
    ∀ (fuel v : Nat), v ≤ fuel → fromBytesBE (bytesLE fuel v).reverse = v := by
  intro fuel
  induction fuel with
  | zero =>
    intro v hv
    have : v = 0 := by omega
    subst this
    rfl
  | succ fuel ih =>
    intro v hv
    by_cases h0 : v = 0
    · subst h0; rfl
    · simp only [bytesLE, h0, if_false, List.reverse_cons]
      rw [fromBytesBE_append_single, ih (v / 256) (by omega)]
      have : (Fin.ofNat (v % 256) : Byte).val = v % 256 := by
        show v % 256 % 256 = v % 256
        omega
      rw [this]
      omega

theorem fromBytesBE_bigBytes (v : Nat) : fromBytesBE (bigBytes v) = v :=
  fromBytesBE_reverse_bytesLE v v (le_refl v)

theorem length_bytesLE_le :
    ∀ (fuel v k : Nat), v < 256 ^ k → (bytesLE fuel v).length ≤ k := by
  intro fuel
  induction fuel with
  | zero => intro v k _; simp [bytesLE]
  | succ fuel ih =>
    intro v k hv
    by_cases h0 : v = 0
    · simp [bytesLE, h0]
    · cases k with
      | zero => simp at hv; exact absurd hv h0
      | succ k =>
        simp only [bytesLE, h0, if_false, List.length_cons]
        have : v / 256 < 256 ^ k := by
          apply Nat.div_lt_of_lt_mul
          rw [pow_succ] at hv
          omega
        have := ih (v / 256) k this
        omega

theorem length_bigBytes_le (v : Nat) (h : v < u256) : (bigBytes v).length ≤ 32 := by
  unfold bigBytes
  rw [List.length_reverse]
  apply length_bytesLE_le
  have : (256 : Nat) ^ 32 = u256 := by norm_num [u256]
  rw [this]
  exact h

theorem fromBytesBE_replicate_zero (k : Nat) (s : List Byte) :
    fromBytesBE (List.replicate k (0 : Byte) ++ s) = fromBytesBE s := by
  induction k with
  | zero => simp
  | succ k ih =>
    simp only [List.replicate_succ, List.cons_append]
    unfold fromBytesBE at ih ⊢
    simpa using ih

theorem leftPad_short (s : List Byte) (h : s.length ≤ 32) :
    (LeftPadBytes s 32).length = 32 ∧ fromBytesBE (LeftPadBytes s 32) = fromBytesBE s := by
  unfold LeftPadBytes
  split_ifs with h32
  · exact ⟨by omega, rfl⟩
  · refine ⟨?_, fromBytesBE_replicate_zero _ _⟩
    simp only [List.length_append, List.length_replicate]
    omega

theorem encodeUint256_nat (v : Nat) :
    encodeUint256 (some (v : Int)) = Except.ok (LeftPadBytes (bigBytes v) 32) := by
  simp [encodeUint256]

theorem word_of_nat (v : Nat) (h : v < u256) :
    (LeftPadBytes (bigBytes v) 32).length = 32 ∧
      fromBytesBE (LeftPadBytes (bigBytes v) 32) = v := by
  have := leftPad_short (bigBytes v) (length_bigBytes_le v h)
  rw [fromBytesBE_bigBytes] at this
  exact this

theorem buildBuyData_nat (x d : Nat) :
    buildBuyData (some (x : Int)) d =
      Except.ok (selectorBuy ++ LeftPadBytes (bigBytes x) 32 ++ LeftPadBytes (bigBytes d) 32) := by
  simp [buildBuyData, encodeUint256_nat, wrapErr]

theorem buildSellData_nat (x y d : Nat) :
    buildSellData (some (x : Int)) (some (y : Int)) d =
      Except.ok (selectorSell ++ LeftPadBytes (bigBytes x) 32 ++ LeftPadBytes (bigBytes y) 32 ++
        LeftPadBytes (bigBytes d) 32) := by
  simp [buildSellData, encodeUint256_nat, wrapErr]

theorem encodeAddress_eq (s : Address) :
    encodeAddress s = List.replicate 12 (0 : Byte) ++ s.bytes := by
  simp [encodeAddress, LeftPadBytes, s.size]

theorem buildApproveData_nat (s : Address) (x : Nat) :
    buildApproveData s (some (x : Int)) =
      Except.ok (selectorApprove ++ (List.replicate 12 (0 : Byte) ++ s.bytes) ++
        LeftPadBytes (bigBytes x) 32) := by
  simp [buildApproveData, encodeUint256_nat, wrapErr, encodeAddress_eq]

theorem buildDynamicTx_valid (cid : Int) (toAddr : Address) (val : Nat) (data : List Byte)
    (p : BuildParams) (hp : p.valid) :
    ∃ tx, buildDynamicTx (some cid) toAddr (some (val : Int)) data p = Except.ok tx ∧
      tx.Data = data ∧ tx.To = toAddr ∧ tx.Value = (val : Int) ∧ tx.ChainID = cid ∧
      tx.Nonce = p.Nonce ∧ tx.Gas = p.GasLimit := by
  obtain ⟨hg, ⟨f, hf, hf0⟩, ⟨t, ht, ht0⟩⟩ := hp
  refine ⟨{ ChainID := cid, Nonce := p.Nonce, Gas := p.GasLimit, GasFeeCap := f,
            GasTipCap := t, To := toAddr, Value := (val : Int), Data := data }, ?_, rfl, rfl, rfl,
          rfl, rfl, rfl⟩
  unfold buildDynamicTx
  simp only [hg, if_false, hf, ht]
  rw [if_neg (by omega), if_neg (by omega)]

theorem deadline_lt (b : Builder) : b.deadline < u64 := by
  unfold Builder.deadline
  have h1 : (0 : Int) ≤ (b.now.Add b.DefaultDeadline).Unix % (u64 : Int) :=
    Int.emod_nonneg _ (by decide)
  have h2 : (b.now.Add b.DefaultDeadline).Unix % (u64 : Int) < (u64 : Int) :=
    Int.emod_lt_of_pos _ (by decide)
  omega

theorem deadline_eq (b : Builder) (h0 : 0 ≤ (b.now.Add b.DefaultDeadline).Unix)
    (h1 : (b.now.Add b.DefaultDeadline).Unix < (u64 : Int)) :
    (b.deadline : Int) = (b.now.Add b.DefaultDeadline).Unix := by
  unfold Builder.deadline
  rw [Int.emod_eq_of_lt h0 h1]
  omega

/-- C5: for a builder with a chain id, every pair address, every `ethInWei >=
0`, every `minTokensOut` in `[0, 2^256)`, valid parameters and every clock
reading `now`, `BuildBuyTx` succeeds and the data of the transaction is the
selector `0xd6febde8`, then the 32-byte big-endian word of `minTokensOut`, then
the 32-byte big-endian word of the deadline, 68 bytes in all. The deadline is
the number of whole seconds in `now + DefaultDeadline` (both in nanoseconds),
`(now + DefaultDeadline) / 10^9`, taken modulo `2^64`; for a time at or after the
epoch and below `2^64` seconds it is that number of seconds `d` itself, with
`d * 10^9 <= now + DefaultDeadline < (d + 1) * 10^9`. -/
theorem buildBuyTx_calldata (b : Builder) (cid : Int) (pair : Address)
    (ethInWei minTokensOut : Nat) (p : BuildParams)
    (hcid : b.ChainID = some cid) (hmin : minTokensOut < u256) (hp : p.valid) :
    ∃ tx w0 w1,
      b.BuildBuyTx pair (some (ethInWei : Int)) (some (minTokensOut : Int)) p = Except.ok tx ∧
      tx.Data = selectorBuy ++ w0 ++ w1 ∧
      w0.length = 32 ∧ fromBytesBE w0 = minTokensOut ∧
      w1.length = 32 ∧ fromBytesBE w1 = b.deadline ∧
      tx.Data.length = 68 ∧ tx.To = pair ∧ tx.Value = (ethInWei : Int) ∧
      ((fromBytesBE w1 : Nat) : Int) =
        ((b.now.unixNano + b.DefaultDeadline) / 1000000000) % 18446744073709551616 ∧
      (0 ≤ b.now.unixNano + b.DefaultDeadline →
        (b.now.unixNano + b.DefaultDeadline) / 1000000000 < 18446744073709551616 →
        ((fromBytesBE w1 : Nat) : Int) = (b.now.unixNano + b.DefaultDeadline) / 1000000000 ∧
        ((fromBytesBE w1 : Nat) : Int) * 1000000000 ≤ b.now.unixNano + b.DefaultDeadline ∧
        b.now.unixNano + b.DefaultDeadline <
          (((fromBytesBE w1 : Nat) : Int) + 1) * 1000000000) := by
  have hv : (b.deadline : Int) =
      ((b.now.unixNano + b.DefaultDeadline) / 1000000000) % 18446744073709551616 := by
    unfold Builder.deadline Time.Unix Time.Add
    dsimp only
    have hu : ((u64 : Nat) : Int) = 18446744073709551616 := by decide
    rw [hu]
    exact Int.toNat_of_nonneg (Int.emod_nonneg _ (by decide))
  have hd : b.deadline < u256 := by
    have := deadline_lt b
    have h2 : u64 < u256 := by norm_num [u64, u256]
    omega
  obtain ⟨l0, v0⟩ := word_of_nat minTokensOut hmin
  obtain ⟨l1, v1⟩ := word_of_nat b.deadline hd
  obtain ⟨tx, htx, hdata, hto, hval, _⟩ := buildDynamicTx_valid cid pair ethInWei
    (selectorBuy ++ LeftPadBytes (bigBytes minTokensOut) 32 ++
      LeftPadBytes (bigBytes b.deadline) 32) p hp
  refine ⟨tx, LeftPadBytes (bigBytes minTokensOut) 32, LeftPadBytes (bigBytes b.deadline) 32,
    ?_, hdata, l0, v0, l1, v1, ?_, hto, hval, ?_, ?_⟩
  · simp only [Builder.BuildBuyTx, buildBuyData_nat, hcid]
    rw [if_neg (by simp)]
    exact htx
  · rw [hdata]
    simp [l0, l1, selectorBuy]
  · rw [v1]
    exact hv
  · intro h0 h1
    rw [v1]
    have hq : 0 ≤ (b.now.unixNano + b.DefaultDeadline) / 1000000000 :=
      Int.ediv_nonneg h0 (by decide)
    rw [Int.emod_eq_of_lt hq h1] at hv
    refine ⟨hv, ?_, ?_⟩ <;> rw [hv] <;> omega

/-- Witness for C5 (`buildBuyTx_calldata`) on the values of
`TestBuildBuyTxCalldata`: pair `0x1111...`, 1 wei in, `minTokensOut = 1000`, a
clock at `time.Unix(1700000000, 0)` and a deadline of 120 s; the deadline word
is 1700000120. -/
theorem buildBuyTx_calldata_witness :
    ∃ tx w0 w1,
      testBuyBuilder.BuildBuyTx (testAddress 0x11) (some ((1 : Nat) : Int))
        (some ((1000 : Nat) : Int)) testBuyParams = Except.ok tx ∧
      tx.Data = selectorBuy ++ w0 ++ w1 ∧
      w0.length = 32 ∧ fromBytesBE w0 = 1000 ∧
      w1.length = 32 ∧ fromBytesBE w1 = 1700000120 ∧
      tx.Data.length = 68 ∧ tx.To = testAddress 0x11 ∧ tx.Value = ((1 : Nat) : Int) ∧
      tx.Data = [0xd6, 0xfe, 0xbd, 0xe8] ++ List.replicate 30 0 ++ [0x03, 0xe8] ++
        List.replicate 28 0 ++ [0x65, 0x53, 0xf1, 0x78] := by
  obtain ⟨tx, w0, w1, h1, h2, h3, h4, h5, -, h7, h8, h9, -, h11⟩ :=
    buildBuyTx_calldata testBuyBuilder 8453 (testAddress 0x11) 1 1000 testBuyParams rfl
      (by decide) ⟨by decide, ⟨1000000000, rfl, by decide⟩, ⟨200000000, rfl, by decide⟩⟩
  have hsec := (h11 (by decide) (by decide)).1
  have hval : (testBuyBuilder.now.unixNano + testBuyBuilder.DefaultDeadline) / 1000000000 =
      1700000120 := by decide
  rw [hval] at hsec
  have hbytes : (testBuyBuilder.BuildBuyTx (testAddress 0x11) (some ((1 : Nat) : Int))
      (some ((1000 : Nat) : Int)) testBuyParams).map (fun t => t.Data) =
      Except.ok ([0xd6, 0xfe, 0xbd, 0xe8] ++ List.replicate 30 0 ++ [0x03, 0xe8] ++
        List.replicate 28 0 ++ [0x65, 0x53, 0xf1, 0x78]) := by decide
  rw [h1] at hbytes
  have hdata : tx.Data = [0xd6, 0xfe, 0xbd, 0xe8] ++ List.replicate 30 0 ++ [0x03, 0xe8] ++
      List.replicate 28 0 ++ [0x65, 0x53, 0xf1, 0x78] := by
    simpa [Except.map] using hbytes
  exact ⟨tx, w0, w1, h1, h2, h3, h4, h5, by exact_mod_cast hsec, h7, h8, h9, hdata⟩

/-- The test `TestBuildBuyTxCalldata` evaluated: the deadline is 1700000120 and
the calldata is `0xd6febde8`, the word of 1000 (`0x03e8`) and the word of
1700000120 (`0x6553f178`). -/
theorem test_BuildBuyTxCalldata :
    testBuyBuilder.deadline = 1700000120 ∧
    (testBuyBuilder.BuildBuyTx (testAddress 0x11) (some 1) (some 1000) testBuyParams).map
        (fun tx => tx.Data) =
      Except.ok ([0xd6, 0xfe, 0xbd, 0xe8] ++ List.replicate 30 0 ++ [0x03, 0xe8] ++
        List.replicate 28 0 ++ [0x65, 0x53, 0xf1, 0x78]) := by
  decide

/-- C6: for a builder with a chain id, every pair address, every
`tokenAmountIn` and `minRefundWei` in `[0, 2^256)`, valid parameters and every
clock reading `now`, `BuildSellTx` succeeds with value 0 and the data of the
transaction is the selector `0xd3c9727c` followed by the 32-byte big-endian
words of `tokenAmountIn`, `minRefundWei` and the deadline, in that order, 100
bytes in all. The deadline is the number of whole seconds in
`now + DefaultDeadline` (both in nanoseconds), `(now + DefaultDeadline) / 10^9`,
taken modulo `2^64`; for a time at or after the epoch and below `2^64` seconds
it is that number of seconds `d` itself, with
`d * 10^9 <= now + DefaultDeadline < (d + 1) * 10^9`. -/
theorem buildSellTx_calldata (b : Builder) (cid : Int) (pair : Address)
    (tokenAmountIn minRefundWei : Nat) (p : BuildParams)
    (hcid : b.ChainID = some cid) (hin : tokenAmountIn < u256) (hout : minRefundWei < u256)
    (hp : p.valid) :
    ∃ tx w0 w1 w2,
      b.BuildSellTx pair (some (tokenAmountIn : Int)) (some (minRefundWei : Int)) p =
        Except.ok tx ∧
      tx.Value = 0 ∧ tx.To = pair ∧
      tx.Data = selectorSell ++ w0 ++ w1 ++ w2 ∧
      w0.length = 32 ∧ fromBytesBE w0 = tokenAmountIn ∧
      w1.length = 32 ∧ fromBytesBE w1 = minRefundWei ∧
      w2.length = 32 ∧ fromBytesBE w2 = b.deadline ∧
      tx.Data.length = 100 ∧
      ((fromBytesBE w2 : Nat) : Int) =
        ((b.now.unixNano + b.DefaultDeadline) / 1000000000) % 18446744073709551616 ∧
      (0 ≤ b.now.unixNano + b.DefaultDeadline →
        (b.now.unixNano + b.DefaultDeadline) / 1000000000 < 18446744073709551616 →
        ((fromBytesBE w2 : Nat) : Int) = (b.now.unixNano + b.DefaultDeadline) / 1000000000 ∧
        ((fromBytesBE w2 : Nat) : Int) * 1000000000 ≤ b.now.unixNano + b.DefaultDeadline ∧
        b.now.unixNano + b.DefaultDeadline <
          (((fromBytesBE w2 : Nat) : Int) + 1) * 1000000000) := by
  have hv : (b.deadline : Int) =
      ((b.now.unixNano + b.DefaultDeadline) / 1000000000) % 18446744073709551616 := by
    unfold Builder.deadline Time.Unix Time.Add
    dsimp only
    have hu : ((u64 : Nat) : Int) = 18446744073709551616 := by decide
    rw [hu]
    exact Int.toNat_of_nonneg (Int.emod_nonneg _ (by decide))
  have hd : b.deadline < u256 := by
    have := deadline_lt b
    have h2 : u64 < u256 := by norm_num [u64, u256]
    omega
  obtain ⟨l0, v0⟩ := word_of_nat tokenAmountIn hin
  obtain ⟨l1, v1⟩ := word_of_nat minRefundWei hout
  obtain ⟨l2, v2⟩ := word_of_nat b.deadline hd
  obtain ⟨tx, htx, hdata, hto, hval, _⟩ := buildDynamicTx_valid cid pair 0
    (selectorSell ++ LeftPadBytes (bigBytes tokenAmountIn) 32 ++
      LeftPadBytes (bigBytes minRefundWei) 32 ++ LeftPadBytes (bigBytes b.deadline) 32) p hp
  refine ⟨tx, LeftPadBytes (bigBytes tokenAmountIn) 32, LeftPadBytes (bigBytes minRefundWei) 32,
    LeftPadBytes (bigBytes b.deadline) 32, ?_, by simpa using hval, hto, hdata, l0, v0, l1, v1,
    l2, v2, ?_, ?_, ?_⟩
  · simp only [Builder.BuildSellTx, buildSellData_nat, hcid]
    rw [if_neg (by simp)]
    exact htx
  · rw [hdata]
    simp [l0, l1, l2, selectorSell]
  · rw [v2]
    exact hv
  · intro h0 h1
    rw [v2]
    have hq : 0 ≤ (b.now.unixNano + b.DefaultDeadline) / 1000000000 :=
      Int.ediv_nonneg h0 (by decide)
    rw [Int.emod_eq_of_lt hq h1] at hv
    refine ⟨hv, ?_, ?_⟩ <;> rw [hv] <;> omega

/-- Witness for C6 (`buildSellTx_calldata`) on the values of
`TestBuildSellTxCalldata`: pair `0x2222...`, 5000 tokens in, a refund of at
least 123456 wei, a clock at `time.Unix(1700000000, 0)` and a deadline of 60 s;
the deadline word is 1700000060. -/
theorem buildSellTx_calldata_witness :
    ∃ tx w0 w1 w2,
      testSellBuilder.BuildSellTx (testAddress 0x22) (some ((5000 : Nat) : Int))
        (some ((123456 : Nat) : Int)) testSellParams = Except.ok tx ∧
      tx.Value = 0 ∧ tx.To = testAddress 0x22 ∧
      tx.Data = selectorSell ++ w0 ++ w1 ++ w2 ∧
      w0.length = 32 ∧ fromBytesBE w0 = 5000 ∧
      w1.length = 32 ∧ fromBytesBE w1 = 123456 ∧
      w2.length = 32 ∧ fromBytesBE w2 = 1700000060 ∧
      tx.Data.length = 100 ∧
      tx.Data = [0xd3, 0xc9, 0x72, 0x7c] ++ List.replicate 30 0 ++ [0x13, 0x88] ++
        List.replicate 29 0 ++ [0x01, 0xe2, 0x40] ++
        List.replicate 28 0 ++ [0x65, 0x53, 0xf1, 0x3c] := by
  obtain ⟨tx, w0, w1, w2, h1, h2, h3, h4, h5, h6, h7, h8, h9, -, h11, -, h13⟩ :=
    buildSellTx_calldata testSellBuilder 8453 (testAddress 0x22) 5000 123456 testSellParams
      rfl (by decide) (by decide)
      ⟨by decide, ⟨1000000000, rfl, by decide⟩, ⟨200000000, rfl, by decide⟩⟩
  have hsec := (h13 (by decide) (by decide)).1
  have hval : (testSellBuilder.now.unixNano + testSellBuilder.DefaultDeadline) / 1000000000 =
      1700000060 := by decide
  rw [hval] at hsec
  have hbytes : (testSellBuilder.BuildSellTx (testAddress 0x22) (some ((5000 : Nat) : Int))
      (some ((123456 : Nat) : Int)) testSellParams).map (fun t => t.Data) =
      Except.ok ([0xd3, 0xc9, 0x72, 0x7c] ++ List.replicate 30 0 ++ [0x13, 0x88] ++
        List.replicate 29 0 ++ [0x01, 0xe2, 0x40] ++
        List.replicate 28 0 ++ [0x65, 0x53, 0xf1, 0x3c]) := by decide
  rw [h1] at hbytes
  have hdata : tx.Data = [0xd3, 0xc9, 0x72, 0x7c] ++ List.replicate 30 0 ++ [0x13, 0x88] ++
      List.replicate 29 0 ++ [0x01, 0xe2, 0x40] ++
      List.replicate 28 0 ++ [0x65, 0x53, 0xf1, 0x3c] := by
    simpa [Except.map] using hbytes
  exact ⟨tx, w0, w1, w2, h1, h2, h3, h4, h5, h6, h7, h8, h9, by exact_mod_cast hsec, h11,
    hdata⟩

/-- The test `TestBuildSellTxCalldata` evaluated: the deadline is 1700000060 and
the calldata is `0xd3c9727c`, the word of 5000 (`0x1388`), the word of 123456
(`0x01e240`) and the word of 1700000060 (`0x6553f13c`). -/
theorem test_BuildSellTxCalldata :
    testSellBuilder.deadline = 1700000060 ∧
    (testSellBuilder.BuildSellTx (testAddress 0x22) (some 5000) (some 123456)
        testSellParams).map (fun tx => tx.Data) =
      Except.ok ([0xd3, 0xc9, 0x72, 0x7c] ++ List.replicate 30 0 ++ [0x13, 0x88] ++
        List.replicate 29 0 ++ [0x01, 0xe2, 0x40] ++
        List.replicate 28 0 ++ [0x65, 0x53, 0xf1, 0x3c]) := by
  decide

/-- C7: for a builder with a chain id, every token and spender address, every
amount in `[0, 2^256)` and valid parameters, `BuildApproveTx` succeeds with
recipient `token`, value 0 and data made of the selector `0x095ea7b3`, then 12
zero bytes followed by the 20 bytes of `spender`, then the amount as a 32-byte
big-endian word, 68 bytes in all. -/
theorem buildApproveTx_calldata (b : Builder) (cid : Int) (token spender : Address)
    (amount : Nat) (p : BuildParams)
    (hcid : b.ChainID = some cid) (hamt : amount < u256) (hp : p.valid) :
    ∃ tx w,
      b.BuildApproveTx token spender (some (amount : Int)) p = Except.ok tx ∧
      tx.To = token ∧ tx.Value = 0 ∧
      tx.Data = selectorApprove ++ (List.replicate 12 (0 : Byte) ++ spender.bytes) ++ w ∧
      spender.bytes.length = 20 ∧
      w.length = 32 ∧ fromBytesBE w = amount ∧
      tx.Data.length = 68 := by
  obtain ⟨l0, v0⟩ := word_of_nat amount hamt
  obtain ⟨tx, htx, hdata, hto, hval, _⟩ := buildDynamicTx_valid cid token 0
    (selectorApprove ++ (List.replicate 12 (0 : Byte) ++ spender.bytes) ++
      LeftPadBytes (bigBytes amount) 32) p hp
  refine ⟨tx, LeftPadBytes (bigBytes amount) 32, ?_, hto, by simpa using hval, hdata,
    spender.size, l0, v0, ?_⟩
  · simp only [Builder.BuildApproveTx, buildApproveData_nat, hcid]
    rw [if_neg (by simp)]
    exact htx
  · rw [hdata]
    simp [l0, selectorApprove, spender.size]

/-- Witness for C7 (`buildApproveTx_calldata`) on the values of
`TestBuildApproveTxCalldata`: token `0x3333...`, spender `0x4444...`, amount
1000000. -/
theorem buildApproveTx_calldata_witness :
    ∃ tx w,
      testSellBuilder.BuildApproveTx (testAddress 0x33) (testAddress 0x44)
        (some ((1000000 : Nat) : Int)) testApproveParams = Except.ok tx ∧
      tx.To = testAddress 0x33 ∧ tx.Value = 0 ∧
      tx.Data = selectorApprove ++
        (List.replicate 12 (0 : Byte) ++ (testAddress 0x44).bytes) ++ w ∧
      (testAddress 0x44).bytes.length = 20 ∧
      w.length = 32 ∧ fromBytesBE w = 1000000 ∧
      tx.Data.length = 68 :=
  buildApproveTx_calldata testSellBuilder 8453 (testAddress 0x33) (testAddress 0x44) 1000000
    testApproveParams rfl (by decide)
    ⟨by decide, ⟨1000000000, rfl, by decide⟩, ⟨200000000, rfl, by decide⟩⟩

/-- C8, counterexample: for `v = 2^256` the function `encodeUint256` succeeds
with 33 bytes (`0x01` and 32 zero bytes), `common.LeftPadBytes` returning a
slice that is already 32 bytes or longer as it is; the calldata `buildBuyData`
builds from it has 69 bytes, not `4 + 32 * 2`. -/
theorem encodeUint256_overlong :
    encodeUint256 (some (2 ^ 256)) = Except.ok (1 :: List.replicate 32 0) ∧
    (encodeUint256 (some (2 ^ 256))).map List.length = Except.ok 33 ∧
    (buildBuyData (some (2 ^ 256)) 0).map List.length = Except.ok 69 := by
  set_option maxRecDepth 100000 in decide

/-- C8, amended: for every integer `v` with `0 <= v < 2^256` the function
`encodeUint256` succeeds and returns exactly 32 bytes, the big-endian bytes of
`v` behind zero bytes, whose big-endian value is `v`; consequently the
calldata built by `buildBuyData`, `buildSellData` and `buildApproveData` from
arguments in `[0, 2^256)` has length `4 + 32 * (number of arguments)`. -/
theorem encodeUint256_word (v : Int) (h0 : 0 ≤ v) (h1 : v < (u256 : Int)) :
    (∃ w, encodeUint256 (some v) = Except.ok w ∧ w.length = 32 ∧
      w = List.replicate (32 - (bigBytes v.toNat).length) (0 : Byte) ++ bigBytes v.toNat ∧
      (fromBytesBE w : Int) = v) ∧
    (∀ (y : Int) (d : Nat) (s : Address), 0 ≤ y → y < (u256 : Int) → d < u64 →
      (buildBuyData (some v) d).map List.length = Except.ok (4 + 32 * 2) ∧
      (buildSellData (some v) (some y) d).map List.length = Except.ok (4 + 32 * 3) ∧
      (buildApproveData s (some v)).map List.length = Except.ok (4 + 32 * 2)) := by
  obtain ⟨x, rfl⟩ := Int.eq_ofNat_of_zero_le h0
  have hx : x < u256 := by exact_mod_cast h1
  obtain ⟨l0, v0⟩ := word_of_nat x hx
  have hlen := length_bigBytes_le x hx
  constructor
  · refine ⟨LeftPadBytes (bigBytes x) 32, encodeUint256_nat x, l0, ?_, by rw [v0]⟩
    simp only [Int.toNat_ofNat]
    unfold LeftPadBytes
    split_ifs with h32
    · have : 32 - (bigBytes x).length = 0 := by omega
      simp [this]
    · rfl
  · intro y d s hy0 hy1 hd
    obtain ⟨z, rfl⟩ := Int.eq_ofNat_of_zero_le hy0
    have hz : z < u256 := by exact_mod_cast hy1
    have hd2 : d < u256 := by
      have h2 : u64 < u256 := by norm_num [u64, u256]
      omega
    obtain ⟨l1, _⟩ := word_of_nat z hz
    obtain ⟨l2, _⟩ := word_of_nat d hd2
    refine ⟨?_, ?_, ?_⟩
    · rw [buildBuyData_nat]
      simp [Except.map, l0, l2, selectorBuy]
    · rw [buildSellData_nat]
      simp [Except.map, l0, l1, l2, selectorSell]
    · rw [buildApproveData_nat]
      simp [Except.map, l0, selectorApprove, s.size]

/-- Witness for C8 (`encodeUint256_word`) at `v = 1000`. -/
theorem encodeUint256_word_witness :
    (∃ w, encodeUint256 (some 1000) = Except.ok w ∧ w.length = 32 ∧
      w = List.replicate (32 - (bigBytes (1000 : Int).toNat).length) (0 : Byte) ++
        bigBytes (1000 : Int).toNat ∧
      (fromBytesBE w : Int) = 1000) ∧
    (∀ (y : Int) (d : Nat) (s : Address), 0 ≤ y → y < (u256 : Int) → d < u64 →
      (buildBuyData (some 1000) d).map List.length = Except.ok (4 + 32 * 2) ∧
      (buildSellData (some 1000) (some y) d).map List.length = Except.ok (4 + 32 * 3) ∧
      (buildApproveData s (some 1000)).map List.length = Except.ok (4 + 32 * 2)) :=
  encodeUint256_word 1000 (by decide) (by decide)

theorem abiWord_zero (sel w0 rest : List Byte) (hs : sel.length = 4) (h0 : w0.length = 32) :
    abiWord (sel ++ w0 ++ rest) 0 = w0 := by
  unfold abiWord
  rw [List.append_assoc, List.drop_left' (by simpa using hs), List.take_left' h0]

theorem abiWord_one (sel w0 w1 rest : List Byte) (hs : sel.length = 4) (h0 : w0.length = 32)
    (h1 : w1.length = 32) : abiWord (sel ++ w0 ++ w1 ++ rest) 1 = w1 := by
  unfold abiWord
  rw [List.append_assoc, List.drop_left' (by simp [hs, h0]), List.take_left' h1]

theorem abiWord_two (sel w0 w1 w2 rest : List Byte) (hs : sel.length = 4)
    (h0 : w0.length = 32) (h1 : w1.length = 32) (h2 : w2.length = 32) :
    abiWord (sel ++ w0 ++ w1 ++ w2 ++ rest) 2 = w2 := by
  unfold abiWord
  rw [List.append_assoc, List.drop_left' (by simp [hs, h0, h1]), List.take_left' h2]

theorem buy_decode (x d : Nat) (hx : x < u256) (hd : d < u256) :
    decodeUint (abiWord
      (selectorBuy ++ LeftPadBytes (bigBytes x) 32 ++ LeftPadBytes (bigBytes d) 32) 0) = x ∧
    decodeUint (abiWord
      (selectorBuy ++ LeftPadBytes (bigBytes x) 32 ++ LeftPadBytes (bigBytes d) 32) 1) = d := by
  obtain ⟨l0, v0⟩ := word_of_nat x hx
  obtain ⟨l1, v1⟩ := word_of_nat d hd
  constructor
  · rw [abiWord_zero selectorBuy _ _ rfl l0]; exact v0
  · have := abiWord_one selectorBuy _ _ [] rfl l0 l1
    rw [List.append_nil] at this
    rw [this]; exact v1

theorem sell_decode (x y d : Nat) (hx : x < u256) (hy : y < u256) (hd : d < u256) :
    decodeUint (abiWord (selectorSell ++ LeftPadBytes (bigBytes x) 32 ++
      LeftPadBytes (bigBytes y) 32 ++ LeftPadBytes (bigBytes d) 32) 0) = x ∧
    decodeUint (abiWord (selectorSell ++ LeftPadBytes (bigBytes x) 32 ++
      LeftPadBytes (bigBytes y) 32 ++ LeftPadBytes (bigBytes d) 32) 1) = y ∧
    decodeUint (abiWord (selectorSell ++ LeftPadBytes (bigBytes x) 32 ++
      LeftPadBytes (bigBytes y) 32 ++ LeftPadBytes (bigBytes d) 32) 2) = d := by
  obtain ⟨l0, v0⟩ := word_of_nat x hx
  obtain ⟨l1, v1⟩ := word_of_nat y hy
  obtain ⟨l2, v2⟩ := word_of_nat d hd
  refine ⟨?_, ?_, ?_⟩
  · rw [List.append_assoc _ _ (LeftPadBytes (bigBytes d) 32),
      abiWord_zero selectorSell _ _ rfl l0]
    exact v0
  · rw [abiWord_one selectorSell _ _ _ rfl l0 l1]; exact v1
  · have := abiWord_two selectorSell _ _ _ [] rfl l0 l1 l2
    rw [List.append_nil] at this
    rw [this]; exact v2

theorem approve_decode (s : Address) (x : Nat) (hx : x < u256) :
    decodeAddressBytes (abiWord (selectorApprove ++ (List.replicate 12 (0 : Byte) ++ s.bytes) ++
      LeftPadBytes (bigBytes x) 32) 0) = s.bytes ∧
    decodeUint (abiWord (selectorApprove ++ (List.replicate 12 (0 : Byte) ++ s.bytes) ++
      LeftPadBytes (bigBytes x) 32) 1) = x := by
  obtain ⟨l1, v1⟩ := word_of_nat x hx
  have l0 : (List.replicate 12 (0 : Byte) ++ s.bytes).length = 32 := by simp [s.size]
  constructor
  · rw [abiWord_zero selectorApprove _ _ rfl l0]
    unfold decodeAddressBytes
    exact List.drop_left' (by simp)
  · have := abiWord_one selectorApprove _ _ [] rfl l0 l1
    rw [List.append_nil] at this
    rw [this]; exact v1

theorem address_ext (s t : Address) (h : s.bytes = t.bytes) : s = t := by
  cases s
  cases t
  simp only [Address.mk.injEq]
  exact h

/-- C9: for all `x`, `y` in `[0, 2^256)`, every uint64 deadline `d` and every
address `s`, reading the bytes after the 4-byte selector as consecutive
32-byte big-endian words gives back `(x, d)` from `buildBuyData(x, d)`,
`(x, y, d)` from `buildSellData(x, y, d)` and `(s, x)` from
`buildApproveData(s, x)`; hence each encoder is injective on its arguments. -/
theorem calldata_roundtrip (x y d : Nat) (s : Address)
    (hx : x < u256) (hy : y < u256) (hd : d < u64) :
    (∃ data, buildBuyData (some (x : Int)) d = Except.ok data ∧
      decodeUint (abiWord data 0) = x ∧ decodeUint (abiWord data 1) = d) ∧
    (∃ data, buildSellData (some (x : Int)) (some (y : Int)) d = Except.ok data ∧
      decodeUint (abiWord data 0) = x ∧ decodeUint (abiWord data 1) = y ∧
      decodeUint (abiWord data 2) = d) ∧
    (∃ data, buildApproveData s (some (x : Int)) = Except.ok data ∧
      decodeAddressBytes (abiWord data 0) = s.bytes ∧ decodeUint (abiWord data 1) = x) ∧
    (∀ x2 d2 : Nat, x2 < u256 → d2 < u64 →
      buildBuyData (some (x : Int)) d = buildBuyData (some (x2 : Int)) d2 → x = x2 ∧ d = d2) ∧
    (∀ x2 y2 d2 : Nat, x2 < u256 → y2 < u256 → d2 < u64 →
      buildSellData (some (x : Int)) (some (y : Int)) d =
        buildSellData (some (x2 : Int)) (some (y2 : Int)) d2 → x = x2 ∧ y = y2 ∧ d = d2) ∧
    (∀ (s2 : Address) (x2 : Nat), x2 < u256 →
      buildApproveData s (some (x : Int)) = buildApproveData s2 (some (x2 : Int)) →
      s = s2 ∧ x = x2) := by
  have h64 : ∀ n : Nat, n < u64 → n < u256 := by
    intro n hn
    have h2 : u64 < u256 := by norm_num [u64, u256]
    omega
  have hb := buy_decode x d hx (h64 d hd)
  have hs := sell_decode x y d hx hy (h64 d hd)
  have ha := approve_decode s x hx
  refine ⟨⟨_, buildBuyData_nat x d, hb.1, hb.2⟩, ⟨_, buildSellData_nat x y d, hs.1, hs.2.1, hs.2.2⟩,
    ⟨_, buildApproveData_nat s x, ha.1, ha.2⟩, ?_, ?_, ?_⟩
  · intro x2 d2 hx2 hd2 heq
    rw [buildBuyData_nat, buildBuyData_nat] at heq
    have hdata := Except.ok.inj heq
    have hb2 := buy_decode x2 d2 hx2 (h64 d2 hd2)
    rw [← hdata] at hb2
    exact ⟨hb.1.symm.trans hb2.1, hb.2.symm.trans hb2.2⟩
  · intro x2 y2 d2 hx2 hy2 hd2 heq
    rw [buildSellData_nat, buildSellData_nat] at heq
    have hdata := Except.ok.inj heq
    have hs2 := sell_decode x2 y2 d2 hx2 hy2 (h64 d2 hd2)
    rw [← hdata] at hs2
    exact ⟨hs.1.symm.trans hs2.1, hs.2.1.symm.trans hs2.2.1, hs.2.2.symm.trans hs2.2.2⟩
  · intro s2 x2 hx2 heq
    rw [buildApproveData_nat, buildApproveData_nat] at heq
    have hdata := Except.ok.inj heq
    have ha2 := approve_decode s2 x2 hx2
    rw [← hdata] at ha2
    exact ⟨address_ext s s2 (ha.1.symm.trans ha2.1), ha.2.symm.trans ha2.2⟩

/-- Witness for C9 (`calldata_roundtrip`) on the values of the tests: `x = 1000`,
`y = 123456`, deadline 1700000120 and spender `0x4444...`. -/
theorem calldata_roundtrip_witness :
    (∃ data, buildBuyData (some ((1000 : Nat) : Int)) 1700000120 = Except.ok data ∧
      decodeUint (abiWord data 0) = 1000 ∧ decodeUint (abiWord data 1) = 1700000120) ∧
    (∃ data, buildSellData (some ((1000 : Nat) : Int)) (some ((123456 : Nat) : Int))
        1700000120 = Except.ok data ∧
      decodeUint (abiWord data 0) = 1000 ∧ decodeUint (abiWord data 1) = 123456 ∧
      decodeUint (abiWord data 2) = 1700000120) ∧
    (∃ data, buildApproveData (testAddress 0x44) (some ((1000 : Nat) : Int)) = Except.ok data ∧
      decodeAddressBytes (abiWord data 0) = (testAddress 0x44).bytes ∧
      decodeUint (abiWord data 1) = 1000) :=
  ⟨(calldata_roundtrip 1000 123456 1700000120 (testAddress 0x44) (by decide) (by decide)
      (by decide)).1,
    (calldata_roundtrip 1000 123456 1700000120 (testAddress 0x44) (by decide) (by decide)
      (by decide)).2.1,
    (calldata_roundtrip 1000 123456 1700000120 (testAddress 0x44) (by decide) (by decide)
      (by decide)).2.2.1⟩

/-! ## Theorems: unit parsing -/

theorem isDigit_bounds (c : Char) (h : c.isDigit = true) : 48 ≤ c.toNat ∧ c.toNat ≤ 57 := by
  simp only [Char.isDigit, Bool.and_eq_true, decide_eq_true_eq] at h
  obtain ⟨h1, h2⟩ := h
  rw [ge_iff_le, UInt32.le_def] at h1
  rw [UInt32.le_def] at h2
  exact ⟨h1, h2⟩

theorem digit_not_space (c : Char) (h : c.isDigit = true) : isSpace c = false := by
  have := isDigit_bounds c h
  simp only [isSpace, decide_eq_false_iff_not]
  omega

theorem digit_utf8Size (c : Char) (h : c.isDigit = true) : c.utf8Size = 1 := by
  have := isDigit_bounds c h
  unfold Char.utf8Size
  have h1 : c.val ≤ 127 := by
    rw [UInt32.le_def]
    show c.val.val.val ≤ 127
    have : c.val.val.val = c.toNat := rfl
    omega
  simp [h1]

theorem digit_ne_of_toNat (c d : Char) (h : c.isDigit = true)
    (hd : d.toNat < 48 ∨ 57 < d.toNat) : c ≠ d := by
  intro heq
  have := isDigit_bounds c h
  rw [heq] at this
  omega

theorem dropWhile_of_all_false (p : Char → Bool) (l : List Char)
    (h : ∀ c ∈ l, p c = false) : l.dropWhile p = l := by
  cases l with
  | nil => rfl
  | cons c cs => simp [List.dropWhile, h c (List.mem_cons_self _ _)]

theorem trimSpace_of_no_space (s : List Char) (h : ∀ c ∈ s, isSpace c = false) :
    TrimSpace s = s := by
  unfold TrimSpace
  rw [dropWhile_of_all_false isSpace s h,
    dropWhile_of_all_false isSpace s.reverse (fun c hc => h c (List.mem_reverse.mp hc)),
    List.reverse_reverse]

theorem byteLen_digits (s : List Char) (h : allDigits s) : byteLen s = s.length := by
  induction s with
  | nil => rfl
  | cons c cs ih =>
    have hc := digit_utf8Size c (h c (List.mem_cons_self _ _))
    have := ih (fun x hx => h x (List.mem_cons_of_mem _ hx))
    unfold byteLen at this ⊢
    simp only [List.map_cons, List.sum_cons, List.length_cons, hc, this]
    omega

theorem digits_notDot (s : List Char) (h : allDigits s) :
    ∀ c ∈ s, (fun c => decide (c ≠ '.')) c = true := by
  intro c hc
  have : c ≠ '.' := digit_ne_of_toNat c '.' (h c hc) (by decide)
  simpa using this

theorem takeWhile_notDot (front rest : List Char) (h : allDigits front) :
    (front ++ '.' :: rest).takeWhile (fun c => decide (c ≠ '.')) = front := by
  rw [List.takeWhile_append_of_pos (digits_notDot front h)]
  simp [List.takeWhile_cons]

theorem dropWhile_notDot (front rest : List Char) (h : allDigits front) :
    (front ++ '.' :: rest).dropWhile (fun c => decide (c ≠ '.')) = '.' :: rest := by
  rw [List.dropWhile_append_of_pos (digits_notDot front h)]
  simp [List.dropWhile_cons]

theorem takeWhile_notDot_digits (s : List Char) (h : allDigits s) :
    s.takeWhile (fun c => decide (c ≠ '.')) = s :=
  List.takeWhile_eq_self_iff.mpr (digits_notDot s h)

theorem dropWhile_notDot_digits (s : List Char) (h : allDigits s) :
    s.dropWhile (fun c => decide (c ≠ '.')) = [] :=
  List.dropWhile_eq_nil_iff.mpr (digits_notDot s h)

theorem splitDot_digits (s : List Char) (h : allDigits s) : splitDot s = (s, none) := by
  unfold splitDot
  rw [dropWhile_notDot_digits s h, takeWhile_notDot_digits s h]

theorem splitDot_dotted (front rest : List Char) (h : allDigits front) :
    splitDot (front ++ '.' :: rest) = (front, some rest) := by
  unfold splitDot
  rw [dropWhile_notDot front rest h, takeWhile_notDot front rest h]

theorem decimalValue_append (a b : List Char) :
    decimalValue (a ++ b) = decimalValue a * 10 ^ b.length + decimalValue b := by
  unfold decimalValue
  rw [List.reverse_append, List.map_append, Nat.ofDigits_append]
  simp only [List.length_map, List.length_reverse]
  ring

theorem decimalValue_single (c : Char) : decimalValue [c] = c.toNat - 48 := by
  simp [decimalValue, Nat.ofDigits]

theorem decimalValue_cons (c : Char) (cs : List Char) :
    decimalValue (c :: cs) = (c.toNat - 48) * 10 ^ cs.length + decimalValue cs := by
  have := decimalValue_append [c] cs
  rw [decimalValue_single] at this
  simpa using this

theorem decimalValue_zeros (k : Nat) : decimalValue (List.replicate k '0') = 0 := by
  induction k with
  | zero => rfl
  | succ k ih =>
    rw [List.replicate_succ, decimalValue_cons, ih]
    have : '0'.toNat - 48 = 0 := by decide
    rw [this]
    simp

theorem scanDigits_digits (s : List Char) (h : allDigits s) :
    ∀ acc : Nat, scanDigits acc s = some (acc * 10 ^ s.length + decimalValue s) := by
  induction s with
  | nil => intro acc; simp [scanDigits, decimalValue]
  | cons c cs ih =>
    intro acc
    have hc : c.isDigit = true := h c (List.mem_cons_self _ _)
    simp only [scanDigits, hc, if_true]
    rw [ih (fun x hx => h x (List.mem_cons_of_mem _ hx)), decimalValue_cons]
    congr 1
    simp only [List.length_cons, pow_succ]
    ring

theorem decimalValue_dropZeros (s : List Char) :
    decimalValue (s.dropWhile (fun c => decide (c = '0'))) = decimalValue s := by
  induction s with
  | nil => rfl
  | cons c cs ih =>
    by_cases hc : c = '0'
    · subst hc
      simp only [List.dropWhile, decide_True]
      rw [ih, decimalValue_cons]
      have : '0'.toNat - 48 = 0 := by decide
      rw [this]
      simp
    · simp [List.dropWhile, hc]

theorem allDigits_dropZeros (s : List Char) (h : allDigits s) :
    allDigits (s.dropWhile (fun c => decide (c = '0'))) :=
  fun c hc => h c (List.dropWhile_subset _ hc)

theorem setString10_digits (s : List Char) (h : allDigits s) (hne : s ≠ []) :
    SetString10 s = some (Int.ofNat (decimalValue s)) := by
  cases s with
  | nil => exact absurd rfl hne
  | cons c cs =>
    have hc : c.isDigit = true := h c (List.mem_cons_self _ _)
    have h1 : c ≠ '+' := digit_ne_of_toNat c '+' hc (by decide)
    have h2 : c ≠ '-' := digit_ne_of_toNat c '-' hc (by decide)
    simp only [SetString10, h1, h2, if_false]
    rw [scanDigits_digits (c :: cs) h 0]
    simp

/-- The tail of `ParseUnits` on digit strings: padding the fraction to `D`
digits, joining, trimming the leading zeros and reading the number gives
`I * 10^D + F * 10^(D - |F|)`. -/
theorem parse_tail (D : Nat) (I F : List Char) (hI : allDigits I) (hF : allDigits F)
    (hlen : F.length ≤ D) :
    (if ((if I = [] then ['0'] else I) ++ (F ++ List.replicate (D - byteLen F) '0')).dropWhile
          (fun c => decide (c = '0')) = [] then (Except.ok 0 : Except String Int)
      else
        match SetString10
          (((if I = [] then ['0'] else I) ++ (F ++ List.replicate (D - byteLen F) '0')).dropWhile
            (fun c => decide (c = '0'))) with
        | none => Except.error "invalid number format"
        | some v => Except.ok v) =
      Except.ok (Int.ofNat (decimalValue I * 10 ^ D + decimalValue F * 10 ^ (D - F.length))) := by
  have hbl : byteLen F = F.length := byteLen_digits F hF
  rw [hbl]
  have hI2 : allDigits (if I = [] then ['0'] else I) := by
    split_ifs with h
    · intro c hc
      rw [List.mem_singleton] at hc
      subst hc
      decide
    · exact hI
  have hIv : decimalValue (if I = [] then ['0'] else I) = decimalValue I := by
    split_ifs with h
    · subst h; decide
    · rfl
  generalize (if I = [] then ['0'] else I) = J at hI2 hIv ⊢
  have hall : allDigits (J ++ (F ++ List.replicate (D - F.length) '0')) := by
    intro c hc
    rcases List.mem_append.mp hc with h | h
    · exact hI2 c h
    · rcases List.mem_append.mp h with h | h
      · exact hF c h
      · rw [List.eq_of_mem_replicate h]; decide
  have hval : decimalValue (J ++ (F ++ List.replicate (D - F.length) '0')) =
      decimalValue I * 10 ^ D + decimalValue F * 10 ^ (D - F.length) := by
    rw [decimalValue_append, decimalValue_append, decimalValue_zeros, hIv]
    simp only [List.length_append, List.length_replicate, Nat.add_zero]
    have : F.length + (D - F.length) = D := by omega
    rw [this]
  have hdz := decimalValue_dropZeros (J ++ (F ++ List.replicate (D - F.length) '0'))
  by_cases hnil : (J ++ (F ++ List.replicate (D - F.length) '0')).dropWhile
      (fun c => decide (c = '0')) = []
  · rw [if_pos hnil]
    rw [hnil] at hdz
    rw [← hval, ← hdz]
    rfl
  · rw [if_neg hnil, setString10_digits _ (allDigits_dropZeros _ hall) hnil, hdz, hval]

/-- C10, counterexample: the empty string has the form `I` with `I` an empty
string of digits, and `ParseUnits` rejects it. -/
theorem parseUnits_empty_rejected :
    allDigits [] ∧ ParseUnits [] 6 = Except.error "amount is empty" := by
  constructor
  · intro c hc; cases hc
  · decide

/-- C10, amended: for every `D`, every string of decimal digits `I` and every
string `F` of at most `D` decimal digits, `ParseUnits(I.F, D)` succeeds and
returns exactly `I * 10^D + F * 10^(D - |F|)` (`I` and `F` may be empty), and
`ParseUnits(I, D)` succeeds and returns exactly `I * 10^D` when `I` is not the
empty string. -/
theorem parseUnits_exact (D : Nat) (I F : List Char) (hI : allDigits I) (hF : allDigits F)
    (hlen : F.length ≤ D) :
    ParseUnits (I ++ '.' :: F) D =
      Except.ok (Int.ofNat (decimalValue I * 10 ^ D + decimalValue F * 10 ^ (D - F.length))) ∧
    (I ≠ [] → ParseUnits I D = Except.ok (Int.ofNat (decimalValue I * 10 ^ D))) := by
  constructor
  · have hns : ∀ c ∈ I ++ '.' :: F, isSpace c = false := by
      intro c hc
      rcases List.mem_append.mp hc with h | h
      · exact digit_not_space c (hI c h)
      · rcases List.mem_cons.mp h with h | h
        · subst h; decide
        · exact digit_not_space c (hF c h)
    have hne : I ++ '.' :: F ≠ [] := by simp
    have hhead : (I ++ '.' :: F).head? ≠ some '-' := by
      cases I with
      | nil => simp
      | cons c cs =>
        have := digit_ne_of_toNat c '-' (hI c (List.mem_cons_self _ _)) (by decide)
        simpa using this
    have hbl : ¬ D < byteLen F := by rw [byteLen_digits F hF]; omega
    unfold ParseUnits
    simp only [trimSpace_of_no_space _ hns, hne, hhead, if_false, splitDot_dotted I F hI,
      Option.getD, hbl]
    exact parse_tail D I F hI hF hlen
  · intro hne
    have hns : ∀ c ∈ I, isSpace c = false := fun c hc => digit_not_space c (hI c hc)
    have hhead : I.head? ≠ some '-' := by
      cases I with
      | nil => exact absurd rfl hne
      | cons c cs =>
        have := digit_ne_of_toNat c '-' (hI c (List.mem_cons_self _ _)) (by decide)
        simpa using this
    have hbl : ¬ D < byteLen ([] : List Char) := by simp [byteLen]
    have hF0 : allDigits [] := by intro c hc; cases hc
    have ht := parse_tail D I [] hI hF0 (Nat.zero_le _)
    simp only [hne, if_false] at ht
    unfold ParseUnits
    simp only [trimSpace_of_no_space _ hns, hne, hhead, if_false, splitDot_digits I hI,
      Option.getD, hbl]
    rw [ht]
    simp [decimalValue]

/-- Witness for C10 (`parseUnits_exact`) on the first value of `TestParseUnits`:
`ParseUnits("1.23", 6)` is `1 * 10^6 + 23 * 10^4`. -/
theorem parseUnits_exact_witness :
    ParseUnits (['1'] ++ '.' :: ['2', '3']) 6 =
      Except.ok (Int.ofNat (decimalValue ['1'] * 10 ^ 6 +
        decimalValue ['2', '3'] * 10 ^ (6 - ['2', '3'].length))) ∧
    (['1'] ≠ [] → ParseUnits ['1'] 6 = Except.ok (Int.ofNat (decimalValue ['1'] * 10 ^ 6))) :=
  parseUnits_exact 6 ['1'] ['2', '3'] (by decide) (by decide) (by decide)

/-- The test `TestParseUnits` evaluated, with two more inputs: a lone dot parses
to 0 and a fraction with more digits than decimals is rejected. -/
theorem test_ParseUnits :
    ParseUnits "1.23".toList 6 = Except.ok 1230000 ∧
    ParseUnits "0.000001".toList 6 = Except.ok 1 ∧
    ParseUnits ".".toList 6 = Except.ok 0 ∧
    ParseUnits "1.2345".toList 3 = Except.error "too many decimal places: 4 > 3" := by
  decide

/-! ## Theorems: rejected amounts -/

theorem trimSpace_eq_rdropWhile (s : List Char) :
    TrimSpace s = List.rdropWhile isSpace (s.dropWhile isSpace) := rfl

theorem trimSpace_all_space (s : List Char) (h : ∀ c ∈ s, isSpace c = true) :
    TrimSpace s = [] := by
  have : s.dropWhile isSpace = [] := List.dropWhile_eq_nil_iff.mpr h
  simp [TrimSpace, this]

theorem trimSpace_minus (rest : List Char) :
    ∃ more, TrimSpace ('-' :: rest) = '-' :: more := by
  have hd : ('-' :: rest).dropWhile isSpace = '-' :: rest := by
    rw [List.dropWhile_cons_of_neg]
    decide
  rw [trimSpace_eq_rdropWhile, hd]
  have hpre : List.rdropWhile isSpace ('-' :: rest) <+: '-' :: rest :=
    List.rdropWhile_prefix isSpace ('-' :: rest)
  have hne : List.rdropWhile isSpace ('-' :: rest) ≠ [] := by
    intro h
    rw [List.rdropWhile_eq_nil_iff] at h
    have := h '-' (List.mem_cons_self _ _)
    revert this
    decide
  obtain ⟨u, hu⟩ := hpre
  cases ht : List.rdropWhile isSpace ('-' :: rest) with
  | nil => exact absurd ht hne
  | cons a more =>
    rw [ht] at hu
    simp only [List.cons_append, List.cons.injEq] at hu
    exact ⟨more, by rw [hu.1]⟩

theorem notDot_of_not_mem (front : List Char) (h : '.' ∉ front) :
    ∀ c ∈ front, (fun c => decide (c ≠ '.')) c = true := by
  intro c hc
  have : c ≠ '.' := fun e => h (e ▸ hc)
  simpa using this

theorem splitDot_at_first_dot (front rest : List Char) (h : '.' ∉ front) :
    splitDot (front ++ '.' :: rest) = (front, some rest) := by
  unfold splitDot
  rw [List.dropWhile_append_of_pos (notDot_of_not_mem front h),
    List.takeWhile_append_of_pos (notDot_of_not_mem front h)]
  simp [List.takeWhile_cons, List.dropWhile_cons]

theorem length_le_byteLen (s : List Char) : s.length ≤ byteLen s := by
  induction s with
  | nil => simp [byteLen]
  | cons c cs ih =>
    have hc := Char.utf8Size_pos c
    unfold byteLen at ih ⊢
    simp only [List.map_cons, List.sum_cons, List.length_cons]
    omega

/-- C11, counterexample: the part of `"1.5 "` after its first dot is `"5 "`, two
characters, more than `D = 1`; `ParseUnits` trims the white space first and
returns 15. -/
theorem parseUnits_trailing_space_accepted :
    "1.5 ".toList = ['1'] ++ '.' :: ['5', ' '] ∧ '.' ∉ ['1'] ∧ 1 < ['5', ' '].length ∧
    ParseUnits "1.5 ".toList 1 = Except.ok 15 := by
  decide

/-- C11, amended: for every `D` and every amount string, (1) when the string
left by `TrimSpace` has more than `D` characters after its first dot,
`ParseUnits` returns an error and no value, trailing zeros included; (2) for
the empty string and every string of white space only it returns the error
"amount is empty"; (3) for every string that starts with `-` it returns the
error "amount must be non-negative". -/
theorem parseUnits_rejects (D : Nat) (s : List Char) :
    (∀ front rest : List Char, TrimSpace s = front ++ '.' :: rest → '.' ∉ front →
      D < rest.length → ∃ e, ParseUnits s D = Except.error e) ∧
    ((∀ c ∈ s, isSpace c = true) → ParseUnits s D = Except.error "amount is empty") ∧
    (s.head? = some '-' → ParseUnits s D = Except.error "amount must be non-negative") := by
  refine ⟨?_, ?_, ?_⟩
  · intro front rest ht hdot hlen
    have hne : front ++ '.' :: rest ≠ [] := by simp
    have hbl : D < byteLen rest := lt_of_lt_of_le hlen (length_le_byteLen rest)
    unfold ParseUnits
    simp only [ht, hne, if_false]
    by_cases hh : (front ++ '.' :: rest).head? = some '-'
    · exact ⟨_, by rw [if_pos hh]⟩
    · rw [if_neg hh]
      simp only [splitDot_at_first_dot front rest hdot, Option.getD, hbl, if_true]
      exact ⟨_, rfl⟩
  · intro hsp
    unfold ParseUnits
    simp [trimSpace_all_space s hsp]
  · intro hhead
    cases s with
    | nil => simp at hhead
    | cons c rest =>
      simp only [List.head?_cons, Option.some.injEq] at hhead
      subst hhead
      obtain ⟨more, hm⟩ := trimSpace_minus rest
      unfold ParseUnits
      simp [hm]

/-- Witness for C11 (`parseUnits_rejects`): `ParseUnits("1.2345", 3)` and
`ParseUnits("1.2300", 2)` are errors, and so are the blank string `"  "` and
`"-1"`. -/
theorem parseUnits_rejects_witness :
    (∃ e, ParseUnits "1.2345".toList 3 = Except.error e) ∧
    (∃ e, ParseUnits "1.2300".toList 2 = Except.error e) ∧
    ParseUnits "  ".toList 6 = Except.error "amount is empty" ∧
    ParseUnits "-1".toList 6 = Except.error "amount must be non-negative" :=
  ⟨(parseUnits_rejects 3 "1.2345".toList).1 ['1'] ['2', '3', '4', '5'] (by decide) (by decide)
      (by decide),
    (parseUnits_rejects 2 "1.2300".toList).1 ['1'] ['2', '3', '0', '0'] (by decide) (by decide)
      (by decide),
    (parseUnits_rejects 6 "  ".toList).2.1 (by decide),
    (parseUnits_rejects 6 "-1".toList).2.2 (by decide)⟩

/-! ## Theorems: nonce reset -/

theorem next_uncached_any (m : NonceManager) (c : ChainClient) (a : Address)
    (hc : m.client = some c) (hv : m.next a = none) :
    (m.Next a).1 = c.PendingNonceAt a (m.queried a) ∧
      (m.Next a).2.queried a = m.queried a + 1 := by
  unfold NonceManager.Next
  simp only [hc, hv]
  cases c.PendingNonceAt a (m.queried a) <;> simp [setAddr]

theorem runCalls_other (a : Address) (others : List NonceCall) :
    ∀ m : NonceManager,
      (∀ call ∈ others, call ≠ NonceCall.callNext a ∧ call ≠ NonceCall.callReset a) →
      (runCalls m others).2.next a = m.next a ∧
      (runCalls m others).2.queried a = m.queried a ∧
      (runCalls m others).2.client = m.client := by
  induction others with
  | nil => intro m _; exact ⟨rfl, rfl, rfl⟩
  | cons call rest ih =>
    intro m h
    have hrest : ∀ call ∈ rest, call ≠ NonceCall.callNext a ∧ call ≠ NonceCall.callReset a :=
      fun x hx => h x (List.mem_cons_of_mem _ hx)
    have hcall := h call (List.mem_cons_self _ _)
    cases call with
    | callNext b =>
      have hb : b ≠ a := fun e => hcall.1 (by rw [e])
      obtain ⟨h1, h2, h3⟩ := ih (m.Next b).2 hrest
      simp only [runCalls]
      rw [h1, h2, h3, next_other_next m a b hb, next_other_queried m a b hb, next_client]
      exact ⟨rfl, rfl, rfl⟩
    | callReset b =>
      have hb : a ≠ b := fun e => hcall.2 (by rw [e])
      obtain ⟨h1, h2, h3⟩ := ih (m.Reset b) hrest
      simp only [runCalls]
      rw [h1, h2, h3]
      simp [NonceManager.Reset, setAddr, hb]

/-- C15: for every manager with a chain client and every address `a`,
`Reset(a)` drops the cached entry of `a` and leaves the cached next value of
every other address unchanged; the next `Next(a)`, whatever calls for other
addresses come in between, queries the chain once and returns what the chain
reports at that query (the reported pending nonce, or the error of the call),
not a cached value. -/
theorem reset_requeries (c : ChainClient) (m : NonceManager) (a : Address)
    (others : List NonceCall) (hc : m.client = some c)
    (hoth : ∀ call ∈ others, call ≠ NonceCall.callNext a ∧ call ≠ NonceCall.callReset a) :
    (m.Reset a).next a = none ∧
    (∀ b, b ≠ a → (m.Reset a).next b = m.next b) ∧
    ((runCalls (m.Reset a) others).2.Next a).1 = c.PendingNonceAt a (m.queried a) ∧
    ((runCalls (m.Reset a) others).2.Next a).2.queried a = m.queried a + 1 := by
  have hr : (m.Reset a).next a = none := by simp [NonceManager.Reset, setAddr]
  obtain ⟨h1, h2, h3⟩ := runCalls_other a others (m.Reset a) hoth
  have hq : (m.Reset a).queried a = m.queried a := rfl
  have hcl : (m.Reset a).client = some c := hc
  obtain ⟨r1, r2⟩ := next_uncached_any (runCalls (m.Reset a) others).2 c a (by rw [h3]; exact hcl)
    (by rw [h1]; exact hr)
  refine ⟨hr, ?_, ?_, ?_⟩
  · intro b hb
    simp [NonceManager.Reset, setAddr, hb]
  · rw [r1, h2, hq]
  · rw [r2, h2, hq]

/-- Witness for C15 (`reset_requeries`): after three `Next(0x1111...)` calls
and a `Reset(0x1111...)`, a `Next(0x2222...)` call comes in between and the
next `Next(0x1111...)` asks the chain again. -/
theorem reset_requeries_witness :
    ((runCalls (NewNonceManager (some testClient)) testCalls).2.Reset (testAddress 0x11)).next
        (testAddress 0x11) = none ∧
    (∀ b, b ≠ testAddress 0x11 →
      ((runCalls (NewNonceManager (some testClient)) testCalls).2.Reset (testAddress 0x11)).next b
        = (runCalls (NewNonceManager (some testClient)) testCalls).2.next b) ∧
    ((runCalls ((runCalls (NewNonceManager (some testClient)) testCalls).2.Reset
        (testAddress 0x11)) [NonceCall.callNext (testAddress 0x22)]).2.Next (testAddress 0x11)).1
      = testClient.PendingNonceAt (testAddress 0x11)
        ((runCalls (NewNonceManager (some testClient)) testCalls).2.queried (testAddress 0x11)) ∧
    ((runCalls ((runCalls (NewNonceManager (some testClient)) testCalls).2.Reset
        (testAddress 0x11)) [NonceCall.callNext (testAddress 0x22)]).2.Next
        (testAddress 0x11)).2.queried (testAddress 0x11)
      = (runCalls (NewNonceManager (some testClient)) testCalls).2.queried (testAddress 0x11)
        + 1 :=
  reset_requeries testClient (runCalls (NewNonceManager (some testClient)) testCalls).2
    (testAddress 0x11) [NonceCall.callNext (testAddress 0x22)] rfl (by decide)

/-! ## Theorems: tracker, empty blocks, failed saves and replays -/

theorem onFiltered_frame (s : TrackerState) (b : Nat) (n : Int) :
    (onFiltered s b n).last = s.last ∧ (onFiltered s b n).next = s.next ∧
    (onFiltered s b n).persisted = s.persisted ∧ (onFiltered s b n).saveCalls = s.saveCalls ∧
    (∀ x ∈ s.completed, x ∈ (onFiltered s b n).completed) := by
  unfold onFiltered
  simp only
  split_ifs
  · exact ⟨rfl, rfl, rfl, rfl, fun x hx => (mem_markCompleted _ _ _).mpr (Or.inr hx)⟩
  · exact ⟨rfl, rfl, rfl, rfl, fun x hx => hx⟩

theorem onAck_frame (s : TrackerState) (b : Nat) :
    (onAck s b).last = s.last ∧ (onAck s b).next = s.next ∧
    (onAck s b).persisted = s.persisted ∧ (onAck s b).saveCalls = s.saveCalls ∧
    (∀ x ∈ s.completed, x ∈ (onAck s b).completed) := by
  unfold onAck
  simp only
  split_ifs
  · exact ⟨rfl, rfl, rfl, rfl, fun x hx => (mem_markCompleted _ _ _).mpr (Or.inr hx)⟩
  · exact ⟨rfl, rfl, rfl, rfl, fun x hx => hx⟩

theorem length_pos_of_mem_completed (c : List Nat) (x : Nat) (h : x ∈ c) : 1 ≤ c.length := by
  cases c with
  | nil => simp at h
  | cons a rest => simp

/-- A drain that finds `next` completed and whose `cp.Save` succeeds is the
drain of the advanced state, whatever fuel at or above `completed.length` it
starts from. -/
theorem drain_first_success (save : Nat → Bool) (s : TrackerState)
    (hmem : s.next ∈ s.completed) (hsave : save s.saveCalls = true) :
    drain save s.completed.length s = drain save (s.completed.length + 1) (advance s) := by
  rw [← drain_fuel_enough save _ _ (le_refl _), ← drain_fuel_enough save _ _ (Nat.le_succ _)]
  rw [drain, if_pos hmem, if_pos hsave]

theorem drain_first_failure (save : Nat → Bool) (s : TrackerState) (fuel : Nat)
    (hmem : s.next ∈ s.completed) (hsave : save s.saveCalls = false) :
    drain save (fuel + 1) s = { s with saveCalls := s.saveCalls + 1 } := by
  rw [drain, if_pos hmem, if_neg (by simp [hsave])]

/-- C16, counterexample: from checkpoint 0, (1) when `cp.Save` fails,
`BlockFiltered{1, 0}` persists nothing and `last` stays 0; (2) when block 2 was
completed before, `BlockFiltered{1, 0}` persists 1 and 2 and leaves `last = 2`,
`next = 3`, not `last = 1`, `next = 2`. -/
theorem empty_block_not_last :
    (runTracker (fun _ => false) 0 [TrackerInput.filtered 1 0]).persisted = [] ∧
    (runTracker (fun _ => false) 0 [TrackerInput.filtered 1 0]).last = 0 ∧
    (runTracker (fun _ => true) 0 [TrackerInput.filtered 2 0]).last + 1 = 1 ∧
    (runTracker (fun _ => true) 0
      [TrackerInput.filtered 2 0, TrackerInput.filtered 1 0]).persisted = [1, 2] ∧
    (runTracker (fun _ => true) 0
      [TrackerInput.filtered 2 0, TrackerInput.filtered 1 0]).last = 2 ∧
    (runTracker (fun _ => true) 0
      [TrackerInput.filtered 2 0, TrackerInput.filtered 1 0]).next = 3 := by
  decide

/-- C16, amended: in every tracker state with `next = last + 1`, when the
tracker receives `BlockFiltered{B, 0}` for `B = last + 1`, no ack of `B` has
been counted and `cp.Save(B)` succeeds, it persists checkpoint `B` on that same
input, with no acks, and keeps no block state entry for `B`; when `B + 1` is
not marked completed, it persists nothing else and ends with `last = B` and
`next = B + 1`. -/
theorem empty_block_persisted (save : Nat → Bool) (s : TrackerState) (B : Nat)
    (hB : B = s.last + 1) (hnext : s.next = B)
    (hdone : ((s.states B).getD ⟨0, 0⟩).done = 0) (hsave : save s.saveCalls = true) :
    (∃ rest, (trackerStep save s (TrackerInput.filtered B 0)).persisted =
      s.persisted ++ B :: rest) ∧
    (trackerStep save s (TrackerInput.filtered B 0)).states B = none ∧
    (B + 1 < u64 → B + 1 ∉ s.completed →
      (trackerStep save s (TrackerInput.filtered B 0)).persisted = s.persisted ++ [B] ∧
      (trackerStep save s (TrackerInput.filtered B 0)).last = B ∧
      (trackerStep save s (TrackerInput.filtered B 0)).next = B + 1) := by
  have hon : onFiltered s B 0 =
      { s with completed := markCompleted s.completed B, states := deleteState s.states B } := by
    unfold onFiltered
    simp only [hdone]
    simp
  have hmem : (onFiltered s B 0).next ∈ (onFiltered s B 0).completed := by
    rw [hon]
    simp only [hnext]
    exact (mem_markCompleted _ _ _).mpr (Or.inl rfl)
  have hsv : save (onFiltered s B 0).saveCalls = true := by rw [hon]; exact hsave
  have hstep : trackerStep save s (TrackerInput.filtered B 0) =
      drain save ((onFiltered s B 0).completed.length + 1) (advance (onFiltered s B 0)) := by
    simp only [trackerStep]
    rw [if_neg (by omega)]
    exact drain_first_success save _ hmem hsv
  have hadv : (advance (onFiltered s B 0)).persisted = s.persisted ++ [B] := by
    rw [hon]; simp [advance, hnext]
  refine ⟨?_, ?_, ?_⟩
  · obtain ⟨rest, hr⟩ := drain_persisted_extends save ((onFiltered s B 0).completed.length + 1)
      (advance (onFiltered s B 0))
    exact ⟨rest, by rw [hstep, hr, hadv]; simp⟩
  · rw [hstep, drain_states, hon]
    simp [advance, deleteState]
  · intro hb1 hnot
    have hnext2 : (advance (onFiltered s B 0)).next = B + 1 := by
      rw [hon]
      simp only [advance, hnext, u64] at hb1 ⊢
      omega
    have hnm : (advance (onFiltered s B 0)).next ∉ (advance (onFiltered s B 0)).completed := by
      rw [hnext2, hon]
      simp only [advance, hnext]
      rw [mem_deleteCompleted, mem_markCompleted]
      intro h
      rcases h.1 with h1 | h1
      · omega
      · exact hnot h1
    rw [hstep, drain, if_neg hnm]
    exact ⟨hadv, by rw [hon]; simp [advance, hnext], hnext2⟩

/-- Witness for C16 (`empty_block_persisted`): from checkpoint 0 the input
`BlockFiltered{1, 0}` persists 1 and leaves `last = 1`, `next = 2`. -/
theorem empty_block_persisted_witness :
    (trackerStep (fun _ => true) (TrackerState.init 0) (TrackerInput.filtered 1 0)).persisted =
      (TrackerState.init 0).persisted ++ [1] ∧
    (trackerStep (fun _ => true) (TrackerState.init 0) (TrackerInput.filtered 1 0)).last = 1 ∧
    (trackerStep (fun _ => true) (TrackerState.init 0) (TrackerInput.filtered 1 0)).next = 1 + 1 :=
  (empty_block_persisted (fun _ => true) (TrackerState.init 0) 1 (by decide) (by decide)
    (by decide) (by decide)).2.2 (by decide) (by decide)

/-- C18: an input `BlockFiltered{b, n}` or `BlockAck{b}` with `b <= last` leaves
the whole tracker state unchanged (`last`, `next`, the block states, the
completed set, the log of persisted values and the count of `cp.Save` calls),
and so does every trace of such inputs: nothing is persisted and the
checkpoint is neither lowered nor rewritten. -/
theorem replay_tolerance (save : Nat → Bool) (s : TrackerState) (trace : List TrackerInput)
    (h : ∀ e ∈ trace, e.block ≤ s.last) :
    trace.foldl (trackerStep save) s = s := by
  induction trace with
  | nil => rfl
  | cons e rest ih =>
    have he := h e (List.mem_cons_self _ _)
    have hstep : trackerStep save s e = s := by
      cases e with
      | filtered b n =>
        have he2 : b ≤ s.last := he
        simp only [trackerStep]; rw [if_pos he2]
      | ack b =>
        have he2 : b ≤ s.last := he
        simp only [trackerStep]; rw [if_pos he2]
    rw [List.foldl_cons, hstep]
    exact ih (fun x hx => h x (List.mem_cons_of_mem _ hx))

/-- Witness for C18 (`replay_tolerance`): after a restart from checkpoint 100,
the inputs of the replayed blocks 96 to 100 leave the start state as it is. -/
theorem replay_tolerance_witness :
    [TrackerInput.filtered 96 1, TrackerInput.ack 96, TrackerInput.filtered 97 0,
      TrackerInput.filtered 98 2, TrackerInput.ack 98, TrackerInput.ack 98,
      TrackerInput.filtered 99 0, TrackerInput.ack 100, TrackerInput.filtered 100 1].foldl
        (trackerStep (fun _ => true)) (TrackerState.init 100) = TrackerState.init 100 :=
  replay_tolerance (fun _ => true) (TrackerState.init 100) _ (by decide)

theorem range_split (L k0 : Nat) (x : Nat) (rest : List Nat) (k : Nat)
    (hx : x = L + k0 + 1)
    (h : List.range' (L + 1) k = List.range' (L + 1) k0 ++ x :: rest) :
    x :: rest = List.range' x (rest.length + 1) := by
  have hlen : k = k0 + (rest.length + 1) := by
    have := congrArg List.length h
    simpa using this
  subst hlen
  have hsplit : List.range' (L + 1) (k0 + (rest.length + 1)) =
      List.range' (L + 1) k0 ++ List.range' (L + 1 + k0) (rest.length + 1) := by
    rw [List.range'_append_1]
    congr 1
    omega
  rw [hsplit] at h
  have := List.append_cancel_left h
  rw [← this, hx]
  congr 1
  omega

/-- The retry of a pending save on the next input above `last`: in a state of a
run from checkpoint `L` where `next` is marked completed, an input for a block
above `last` calls `cp.Save(next)` first; on success `next` and the completed
blocks that follow it are persisted in order. -/
theorem pending_save_retried (save : Nat → Bool) (L : Nat) (s : TrackerState) (e : TrackerInput)
    (hI : TrackerInv L s) (hpend : s.next ∈ s.completed) (he : s.last < e.block) :
    (save s.saveCalls = true →
      ∃ k, (trackerStep save s e).persisted = s.persisted ++ List.range' s.next (k + 1)) ∧
    (save s.saveCalls = false →
      (trackerStep save s e).persisted = s.persisted ∧
      (trackerStep save s e).last = s.last ∧ (trackerStep save s e).next = s.next ∧
      (trackerStep save s e).saveCalls = s.saveCalls + 1 ∧
      s.next ∈ (trackerStep save s e).completed) := by
  have key : ∀ s1 : TrackerState, TrackerInv L s1 → s1.last = s.last → s1.next = s.next →
      s1.persisted = s.persisted → s1.saveCalls = s.saveCalls →
      (∀ x ∈ s.completed, x ∈ s1.completed) →
      (save s.saveCalls = true →
        ∃ k, (drain save s1.completed.length s1).persisted =
          s.persisted ++ List.range' s.next (k + 1)) ∧
      (save s.saveCalls = false →
        (drain save s1.completed.length s1).persisted = s.persisted ∧
        (drain save s1.completed.length s1).last = s.last ∧
        (drain save s1.completed.length s1).next = s.next ∧
        (drain save s1.completed.length s1).saveCalls = s.saveCalls + 1 ∧
        s.next ∈ (drain save s1.completed.length s1).completed) := by
    intro s1 hI1 hl hn hp hsc hsub
    have hmem : s1.next ∈ s1.completed := by rw [hn]; exact hsub _ hpend
    constructor
    · intro hsave
      have hsv : save s1.saveCalls = true := by rw [hsc]; exact hsave
      rw [drain_first_success save s1 hmem hsv]
      have hIr := drain_inv save L (s1.completed.length + 1) _ (advance_inv L s1 hI1 hmem)
      obtain ⟨rest, hr⟩ := drain_persisted_extends save (s1.completed.length + 1) (advance s1)
      have hadv : (advance s1).persisted = s.persisted ++ [s.next] := by
        simp [advance, hp, hn]
      obtain ⟨⟨k, hk, _⟩, _, _⟩ := hIr
      obtain ⟨⟨k0, hk0, hl0⟩, hc0, hn0⟩ := hI
      have hlt : s.last < s.next := hc0 _ hpend
      have hnx : s.next = L + k0 + 1 := by
        simp only [u64] at hn0
        omega
      rw [hr, hadv, List.append_assoc, List.singleton_append] at hk ⊢
      rw [hk0] at hk
      have := range_split L k0 s.next rest k hnx hk.symm
      exact ⟨rest.length, by rw [this]⟩
    · intro hsave
      have hsv : save s1.saveCalls = false := by rw [hsc]; exact hsave
      obtain ⟨n, hn1⟩ : ∃ n, s1.completed.length = n + 1 := by
        have := length_pos_of_mem_completed _ _ hmem
        exact ⟨s1.completed.length - 1, by omega⟩
      rw [hn1, drain_first_failure save s1 n hmem hsv]
      exact ⟨hp, hl, hn, by simp [hsc], hsub _ hpend⟩
  cases e with
  | filtered b n =>
    have hb : ¬ b ≤ s.last := by
      have : s.last < b := he
      omega
    obtain ⟨f1, f2, f3, f4, f5⟩ := onFiltered_frame s b n
    simp only [trackerStep]
    rw [if_neg hb]
    exact key _ (onFiltered_inv L s b n (by omega) hI) f1 f2 f3 f4 f5
  | ack b =>
    have hb : ¬ b ≤ s.last := by
      have : s.last < b := he
      omega
    obtain ⟨f1, f2, f3, f4, f5⟩ := onAck_frame s b
    simp only [trackerStep]
    rw [if_neg hb]
    exact key _ (onAck_inv L s b (by omega) hI) f1 f2 f3 f4 f5

/-- C17, counterexample: from checkpoint 0 with a `cp.Save` that fails once,
`BlockFiltered{1, 0}` leaves block 1 completed and not persisted; the following
input `BlockAck{0}` is for a block `<= last`, takes the `continue` and does not
attempt the save again (one call so far, nothing persisted) although that call
would succeed; the save is retried only on the later input for block 3. -/
theorem failed_save_not_retried_on_replay :
    (runTracker saveFailsOnce 0 [TrackerInput.filtered 1 0]).completed = [1] ∧
    (runTracker saveFailsOnce 0 [TrackerInput.filtered 1 0]).saveCalls = 1 ∧
    saveFailsOnce 1 = true ∧
    (runTracker saveFailsOnce 0 [TrackerInput.filtered 1 0, TrackerInput.ack 0]).saveCalls = 1 ∧
    (runTracker saveFailsOnce 0 [TrackerInput.filtered 1 0, TrackerInput.ack 0]).persisted = [] ∧
    (runTracker saveFailsOnce 0
      [TrackerInput.filtered 1 0, TrackerInput.ack 0, TrackerInput.filtered 3 1]).persisted
      = [1] := by
  decide

/-- C17, amended: when `cp.Save(next)` fails in the drain loop, the loop stops
for that input: `last`, `next`, the completed set and the persisted log are
unchanged, so `next` stays completed and nothing beyond it is persisted. In a
state of a run where `next` is completed, the following input retries
`cp.Save(next)` when it is for a block above `last`: on success `next` and the
completed blocks after it are persisted in order, on failure the state stays
as it was but for the call count. A following input for a block `<= last` is
skipped and attempts no save. -/
theorem failed_save_retry (save : Nat → Bool) (L : Nat) (s : TrackerState) (e : TrackerInput)
    (hI : TrackerInv L s) (hpend : s.next ∈ s.completed) :
    (save s.saveCalls = false → ∀ fuel,
      drain save (fuel + 1) s = { s with saveCalls := s.saveCalls + 1 }) ∧
    (s.last < e.block → save s.saveCalls = true →
      ∃ k, (trackerStep save s e).persisted = s.persisted ++ List.range' s.next (k + 1)) ∧
    (s.last < e.block → save s.saveCalls = false →
      (trackerStep save s e).persisted = s.persisted ∧
      (trackerStep save s e).last = s.last ∧ (trackerStep save s e).next = s.next ∧
      (trackerStep save s e).saveCalls = s.saveCalls + 1 ∧
      s.next ∈ (trackerStep save s e).completed) ∧
    (e.block ≤ s.last → trackerStep save s e = s) := by
  refine ⟨?_, ?_, ?_, ?_⟩
  · intro hsave fuel
    exact drain_first_failure save s fuel hpend hsave
  · intro he hsave
    exact (pending_save_retried save L s e hI hpend he).1 hsave
  · intro he hsave
    exact (pending_save_retried save L s e hI hpend he).2 hsave
  · intro he
    cases e with
    | filtered b n =>
      have he2 : b ≤ s.last := he
      simp only [trackerStep]; rw [if_pos he2]
    | ack b =>
      have he2 : b ≤ s.last := he
      simp only [trackerStep]; rw [if_pos he2]

/-- Witness for C17 (`failed_save_retry`): from checkpoint 0 the save of block
1 fails on `BlockFiltered{1, 0}`; the next input above `last`,
`BlockFiltered{2, 0}`, retries it and persists 1 and what follows in order. -/
theorem failed_save_retry_witness :
    ∃ k, (trackerStep saveFailsOnce (runTracker saveFailsOnce 0 [TrackerInput.filtered 1 0])
        (TrackerInput.filtered 2 0)).persisted =
      (runTracker saveFailsOnce 0 [TrackerInput.filtered 1 0]).persisted ++
        List.range' (runTracker saveFailsOnce 0 [TrackerInput.filtered 1 0]).next (k + 1) :=
  (failed_save_retry saveFailsOnce 0 (runTracker saveFailsOnce 0 [TrackerInput.filtered 1 0])
    (TrackerInput.filtered 2 0) (runTracker_inv saveFailsOnce 0 [TrackerInput.filtered 1 0])
    (by decide)).2.1 (by decide) (by decide)

/-! ## Theorems: fee oracle -/

theorem mulFloat_floor (x : Int) (f : ℚ) : mulFloat (some x) f = ⌊(x : ℚ) * f⌋ := by
  unfold mulFloat
  simp only
  split_ifs with h1
  · subst h1
    simp
  · exact Rat.floor_def.symm

theorem fees_stored (o : FeeOracle) (ans : FeeAnswers) (now : Time) (b t : Int)
    (hb : o.baseFee = some b) (ht : o.tipCap = some t) :
    o.Fees ans now =
      (Except.ok { MaxFeePerGas := some (⌊(b : ℚ) * o.cfg.MaxFeeMultiplier⌋ + t),
                   MaxPriorityFeePerGas := some t }, o) := by
  unfold FeeOracle.Fees FeeOracle.snapshot
  simp only [hb, ht, mulFloat_floor]

theorem refresh_ok (o : FeeOracle) (ans : FeeAnswers) (now : Time) (b t m : Int)
    (hm : o.cfg.MinPriorityFeeWei = some m) (hb : fetchBaseFee ans = Except.ok (some b))
    (ht : ans.SuggestGasTipCap = Except.ok t) :
    o.Refresh ans now =
      (none, { o with baseFee := some b, tipCap := some (max t m), lastSync := some now }) := by
  unfold FeeOracle.Refresh
  simp only [hb, ht, hm]
  by_cases h : t < m
  · simp [h, max_eq_right (le_of_lt h)]
  · simp [h, max_eq_left (not_lt.mp h)]

/-- C12: for an oracle with multiplier `k` and configured minimum `m`, after a
`Refresh` in which the chain reports the base fee `b` (in the header, or as
the gas price on a chain without base fee) and the tip `t`, the refresh
succeeds and `Fees()` returns `MaxPriorityFeePerGas = max(t, m)` and
`MaxFeePerGas = floor(b * k) + max(t, m)`, without asking the chain again. -/
theorem refresh_then_fees (o : FeeOracle) (ans ans2 : FeeAnswers) (now now2 : Time)
    (b t m : Int) (k : ℚ)
    (hk : o.cfg.MaxFeeMultiplier = k) (hm : o.cfg.MinPriorityFeeWei = some m)
    (hb : fetchBaseFee ans = Except.ok (some b)) (ht : ans.SuggestGasTipCap = Except.ok t) :
    (o.Refresh ans now).1 = none ∧
    ((o.Refresh ans now).2.Fees ans2 now2).1 =
      Except.ok { MaxFeePerGas := some (⌊(b : ℚ) * k⌋ + max t m),
                  MaxPriorityFeePerGas := some (max t m) } ∧
    ((o.Refresh ans now).2.Fees ans2 now2).2 = (o.Refresh ans now).2 := by
  rw [refresh_ok o ans now b t m hm hb ht]
  refine ⟨rfl, ?_, ?_⟩
  · rw [fees_stored _ ans2 now2 b (max t m) rfl rfl]
    simp only [hk]
  · rw [fees_stored _ ans2 now2 b (max t m) rfl rfl]

/-- Witness for C12 (`refresh_then_fees`): a new oracle with multiplier 2 and
minimum tip 10, base fee 1000 and suggested tip 7. -/
theorem refresh_then_fees_witness :
    ((NewFeeOracle ⟨0, 2, some 10⟩).Refresh testFeeAnswers ⟨0⟩).1 = none ∧
    (((NewFeeOracle ⟨0, 2, some 10⟩).Refresh testFeeAnswers ⟨0⟩).2.Fees testFeeAnswers ⟨1⟩).1 =
      Except.ok { MaxFeePerGas := some (⌊((1000 : Int) : ℚ) * 2⌋ + max 7 10),
                  MaxPriorityFeePerGas := some (max 7 10) } ∧
    (((NewFeeOracle ⟨0, 2, some 10⟩).Refresh testFeeAnswers ⟨0⟩).2.Fees testFeeAnswers ⟨1⟩).2 =
      ((NewFeeOracle ⟨0, 2, some 10⟩).Refresh testFeeAnswers ⟨0⟩).2 :=
  refresh_then_fees (NewFeeOracle ⟨0, 2, some 10⟩) testFeeAnswers testFeeAnswers ⟨0⟩ ⟨1⟩
    1000 7 10 2 (by simp [NewFeeOracle]) rfl rfl rfl

/-- C13, counterexample: with stored base fee 1, stored tip 0 and multiplier
1.5, `Fees()` returns `MaxFeePerGas = 1`, the product 1.5 rounded down, while
`ceil(1 * 1.5) + 0` is 2. -/
theorem fees_not_rounded_up :
    (testOracle.Fees testFeeAnswers ⟨0⟩).1 =
      Except.ok { MaxFeePerGas := some 1, MaxPriorityFeePerGas := some 0 } ∧
    ⌈((1 : Int) : ℚ) * (3 / 2)⌉ + 0 = 2 := by
  constructor
  · rw [fees_stored testOracle testFeeAnswers ⟨0⟩ 1 0 rfl rfl]
    have hf : ⌊((1 : Int) : ℚ) * testOracle.cfg.MaxFeeMultiplier⌋ = 1 := by
      rw [Int.floor_eq_iff]
      simp only [testOracle]
      norm_num
    simp only [hf]
    rfl
  · have hc : ⌈((1 : Int) : ℚ) * (3 / 2)⌉ = 2 := by
      rw [Int.ceil_eq_iff]
      norm_num
    rw [hc]
    rfl

/-- C13, amended: for every stored base fee `b`, stored tip `t` and multiplier
`k`, `Fees()` returns `MaxFeePerGas = floor(b * k) + t` and
`MaxPriorityFeePerGas = t`, the product being computed in exact rational
arithmetic and rounded down to an integer; it leaves the oracle unchanged.
The result is `ceil(b * k) + t` exactly when `b * k` is an integer. -/
theorem fees_rounds_down (o : FeeOracle) (ans : FeeAnswers) (now : Time) (b t : Int) (k : ℚ)
    (hb : o.baseFee = some b) (ht : o.tipCap = some t) (hk : o.cfg.MaxFeeMultiplier = k) :
    o.Fees ans now =
      (Except.ok { MaxFeePerGas := some (⌊(b : ℚ) * k⌋ + t),
                   MaxPriorityFeePerGas := some t }, o) ∧
    (⌊(b : ℚ) * k⌋ + t = ⌈(b : ℚ) * k⌉ + t ↔ ∃ z : Int, (b : ℚ) * k = (z : ℚ)) := by
  constructor
  · rw [fees_stored o ans now b t hb ht, hk]
  · constructor
    · intro h
      have h2 : ⌊(b : ℚ) * k⌋ = ⌈(b : ℚ) * k⌉ := by omega
      refine ⟨⌊(b : ℚ) * k⌋, ?_⟩
      apply le_antisymm
      · have := Int.le_ceil ((b : ℚ) * k)
        rw [← h2] at this
        exact this
      · exact Int.floor_le _
    · rintro ⟨z, hz⟩
      rw [hz, Int.floor_intCast, Int.ceil_intCast]

/-- Witness for C13 (`fees_rounds_down`): the oracle holding base fee 1, tip 0
and multiplier 1.5. -/
theorem fees_rounds_down_witness :
    testOracle.Fees testFeeAnswers ⟨0⟩ =
      (Except.ok { MaxFeePerGas := some (⌊((1 : Int) : ℚ) * (3 / 2)⌋ + 0),
                   MaxPriorityFeePerGas := some 0 }, testOracle) ∧
    (⌊((1 : Int) : ℚ) * (3 / 2)⌋ + 0 = ⌈((1 : Int) : ℚ) * (3 / 2)⌉ + 0 ↔
      ∃ z : Int, ((1 : Int) : ℚ) * (3 / 2) = (z : ℚ)) :=
  fees_rounds_down testOracle testFeeAnswers ⟨0⟩ 1 0 (3 / 2) rfl rfl rfl

/-! ## Theorems: trade service -/

theorem resetNonce_drops (a : AutoBuilder) (sender : Address) (m : NonceManager)
    (h : a.nonce = some m) :
    (a.ResetNonce sender).nonce = some (m.Reset sender) ∧
    (m.Reset sender).next sender = none := by
  constructor
  · simp [AutoBuilder.ResetNonce, h]
  · simp [NonceManager.Reset, setAddr]

/-- C14: in `signAndSend`, once signing is reached (transaction and auto
builder present, no simulation error, key store present): if
`SignTransaction` returns an error, or it succeeds and `SendTransaction`
returns an error, then `ResetNonce(sender)` is the last call made, the error is
returned with no `TxResult`, and the nonce manager of the auto builder has no
cached entry for `sender` any more; when both succeed, a `TxResult` with the
hash of the signed transaction is returned, no reset is among the calls and
the service is unchanged. -/
theorem signAndSend_resets (s : Service) (a : AutoBuilder) (env : SendEnv) (sender : Address)
    (t : Transaction) (simulate : Bool)
    (ha : s.auto = some a) (hkeys : s.keys = true)
    (hsim : simulate = true → s.client = true ∧ env.CallContract = none) :
    (∀ e, env.SignTransaction = Except.error e →
      (s.signAndSend env sender (some t) simulate).returned = some (none, some e) ∧
      (s.signAndSend env sender (some t) simulate).calls.getLast? =
        some (TradeCall.resetNonce sender) ∧
      (s.signAndSend env sender (some t) simulate).service.auto = some (a.ResetNonce sender) ∧
      (∀ m, a.nonce = some m → (a.ResetNonce sender).nonce = some (m.Reset sender) ∧
        (m.Reset sender).next sender = none)) ∧
    (∀ signed e, env.SignTransaction = Except.ok signed → s.client = true →
      env.SendTransaction = some e →
      (s.signAndSend env sender (some t) simulate).returned = some (none, some e) ∧
      (s.signAndSend env sender (some t) simulate).calls.getLast? =
        some (TradeCall.resetNonce sender) ∧
      (s.signAndSend env sender (some t) simulate).service.auto = some (a.ResetNonce sender) ∧
      (∀ m, a.nonce = some m → (a.ResetNonce sender).nonce = some (m.Reset sender) ∧
        (m.Reset sender).next sender = none)) ∧
    (∀ signed, env.SignTransaction = Except.ok signed → s.client = true →
      env.SendTransaction = none →
      (s.signAndSend env sender (some t) simulate).returned =
        some (some ⟨some signed, env.hashHex signed, ""⟩, none) ∧
      TradeCall.resetNonce sender ∉ (s.signAndSend env sender (some t) simulate).calls ∧
      (s.signAndSend env sender (some t) simulate).service = s) := by
  refine ⟨?_, ?_, ?_⟩
  · intro e hsign
    have hval : s.signAndSend env sender (some t) simulate =
        ⟨some (none, some e), { s with auto := some (a.ResetNonce sender) },
          (if simulate then [TradeCall.simulate] else []) ++
            [TradeCall.sign sender a.ChainID, TradeCall.resetNonce sender]⟩ := by
      cases simulate with
      | false => simp [Service.signAndSend, ha, hkeys, hsign]
      | true =>
        obtain ⟨hclient, hcc⟩ := hsim rfl
        simp [Service.signAndSend, ha, hkeys, hclient, simulateTx, hcc, hsign]
    rw [hval]
    refine ⟨rfl, ?_, rfl, fun m hm => resetNonce_drops a sender m hm⟩
    cases simulate <;> simp
  · intro signed e hsign hclient hsend
    have hval : s.signAndSend env sender (some t) simulate =
        ⟨some (none, some e), { s with auto := some (a.ResetNonce sender) },
          (if simulate then [TradeCall.simulate] else []) ++
            [TradeCall.sign sender a.ChainID, TradeCall.send signed,
              TradeCall.resetNonce sender]⟩ := by
      cases simulate with
      | false => simp [Service.signAndSend, ha, hkeys, hclient, hsign, hsend]
      | true =>
        have hcc := (hsim rfl).2
        simp [Service.signAndSend, ha, hkeys, hclient, simulateTx, hcc, hsign, hsend]
    rw [hval]
    refine ⟨rfl, ?_, rfl, fun m hm => resetNonce_drops a sender m hm⟩
    cases simulate <;> simp
  · intro signed hsign hclient hsend
    have hval : s.signAndSend env sender (some t) simulate =
        ⟨some (some ⟨some signed, env.hashHex signed, ""⟩, none), s,
          (if simulate then [TradeCall.simulate] else []) ++
            [TradeCall.sign sender a.ChainID, TradeCall.send signed]⟩ := by
      cases simulate with
      | false => simp [Service.signAndSend, ha, hkeys, hclient, hsign, hsend]
      | true =>
        have hcc := (hsim rfl).2
        simp [Service.signAndSend, ha, hkeys, hclient, simulateTx, hcc, hsign, hsend]
    rw [hval]
    refine ⟨rfl, ?_, rfl⟩
    cases simulate <;> simp

/-- Witness for C14 (`signAndSend_resets`): signing fails for sender
`0x1111...`, whose cached nonce entry is dropped. -/
theorem signAndSend_resets_witness :
    (testService.signAndSend testEnvSignFails (testAddress 0x11) (some testTx) true).returned =
      some (none, some "locked") ∧
    (testService.signAndSend testEnvSignFails (testAddress 0x11) (some testTx) true).calls.getLast?
      = some (TradeCall.resetNonce (testAddress 0x11)) :=
  ⟨((signAndSend_resets testService _ testEnvSignFails (testAddress 0x11) testTx true rfl rfl
      (fun _ => ⟨rfl, rfl⟩)).1 "locked" rfl).1,
    ((signAndSend_resets testService _ testEnvSignFails (testAddress 0x11) testTx true rfl rfl
      (fun _ => ⟨rfl, rfl⟩)).1 "locked" rfl).2.1⟩

/-! ## Theorems: filter -/

theorem matchesFactory_not_end (EqualFold : String → String → Bool) (factoryHex : String)
    (item : TxItem) (h : item.End = true) : matchesFactory EqualFold factoryHex item = false := by
  simp [matchesFactory, h]

/-- The map `counts` after a step, by the kind of the item. -/
theorem filterStep_spec (EqualFold : String → String → Bool) (factoryHex : String)
    (counts : Nat → Option Int) (item : TxItem) :
    filterStep EqualFold factoryHex counts item =
      if item.End then
        (fun k => if k = item.BlockNumber then none else counts k,
          [FilterOut.published ⟨item.BlockNumber, (counts item.BlockNumber).getD 0⟩])
      else if matchesFactory EqualFold factoryHex item then
        (fun k =>
            if k = item.BlockNumber then
              some (wrapInt ((counts item.BlockNumber).getD 0 + 1))
            else counts k,
          [FilterOut.forwarded (toFiltered item)])
      else (counts, []) := by
  unfold filterStep
  by_cases hEnd : item.End = true
  · simp [hEnd]
  · simp only [hEnd, if_false, Bool.false_eq_true]
    cases hTx : item.Tx with
    | none => simp [matchesFactory, hTx]
    | some tx =>
      by_cases hTo : tx.To = ""
      · simp [matchesFactory, hTx, hTo]
      · by_cases hEq : EqualFold tx.To factoryHex = true
        · simp [matchesFactory, hTx, hTo, hEq, hEnd, toFiltered]
        · simp [matchesFactory, hTx, hTo, hEq, hEnd]

theorem countSinceEnd_snoc (EqualFold : String → String → Bool) (factoryHex : String) (B : Nat)
    (pre : List TxItem) (item : TxItem) :
    countSinceEnd EqualFold factoryHex B (pre ++ [item]) =
      if item.End = true ∧ item.BlockNumber = B then 0
      else if matchesFactory EqualFold factoryHex item = true ∧ item.BlockNumber = B then
        countSinceEnd EqualFold factoryHex B pre + 1
      else countSinceEnd EqualFold factoryHex B pre := by
  unfold countSinceEnd
  rw [List.reverse_append, List.reverse_singleton, List.singleton_append, List.takeWhile_cons]
  by_cases h1 : item.End = true ∧ item.BlockNumber = B
  · simp [h1.1, h1.2]
  · rw [if_neg h1]
    have hp : (!(item.End && decide (item.BlockNumber = B))) = true := by
      simp only [Bool.not_eq_true', Bool.and_eq_false_imp, decide_eq_false_iff_not]
      intro hE hB
      exact h1 ⟨hE, hB⟩
    rw [if_pos hp, List.filter_cons]
    by_cases h2 : matchesFactory EqualFold factoryHex item = true ∧ item.BlockNumber = B
    · simp [h2.1, h2.2]
    · rw [if_neg h2]
      have hq : ¬ ((matchesFactory EqualFold factoryHex item &&
          decide (item.BlockNumber = B)) = true) := by
        simp only [Bool.and_eq_true, decide_eq_true_eq]
        exact h2
      rw [if_neg hq]

theorem countSinceEnd_le (EqualFold : String → String → Bool) (factoryHex : String) (B : Nat)
    (pre : List TxItem) : countSinceEnd EqualFold factoryHex B pre ≤ pre.length := by
  unfold countSinceEnd
  calc _ ≤ (pre.reverse.takeWhile
            (fun it => !(it.End && decide (it.BlockNumber = B)))).length :=
        List.length_filter_le _ _
    _ ≤ pre.reverse.length := (List.takeWhile_sublist _).length_le
    _ = pre.length := List.length_reverse _

theorem countsOf_getD (EqualFold : String → String → Bool) (factoryHex : String)
    (pre : List TxItem) (counts : Nat → Option Int) (h : CountsOf EqualFold factoryHex pre counts)
    (B : Nat) : (counts B).getD 0 = (countSinceEnd EqualFold factoryHex B pre : Int) := by
  rw [h B]
  split_ifs with h0
  · simp [h0]
  · rfl

theorem countsOf_step (EqualFold : String → String → Bool) (factoryHex : String)
    (pre : List TxItem) (counts : Nat → Option Int) (item : TxItem)
    (h : CountsOf EqualFold factoryHex pre counts) (hlen : pre.length + 1 < 9223372036854775808) :
    CountsOf EqualFold factoryHex (pre ++ [item])
      (filterStep EqualFold factoryHex counts item).1 := by
  intro B
  rw [filterStep_spec, countSinceEnd_snoc]
  have hg := countsOf_getD EqualFold factoryHex pre counts h item.BlockNumber
  have hle := countSinceEnd_le EqualFold factoryHex item.BlockNumber pre
  by_cases hEnd : item.End = true
  · have hm := matchesFactory_not_end EqualFold factoryHex item hEnd
    simp only [hEnd, if_true, true_and, hm, Bool.false_eq_true, false_and, if_false]
    by_cases hB : item.BlockNumber = B
    · simp [hB]
    · have hB2 : ¬ B = item.BlockNumber := fun e => hB e.symm
      simp only [hB, hB2, if_false]
      exact h B
  · simp only [hEnd, Bool.false_eq_true, if_false, false_and]
    by_cases hM : matchesFactory EqualFold factoryHex item = true
    · simp only [hM, if_true, true_and]
      by_cases hB : item.BlockNumber = B
      · subst hB
        have hw : wrapInt ((counts item.BlockNumber).getD 0 + 1) =
            (countSinceEnd EqualFold factoryHex item.BlockNumber pre : Int) + 1 := by
          rw [hg]
          exact wrapInt_eq _ (by omega) (by omega)
        simp only [if_true, hw]
        rw [if_neg (by omega)]
        push_cast
        rfl
      · have hB2 : ¬ B = item.BlockNumber := fun e => hB e.symm
        simp only [hB, hB2, if_false]
        exact h B
    · simp only [hM, Bool.false_eq_true, if_false, false_and]
      exact h B

theorem filterStep_out (EqualFold : String → String → Bool) (factoryHex : String)
    (pre : List TxItem) (counts : Nat → Option Int) (item : TxItem)
    (h : CountsOf EqualFold factoryHex pre counts) :
    (filterStep EqualFold factoryHex counts item).2 =
      if item.End then
        [FilterOut.published
          ⟨item.BlockNumber, (countSinceEnd EqualFold factoryHex item.BlockNumber pre : Int)⟩]
      else if matchesFactory EqualFold factoryHex item then
        [FilterOut.forwarded (toFiltered item)]
      else [] := by
  rw [filterStep_spec, countsOf_getD EqualFold factoryHex pre counts h]
  split_ifs <;> rfl

theorem runFilterFrom_spec (EqualFold : String → String → Bool) (factoryHex : String)
    (rest : List TxItem) :
    ∀ (pre : List TxItem) (counts : Nat → Option Int),
      CountsOf EqualFold factoryHex pre counts →
      pre.length + rest.length < 9223372036854775808 →
      (runFilterFrom EqualFold factoryHex counts rest).2 =
        expectedOutputs EqualFold factoryHex pre rest ∧
      CountsOf EqualFold factoryHex (pre ++ rest)
        (runFilterFrom EqualFold factoryHex counts rest).1 := by
  induction rest with
  | nil =>
    intro pre counts h _
    simpa [runFilterFrom, expectedOutputs] using h
  | cons item rest ih =>
    intro pre counts h hlen
    simp only [List.length_cons] at hlen
    have hstep := countsOf_step EqualFold factoryHex pre counts item h (by omega)
    have hlen2 : (pre ++ [item]).length + rest.length < 9223372036854775808 := by
      simp only [List.length_append, List.length_singleton]
      omega
    obtain ⟨ih1, ih2⟩ := ih (pre ++ [item]) _ hstep hlen2
    simp only [runFilterFrom, expectedOutputs]
    rw [ih1, filterStep_out EqualFold factoryHex pre counts item h]
    refine ⟨rfl, ?_⟩
    have : pre ++ item :: rest = pre ++ [item] ++ rest := by simp
    rw [this]
    exact ih2

theorem forwardedOf_append (xs ys : List FilterOut) :
    forwardedOf (xs ++ ys) = forwardedOf xs ++ forwardedOf ys := by
  induction xs with
  | nil => rfl
  | cons x rest ih =>
    cases x <;> simp [forwardedOf, ih]

theorem publishedOf_append (xs ys : List FilterOut) :
    publishedOf (xs ++ ys) = publishedOf xs ++ publishedOf ys := by
  induction xs with
  | nil => rfl
  | cons x rest ih =>
    cases x <;> simp [publishedOf, ih]

theorem forwardedOf_expected (EqualFold : String → String → Bool) (factoryHex : String)
    (rest : List TxItem) :
    ∀ pre : List TxItem, forwardedOf (expectedOutputs EqualFold factoryHex pre rest) =
      (rest.filter (matchesFactory EqualFold factoryHex)).map toFiltered := by
  induction rest with
  | nil => intro pre; rfl
  | cons item rest ih =>
    intro pre
    simp only [expectedOutputs]
    rw [forwardedOf_append, ih, List.filter_cons]
    by_cases hEnd : item.End = true
    · have hm := matchesFactory_not_end EqualFold factoryHex item hEnd
      simp [hEnd, hm, forwardedOf]
    · by_cases hM : matchesFactory EqualFold factoryHex item = true
      · simp [hEnd, hM, forwardedOf]
      · simp [hEnd, hM, forwardedOf]

theorem publishedOf_expected_length (EqualFold : String → String → Bool) (factoryHex : String)
    (rest : List TxItem) :
    ∀ pre : List TxItem, (publishedOf (expectedOutputs EqualFold factoryHex pre rest)).length =
      (rest.filter (fun it => it.End)).length := by
  induction rest with
  | nil => intro pre; rfl
  | cons item rest ih =>
    intro pre
    simp only [expectedOutputs]
    rw [publishedOf_append, List.length_append, ih, List.filter_cons]
    by_cases hEnd : item.End = true
    · simp [hEnd, publishedOf]
      omega
    · by_cases hM : matchesFactory EqualFold factoryHex item = true
      · simp [hEnd, hM, publishedOf]
      · simp [hEnd, hM, publishedOf]

theorem countsOf_empty (EqualFold : String → String → Bool) (factoryHex : String) :
    CountsOf EqualFold factoryHex [] (fun _ => none) := by
  intro B
  simp [countSinceEnd]

/-- C19: for every finite sequence of items (shorter than `2^63`, the range of
the Go `int` counter) that `runFilter` receives without cancellation:
(1) what it sends is, item by item and in order, for an END marker of block
`B` one `BlockFiltered{B, c}` with `c` the number of items forwarded for `B`
since the previous END of `B` (or since the start), also when `c = 0`, and for
an item that is not an END marker and whose `tx.to` is not empty and equals
the factory address under case folding its `FilteredTx`; (2) the `FilteredTx`
values sent are exactly these items, in input order; (3) there is one
`BlockFiltered` per END marker; (4) at the end the map `counts` has no entry
for a block without forwarded items since its last END and holds the number
of these items otherwise; (5) right after an END of block `B` the entry of
`B` is removed. -/
theorem runFilter_outputs (EqualFold : String → String → Bool) (factoryHex : String)
    (items : List TxItem) (hlen : items.length < 9223372036854775808) :
    (runFilter EqualFold factoryHex items).2 = expectedOutputs EqualFold factoryHex [] items ∧
    forwardedOf (runFilter EqualFold factoryHex items).2 =
      (items.filter (matchesFactory EqualFold factoryHex)).map toFiltered ∧
    (publishedOf (runFilter EqualFold factoryHex items).2).length =
      (items.filter (fun it => it.End)).length ∧
    CountsOf EqualFold factoryHex items (runFilter EqualFold factoryHex items).1 ∧
    (∀ (pre : List TxItem) (e : TxItem), items = pre ++ [e] → e.End = true →
      (runFilter EqualFold factoryHex items).1 e.BlockNumber = none) := by
  obtain ⟨h1, h2⟩ := runFilterFrom_spec EqualFold factoryHex items [] (fun _ => none)
    (countsOf_empty EqualFold factoryHex) (by simpa using hlen)
  have h3 : CountsOf EqualFold factoryHex items
      (runFilterFrom EqualFold factoryHex (fun _ => none) items).1 := by simpa using h2
  unfold runFilter
  refine ⟨h1, ?_, ?_, h3, ?_⟩
  · rw [h1, forwardedOf_expected]
  · rw [h1, publishedOf_expected_length]
  · intro pre e hitems hEnd
    rw [h3 e.BlockNumber, hitems, countSinceEnd_snoc]
    simp [hEnd]

/-- Witness for C19 (`runFilter_outputs`): block 5 with one transaction to the
factory and one to another address, then the empty block 6. -/
theorem runFilter_outputs_witness :
    (runFilter asciiEqualFold "0xfac" testItems).2 =
      expectedOutputs asciiEqualFold "0xfac" [] testItems ∧
    forwardedOf (runFilter asciiEqualFold "0xfac" testItems).2 =
      (testItems.filter (matchesFactory asciiEqualFold "0xfac")).map toFiltered ∧
    (publishedOf (runFilter asciiEqualFold "0xfac" testItems).2).length =
      (testItems.filter (fun it => it.End)).length ∧
    CountsOf asciiEqualFold "0xfac" testItems (runFilter asciiEqualFold "0xfac" testItems).1 ∧
    (∀ (pre : List TxItem) (e : TxItem), testItems = pre ++ [e] → e.End = true →
      (runFilter asciiEqualFold "0xfac" testItems).1 e.BlockNumber = none) :=
  runFilter_outputs asciiEqualFold "0xfac" testItems (by decide)

/-- The filter evaluated on the example: one `FilteredTx` for block 5, then
`BlockFiltered{5, 1}` and `BlockFiltered{6, 0}`. -/
theorem test_runFilter :
    (runFilter asciiEqualFold "0xfac" testItems).2 =
      [FilterOut.forwarded ⟨5, testHash 5, 100, some (testRawTx "0xFAC")⟩,
       FilterOut.published ⟨5, 1⟩, FilterOut.published ⟨6, 0⟩] := by
  decide

/-! ## Theorems: enricher -/

theorem enrichType_frame (tx : RawTx) (e : EnrichedTx) :
    (∃ more, (enrichType tx e).Errors = e.Errors ++ more) ∧
    (enrichType tx e).BlockNumber = e.BlockNumber ∧ (enrichType tx e).TxHash = e.TxHash := by
  unfold enrichType
  split_ifs
  · exact ⟨⟨_, rfl⟩, rfl, rfl⟩
  · exact ⟨⟨[], by simp⟩, rfl, rfl⟩

theorem enrichReceipt_frame (lib : EnrichLib) (cfg : EnrichConfig)
    (rpc : Nat → Except String (Option Receipt)) (tx : RawTx) (e : EnrichedTx) :
    (∃ more, (enrichReceipt lib cfg rpc tx e).Errors = e.Errors ++ more) ∧
    (enrichReceipt lib cfg rpc tx e).BlockNumber = e.BlockNumber ∧
    (enrichReceipt lib cfg rpc tx e).TxHash = e.TxHash := by
  unfold enrichReceipt
  by_cases h1 : tx.Hash = ""
  · rw [if_pos h1]
    exact ⟨⟨_, rfl⟩, rfl, rfl⟩
  · rw [if_neg h1]
    rcases hf : fetchReceiptWithRetry cfg rpc with ⟨rc, err⟩
    cases rc with
    | none =>
      cases err with
      | none => exact ⟨⟨[], by simp⟩, rfl, rfl⟩
      | some rerr => exact ⟨⟨_, rfl⟩, rfl, rfl⟩
    | some receipt =>
      cases err with
      | some rerr => exact ⟨⟨_, rfl⟩, rfl, rfl⟩
      | none =>
        simp only
        by_cases h2 : cfg.DecodeLogs = true
        · rw [if_pos h2]
          cases hd : lib.DecodeLogs receipt.Logs with
          | error derr => exact ⟨⟨_, rfl⟩, rfl, rfl⟩
          | ok v =>
            obtain ⟨logs, pool, tokens⟩ := v
            exact ⟨⟨[], by simp⟩, rfl, rfl⟩
        · rw [if_neg h2]
          exact ⟨⟨[], by simp⟩, rfl, rfl⟩

theorem enrichInput_frame (lib : EnrichLib) (cfg : EnrichConfig) (tx : RawTx) (e : EnrichedTx) :
    (∃ more, (enrichInput lib cfg tx e).Errors = e.Errors ++ more) ∧
    (enrichInput lib cfg tx e).BlockNumber = e.BlockNumber ∧
    (enrichInput lib cfg tx e).TxHash = e.TxHash ∧
    (enrichInput lib cfg tx e).Receipt = e.Receipt := by
  unfold enrichInput
  by_cases h1 : cfg.DecodeInput = true ∧ tx.Input ≠ ""
  · rw [if_pos h1]
    cases hh : lib.hexDecode tx.Input with
    | error derr => exact ⟨⟨_, rfl⟩, rfl, rfl, rfl⟩
    | ok inputBytes =>
      dsimp only
      cases hd : lib.DecodeInput inputBytes with
      | error err => exact ⟨⟨_, rfl⟩, rfl, rfl, rfl⟩
      | ok method => exact ⟨⟨[], by simp⟩, rfl, rfl, rfl⟩
  · rw [if_neg h1]
    exact ⟨⟨[], by simp⟩, rfl, rfl, rfl⟩

theorem enrichItem_frame (lib : EnrichLib) (cfg : EnrichConfig)
    (rpc : Nat → Except String (Option Receipt)) (item : FilteredTx) (tx : RawTx) :
    (∃ more, (enrichItem lib cfg rpc item tx).Errors = tx.ParseErrors ++ more) ∧
    (enrichItem lib cfg rpc item tx).BlockNumber = item.BlockNumber ∧
    (enrichItem lib cfg rpc item tx).TxHash = tx.Hash := by
  unfold enrichItem
  obtain ⟨⟨m1, h1⟩, b1, t1⟩ := enrichType_frame tx (enrichStart lib cfg item tx)
  obtain ⟨⟨m2, h2⟩, b2, t2⟩ := enrichReceipt_frame lib cfg rpc tx
    (enrichType tx (enrichStart lib cfg item tx))
  obtain ⟨⟨m3, h3⟩, b3, t3, _⟩ := enrichInput_frame lib cfg tx
    (enrichReceipt lib cfg rpc tx (enrichType tx (enrichStart lib cfg item tx)))
  refine ⟨⟨m1 ++ m2 ++ m3, ?_⟩, ?_, ?_⟩
  · rw [h3, h2, h1]
    simp [enrichStart]
  · rw [b3, b2, b1]; rfl
  · rw [t3, t2, t1]; rfl

theorem mem_errors_of_stage (e1 e2 : EnrichedTx) (x : String)
    (h : ∃ more, e2.Errors = e1.Errors ++ more) (hx : x ∈ e1.Errors) : x ∈ e2.Errors := by
  obtain ⟨more, hm⟩ := h
  rw [hm]
  exact List.mem_append_left _ hx

theorem enrichWorker_append (lib : EnrichLib) (cfg : EnrichConfig)
    (xs ys : List (FilteredTx × (Nat → Except String (Option Receipt)))) :
    enrichWorker lib cfg (xs ++ ys) = enrichWorker lib cfg xs ++ enrichWorker lib cfg ys := by
  induction xs with
  | nil => rfl
  | cons p rest ih =>
    obtain ⟨item, rpc⟩ := p
    simp only [List.cons_append, enrichWorker]
    cases item.Tx with
    | none => simpa using ih
    | some tx => simp [ih]

/-- C20: for every item with a present transaction that an `enrichWorker`
consumes without cancellation, whatever the receipt calls and the decoders
return: (1) between the outputs for the items before and after it the worker
sends exactly one `EnrichedTx` for it and then exactly one ack with the item's
block number; the record carries the item's block number and transaction hash
and its `errors[]` is the parse errors of the transaction followed by what
enrichment appended; (2) a failed receipt fetch appends `receipt: <error>`,
(3) a log-decoding error appends `decode_logs: <error>` and (4) an
input-decoding error appends `decode_input: <error>` to `errors[]`, none of
them changing what is sent. -/
theorem enrichWorker_emits (lib : EnrichLib) (cfg : EnrichConfig)
    (before after : List (FilteredTx × (Nat → Except String (Option Receipt))))
    (item : FilteredTx) (tx : RawTx) (rpc : Nat → Except String (Option Receipt))
    (hTx : item.Tx = some tx) :
    (enrichWorker lib cfg (before ++ (item, rpc) :: after) =
        enrichWorker lib cfg before ++
          [EnrichOut.enriched (enrichItem lib cfg rpc item tx), EnrichOut.ack item.BlockNumber] ++
          enrichWorker lib cfg after ∧
      (enrichItem lib cfg rpc item tx).BlockNumber = item.BlockNumber ∧
      (enrichItem lib cfg rpc item tx).TxHash = tx.Hash ∧
      ∃ more, (enrichItem lib cfg rpc item tx).Errors = tx.ParseErrors ++ more) ∧
    (∀ (rc : Option Receipt) (rerr : String), tx.Hash ≠ "" →
      fetchReceiptWithRetry cfg rpc = (rc, some rerr) →
      "receipt: " ++ rerr ∈ (enrichItem lib cfg rpc item tx).Errors ∧
      (enrichItem lib cfg rpc item tx).Receipt = none) ∧
    (∀ (receipt : Receipt) (derr : String), tx.Hash ≠ "" →
      fetchReceiptWithRetry cfg rpc = (some receipt, none) → cfg.DecodeLogs = true →
      lib.DecodeLogs receipt.Logs = Except.error derr →
      "decode_logs: " ++ derr ∈ (enrichItem lib cfg rpc item tx).Errors ∧
      (enrichItem lib cfg rpc item tx).Receipt = some (receiptInfo lib receipt)) ∧
    (∀ (inputBytes : List Byte) (err : String), cfg.DecodeInput = true → tx.Input ≠ "" →
      lib.hexDecode tx.Input = Except.ok inputBytes →
      lib.DecodeInput inputBytes = Except.error err →
      "decode_input: " ++ err ∈ (enrichItem lib cfg rpc item tx).Errors) := by
  obtain ⟨hE, hB, hT⟩ := enrichItem_frame lib cfg rpc item tx
  refine ⟨⟨?_, hB, hT, hE⟩, ?_, ?_, ?_⟩
  · rw [enrichWorker_append]
    simp [enrichWorker, hTx]
  · intro rc rerr hHash hfetch
    have hstage : "receipt: " ++ rerr ∈ (enrichReceipt lib cfg rpc tx
          (enrichType tx (enrichStart lib cfg item tx))).Errors ∧
        (enrichReceipt lib cfg rpc tx
          (enrichType tx (enrichStart lib cfg item tx))).Receipt = none := by
      have hty : (enrichType tx (enrichStart lib cfg item tx)).Receipt = none := by
        unfold enrichType
        split_ifs <;> rfl
      unfold enrichReceipt
      rw [if_neg hHash, hfetch]
      cases rc with
      | none => exact ⟨by simp, hty⟩
      | some r => exact ⟨by simp, hty⟩
    constructor
    · exact mem_errors_of_stage _ _ _ (enrichInput_frame lib cfg tx _).1 hstage.1
    · unfold enrichItem
      rw [(enrichInput_frame lib cfg tx _).2.2.2]
      exact hstage.2
  · intro receipt derr hHash hfetch hdl hdec
    have hstage : "decode_logs: " ++ derr ∈ (enrichReceipt lib cfg rpc tx
          (enrichType tx (enrichStart lib cfg item tx))).Errors ∧
        (enrichReceipt lib cfg rpc tx
          (enrichType tx (enrichStart lib cfg item tx))).Receipt =
          some (receiptInfo lib receipt) := by
      unfold enrichReceipt
      rw [if_neg hHash, hfetch]
      simp [hdl, hdec]
    constructor
    · exact mem_errors_of_stage _ _ _ (enrichInput_frame lib cfg tx _).1 hstage.1
    · unfold enrichItem
      rw [(enrichInput_frame lib cfg tx _).2.2.2]
      exact hstage.2
  · intro inputBytes err hdi hin hhex hdec
    unfold enrichItem enrichInput
    rw [if_pos ⟨hdi, hin⟩]
    simp only [hhex, hdec]
    simp

/-- Witness for C20 (`enrichWorker_emits`): an item of block 5 whose receipt
calls all fail is still sent and acknowledged. -/
theorem enrichWorker_emits_witness :
    enrichWorker testLib testEnrichConfig
        ([] ++ ((⟨5, testHash 5, 100, some (testRawTx "0xFAC")⟩ : FilteredTx),
          fun _ => Except.error "timeout") :: []) =
      enrichWorker testLib testEnrichConfig [] ++
        [EnrichOut.enriched (enrichItem testLib testEnrichConfig
            (fun _ => Except.error "timeout") ⟨5, testHash 5, 100, some (testRawTx "0xFAC")⟩
            (testRawTx "0xFAC")),
          EnrichOut.ack (⟨5, testHash 5, 100, some (testRawTx "0xFAC")⟩ : FilteredTx).BlockNumber]
        ++ enrichWorker testLib testEnrichConfig [] ∧
    "receipt: " ++ "timeout" ∈ (enrichItem testLib testEnrichConfig
        (fun _ => Except.error "timeout") ⟨5, testHash 5, 100, some (testRawTx "0xFAC")⟩
        (testRawTx "0xFAC")).Errors :=
  ⟨(enrichWorker_emits testLib testEnrichConfig [] []
      ⟨5, testHash 5, 100, some (testRawTx "0xFAC")⟩ (testRawTx "0xFAC")
      (fun _ => Except.error "timeout") rfl).1.1,
    ((enrichWorker_emits testLib testEnrichConfig [] []
      ⟨5, testHash 5, 100, some (testRawTx "0xFAC")⟩ (testRawTx "0xFAC")
      (fun _ => Except.error "timeout") rfl).2.1 none "timeout" (by decide) (by decide)).1⟩

/-! ## Theorems: block fetcher -/

theorem decodeUint64_errs (lib : HexLib) (value : String) (errs : List String) (field : String) :
    (decodeUint64 lib value errs field).2 =
      errs ++ (fieldError lib.DecodeUint64 field value).toList := by
  unfold decodeUint64 fieldError
  by_cases h : trimString value = ""
  · simp [h]
  · simp only [h, if_false]
    cases lib.DecodeUint64 (trimString value) <;> simp

theorem decodeBigString_errs (lib : HexLib) (value : String) (errs : List String)
    (field : String) (allowZero : Bool) :
    (decodeBigString lib value errs field allowZero).2 =
      errs ++ (fieldError lib.DecodeBig field value).toList := by
  unfold decodeBigString fieldError
  by_cases h : trimString value = ""
  · simp [h]
  · simp only [h, if_false]
    cases lib.DecodeBig (trimString value) <;> simp

theorem parseRawTx_none (lib : HexLib) (tx : rpcTx) :
    parseRawTx lib tx = none ↔ tx.Hash = "" := by
  unfold parseRawTx
  by_cases h : tx.Hash = "" <;> simp [h]

theorem parseRawTx_some (lib : HexLib) (tx : rpcTx) (h : tx.Hash ≠ "") :
    ∃ raw, parseRawTx lib tx = some raw ∧ raw.Hash = tx.Hash ∧ raw.From = tx.From ∧
      raw.ParseErrors =
        (fieldError lib.DecodeUint64 "nonce" tx.Nonce).toList ++
        (fieldError lib.DecodeUint64 "gas" tx.Gas).toList ++
        (fieldError lib.DecodeUint64 "type" tx.TxType).toList ++
        (fieldError lib.DecodeBig "value" tx.Value).toList ++
        (fieldError lib.DecodeBig "gasPrice" tx.GasPrice).toList ++
        (fieldError lib.DecodeBig "maxFeePerGas" tx.MaxFeePerGas).toList ++
        (fieldError lib.DecodeBig "maxPriorityFeePerGas" tx.MaxPriorityFeePerGas).toList := by
  unfold parseRawTx
  simp only [h, if_false]
  refine ⟨_, rfl, rfl, rfl, ?_⟩
  simp only [decodeBigString_errs, decodeUint64_errs, List.nil_append]

theorem pushTxs_eq (lib : HexLib) (bn : Nat) (bh : Hash) (bt : Nat) (txs : List rpcTx) :
    pushTxs lib bn bh bt txs =
      (txs.filter (fun tx => decide (tx.Hash ≠ ""))).map
        (fun tx => TxItem.mk bn bh bt (parseRawTx lib tx) false) := by
  induction txs with
  | nil => rfl
  | cons tx rest ih =>
    by_cases h : tx.Hash = ""
    · have hn := (parseRawTx_none lib tx).2 h
      simp [pushTxs, hn, h, ih]
    · obtain ⟨raw, hraw, -⟩ := parseRawTx_some lib tx h
      simp [pushTxs, hraw, h, ih]

/-- C21: `pushBlock`, run without cancellation, sends one item for each
transaction of the block whose hash is non-empty, in the order of the block,
and then one END item, which is the last item and the only one with `End`. A
transaction without hash is dropped; a kept one carries its hash and, for every
numeric field that does not decode, the entry `field: error` in `ParseErrors`.
Every item carries the same block number, block hash and timestamp, and has
either a transaction and `End = false`, or no transaction and `End = true`. -/
theorem pushBlock_items (lib : HexLib) (block : rpcBlock) (requested : Nat) :
    pushBlock lib block requested =
      (block.Transactions.filter (fun tx => decide (tx.Hash ≠ ""))).map
        (fun tx => TxItem.mk (pushBlockNumber lib block requested) (lib.HexToHash block.Hash)
          (pushBlockTime lib block) (parseRawTx lib tx) false) ++
      [TxItem.mk (pushBlockNumber lib block requested) (lib.HexToHash block.Hash)
        (pushBlockTime lib block) none true] ∧
    (∀ tx : rpcTx, tx.Hash = "" → parseRawTx lib tx = none) ∧
    (∀ tx : rpcTx, tx.Hash ≠ "" →
      ∃ raw, parseRawTx lib tx = some raw ∧ raw.Hash = tx.Hash ∧ raw.From = tx.From ∧
        raw.ParseErrors =
          (fieldError lib.DecodeUint64 "nonce" tx.Nonce).toList ++
          (fieldError lib.DecodeUint64 "gas" tx.Gas).toList ++
          (fieldError lib.DecodeUint64 "type" tx.TxType).toList ++
          (fieldError lib.DecodeBig "value" tx.Value).toList ++
          (fieldError lib.DecodeBig "gasPrice" tx.GasPrice).toList ++
          (fieldError lib.DecodeBig "maxFeePerGas" tx.MaxFeePerGas).toList ++
          (fieldError lib.DecodeBig "maxPriorityFeePerGas" tx.MaxPriorityFeePerGas).toList) ∧
    (pushBlock lib block requested).getLast? =
      some (TxItem.mk (pushBlockNumber lib block requested) (lib.HexToHash block.Hash)
        (pushBlockTime lib block) none true) ∧
    ((pushBlock lib block requested).filter (fun item => item.End)).length = 1 ∧
    (∀ item ∈ pushBlock lib block requested,
      item.BlockNumber = pushBlockNumber lib block requested ∧
      item.BlockHash = lib.HexToHash block.Hash ∧
      item.Timestamp = pushBlockTime lib block ∧
      ((item.Tx ≠ none ∧ item.End = false) ∨ (item.Tx = none ∧ item.End = true))) := by
  have heq : pushBlock lib block requested =
      (block.Transactions.filter (fun tx => decide (tx.Hash ≠ ""))).map
        (fun tx => TxItem.mk (pushBlockNumber lib block requested) (lib.HexToHash block.Hash)
          (pushBlockTime lib block) (parseRawTx lib tx) false) ++
      [TxItem.mk (pushBlockNumber lib block requested) (lib.HexToHash block.Hash)
        (pushBlockTime lib block) none true] := by
    unfold pushBlock
    simp only [pushTxs_eq]
  refine ⟨heq, fun tx h => (parseRawTx_none lib tx).2 h, fun tx h => parseRawTx_some lib tx h,
    ?_, ?_, ?_⟩
  · rw [heq]; simp
  · rw [heq, List.filter_append, List.length_append]
    have : (List.filter (fun item : TxItem => item.End)
        ((block.Transactions.filter (fun tx => decide (tx.Hash ≠ ""))).map
        (fun tx => TxItem.mk (pushBlockNumber lib block requested) (lib.HexToHash block.Hash)
          (pushBlockTime lib block) (parseRawTx lib tx) false))) = [] := by
      rw [List.filter_eq_nil_iff]
      intro item hitem
      rw [List.mem_map] at hitem
      obtain ⟨tx, -, rfl⟩ := hitem
      simp
    rw [this]; simp
  · intro item hitem
    rw [heq, List.mem_append] at hitem
    rcases hitem with hitem | hitem
    · rw [List.mem_map] at hitem
      obtain ⟨tx, htx, rfl⟩ := hitem
      refine ⟨rfl, rfl, rfl, Or.inl ⟨?_, rfl⟩⟩
      have hne : tx.Hash ≠ "" := by
        have := (List.mem_filter.1 htx).2
        simpa using this
      obtain ⟨raw, hraw, -⟩ := parseRawTx_some lib tx hne
      simp [hraw]
    · rw [List.mem_singleton] at hitem
      subst hitem
      exact ⟨rfl, rfl, rfl, Or.inr ⟨rfl, rfl⟩⟩

/-- The items `pushBlock` sends for `testBlock`. -/
theorem test_pushBlock :
    pushBlock testHexLib testBlock 99 =
      [⟨16, testHash 7, 1,
        some ⟨"0xaa", "0x01", "0xFAC", 1, "16", 1, "", "", "", 1, "0x", []⟩, false⟩,
       ⟨16, testHash 7, 1,
        some ⟨"0xbb", "0x02", "", 0, "0", 0, "", "", "", 0, "0x",
          ["nonce: invalid hex string"]⟩, false⟩,
       ⟨16, testHash 7, 1, none, true⟩] := by
  decide

/-- Witness for C21 (`pushBlock_items`): the items of `testBlock` end with the END
item, the only item with `End`. -/
theorem pushBlock_items_witness :
    (pushBlock testHexLib testBlock 99).getLast? =
      some (TxItem.mk (pushBlockNumber testHexLib testBlock 99)
        (testHexLib.HexToHash testBlock.Hash) (pushBlockTime testHexLib testBlock) none true) ∧
    ((pushBlock testHexLib testBlock 99).filter (fun item => item.End)).length = 1 :=
  ⟨(pushBlock_items testHexLib testBlock 99).2.2.2.1,
    (pushBlock_items testHexLib testBlock 99).2.2.2.2.1⟩

/-! ## Theorems: reader -/

theorem readyBlock_lt (confirmations currentHead : Nat) :
    readyBlock confirmations currentHead < 9223372036854775808 := by
  unfold readyBlock
  have h := wrapInt_bounds (wrapInt currentHead - wrapInt confirmations)
  dsimp only
  split_ifs <;> omega

theorem readyBlock_eq (confirmations currentHead : Nat)
    (hh : currentHead < 9223372036854775808) (hc : confirmations < 9223372036854775808) :
    (readyBlock confirmations currentHead : Int) =
      max 0 ((currentHead : Int) - (confirmations : Int)) := by
  unfold readyBlock
  have h1 : wrapInt (currentHead : Int) = currentHead := wrapInt_eq _ (by omega) (by omega)
  have h2 : wrapInt (confirmations : Int) = confirmations := wrapInt_eq _ (by omega) (by omega)
  have h3 : wrapInt ((currentHead : Int) - confirmations) = (currentHead : Int) - confirmations :=
    wrapInt_eq _ (by omega) (by omega)
  simp only [h1, h2, h3]
  split_ifs <;> omega

theorem emitReady_inv (confirmations start : Nat) (fuel : Nat) :
    ∀ s : ReaderState, ReaderInv confirmations start s →
      ReaderInv confirmations start
          (emitReady (readyBlock confirmations s.currentHead) fuel s) ∧
        (emitReady (readyBlock confirmations s.currentHead) fuel s).currentHead =
          s.currentHead := by
  induction fuel with
  | zero => intro s hs; exact ⟨hs, rfl⟩
  | succ fuel ih =>
    intro s hs
    unfold emitReady
    by_cases hle : s.nextBlock ≤ readyBlock confirmations s.currentHead
    · rw [if_pos hle]
      have hlt := readyBlock_lt confirmations s.currentHead
      have hmod : (s.nextBlock + 1) % u64 = s.nextBlock + 1 := by
        apply Nat.mod_eq_of_lt
        unfold u64
        omega
      obtain ⟨⟨k, hk, hn⟩, hall⟩ := hs
      have hinv : ReaderInv confirmations start
          { s with
            emitted := s.emitted ++ [(s.nextBlock, s.currentHead)]
            nextBlock := (s.nextBlock + 1) % u64 } := by
        refine ⟨⟨k + 1, ?_, ?_⟩, ?_⟩
        · simp only [List.map_append, List.map_cons, List.map_nil, hk, hn]
          rw [List.range'_concat]
          simp
        · show (s.nextBlock + 1) % u64 = start + (k + 1)
          rw [hmod, hn]; omega
        · intro p hp
          simp only [List.mem_append, List.mem_singleton] at hp
          rcases hp with hp | hp
          · exact hall p hp
          · subst hp
            exact ⟨hle, le_refl _⟩
      have := ih _ hinv
      exact this
    · rw [if_neg hle]
      exact ⟨hs, rfl⟩

theorem readerStep_head (confirmations : Nat) (s : ReaderState) (h : Option Nat)
    (hs : ∃ start, ReaderInv confirmations start s) :
    (readerStep confirmations s h).currentHead =
      match h with
      | some h => if h > s.currentHead then h else s.currentHead
      | none => s.currentHead := by
  obtain ⟨start, hs⟩ := hs
  unfold readerStep
  cases h with
  | none => exact (emitReady_inv confirmations start _ s hs).2
  | some h =>
    dsimp only
    by_cases hgt : h > s.currentHead
    · simp only [hgt, if_true]
      have hinv : ReaderInv confirmations start { s with currentHead := h } :=
        ⟨hs.1, fun p hp => ⟨(hs.2 p hp).1, le_trans (hs.2 p hp).2 (le_of_lt hgt)⟩⟩
      exact (emitReady_inv confirmations start _ _ hinv).2
    · simp only [hgt, if_false]
      exact (emitReady_inv confirmations start _ s hs).2

theorem readerStep_inv (confirmations start : Nat) (s : ReaderState) (h : Option Nat)
    (hs : ReaderInv confirmations start s) :
    ReaderInv confirmations start (readerStep confirmations s h) := by
  unfold readerStep
  cases h with
  | none => exact (emitReady_inv confirmations start _ s hs).1
  | some h =>
    dsimp only
    by_cases hgt : h > s.currentHead
    · simp only [hgt, if_true]
      have hinv : ReaderInv confirmations start { s with currentHead := h } :=
        ⟨hs.1, fun p hp => ⟨(hs.2 p hp).1, le_trans (hs.2 p hp).2 (le_of_lt hgt)⟩⟩
      exact (emitReady_inv confirmations start _ _ hinv).1
    · simp only [hgt, if_false]
      exact (emitReady_inv confirmations start _ s hs).1

theorem foldl_readerStep_inv (confirmations start : Nat) (updates : List (Option Nat)) :
    ∀ s : ReaderState, ReaderInv confirmations start s →
      ReaderInv confirmations start (updates.foldl (readerStep confirmations) s) := by
  induction updates with
  | nil => intro s hs; exact hs
  | cons h rest ih => intro s hs; exact ih _ (readerStep_inv confirmations start s h hs)

theorem readerLoop_inv (confirmations start head : Nat) (updates : List (Option Nat)) :
    ReaderInv confirmations start (readerLoop confirmations start head updates) := by
  apply foldl_readerStep_inv
  exact ⟨⟨0, rfl, rfl⟩, fun p hp => by simp at hp⟩

theorem foldl_readerStep_head_mono (confirmations start : Nat) (updates : List (Option Nat)) :
    ∀ s : ReaderState, ReaderInv confirmations start s →
      s.currentHead ≤ (updates.foldl (readerStep confirmations) s).currentHead := by
  induction updates with
  | nil => intro s _; exact le_refl _
  | cons h rest ih =>
    intro s hs
    have h1 := ih _ (readerStep_inv confirmations start s h hs)
    have h2 := readerStep_head confirmations s h ⟨start, hs⟩
    refine le_trans ?_ h1
    rw [h2]
    cases h with
    | none => exact le_refl _
    | some h => dsimp only; split_ifs <;> omega

theorem foldl_readerStep_head_lt (confirmations start B : Nat) (updates : List (Option Nat)) :
    ∀ s : ReaderState, ReaderInv confirmations start s → s.currentHead < B →
      (∀ h, some h ∈ updates → h < B) →
      (updates.foldl (readerStep confirmations) s).currentHead < B := by
  induction updates with
  | nil => intro s _ hB _; exact hB
  | cons h rest ih =>
    intro s hs hB hall
    apply ih _ (readerStep_inv confirmations start s h hs)
    · rw [readerStep_head confirmations s h ⟨start, hs⟩]
      cases h with
      | none => exact hB
      | some x =>
        have hx := hall x (List.mem_cons_self _ _)
        dsimp only
        split_ifs <;> assumption
    · intro x hx
      exact hall x (List.mem_cons_of_mem _ hx)

theorem readerLoop_snoc (confirmations start head : Nat) (pre : List (Option Nat))
    (h : Option Nat) :
    readerLoop confirmations start head (pre ++ [h]) =
      readerStep confirmations (readerLoop confirmations start head pre) h := by
  unfold readerLoop
  rw [List.foldl_append]
  rfl

theorem readerLoop_append (confirmations start head : Nat) (pre post : List (Option Nat)) :
    readerLoop confirmations start head (pre ++ post) =
      post.foldl (readerStep confirmations) (readerLoop confirmations start head pre) := by
  unfold readerLoop
  rw [List.foldl_append]

/-- C23: for every sequence of loop iterations, with or without a head update,
the numbers the reader sends are `start, start + 1, ...` without gap or
repetition; a number `n` is sent only when `n <= max(0, currentHead -
confirmations)` for the head current at the send (heads and confirmations
below `2^63`, where the `int64` conversions are exact); `currentHead` never
decreases, and an update `h` replaces it exactly when `h > currentHead`. -/
theorem reader_emits_consecutive (confirmations start head : Nat)
    (updates : List (Option Nat))
    (hconf : confirmations < 9223372036854775808) (hhead : head < 9223372036854775808)
    (hupd : ∀ h, some h ∈ updates → h < 9223372036854775808) :
    (∃ k, (readerLoop confirmations start head updates).emitted.map Prod.fst =
        List.range' start k ∧
      (readerLoop confirmations start head updates).nextBlock = start + k) ∧
    (∀ p ∈ (readerLoop confirmations start head updates).emitted,
      (p.1 : Int) ≤ max 0 ((p.2 : Int) - (confirmations : Int)) ∧
      p.2 ≤ (readerLoop confirmations start head updates).currentHead) ∧
    (∀ pre post, updates = pre ++ post →
      (readerLoop confirmations start head pre).currentHead ≤
        (readerLoop confirmations start head updates).currentHead) ∧
    (∀ (pre : List (Option Nat)) (h : Nat),
      (readerLoop confirmations start head (pre ++ [some h])).currentHead =
        if h > (readerLoop confirmations start head pre).currentHead then h
        else (readerLoop confirmations start head pre).currentHead) ∧
    (∀ pre : List (Option Nat),
      (readerLoop confirmations start head (pre ++ [none])).currentHead =
        (readerLoop confirmations start head pre).currentHead) := by
  have hinv := readerLoop_inv confirmations start head updates
  have hlt : (readerLoop confirmations start head updates).currentHead <
      9223372036854775808 :=
    foldl_readerStep_head_lt confirmations start _ updates _
      ⟨⟨0, rfl, rfl⟩, fun p hp => by simp at hp⟩ hhead hupd
  refine ⟨hinv.1, ?_, ?_, ?_, ?_⟩
  · intro p hp
    obtain ⟨h1, h2⟩ := hinv.2 p hp
    refine ⟨?_, h2⟩
    rw [← readyBlock_eq confirmations p.2 (lt_of_le_of_lt h2 hlt) hconf]
    exact_mod_cast h1
  · intro pre post hsplit
    subst hsplit
    rw [readerLoop_append]
    exact foldl_readerStep_head_mono confirmations start post _
      (readerLoop_inv confirmations start head pre)
  · intro pre h
    rw [readerLoop_snoc,
      readerStep_head confirmations _ _ ⟨start, readerLoop_inv confirmations start head pre⟩]
  · intro pre
    rw [readerLoop_snoc,
      readerStep_head confirmations _ _ ⟨start, readerLoop_inv confirmations start head pre⟩]

/-- Witness for C23 (`reader_emits_consecutive`): from block 96 with head 100,
two confirmations and the head updates 99 and 101 the reader sends 96 to 99. -/
theorem reader_emits_consecutive_witness :
    (∃ k, (readerLoop 2 96 100 [none, some 99, some 101]).emitted.map Prod.fst =
        List.range' 96 k ∧
      (readerLoop 2 96 100 [none, some 99, some 101]).nextBlock = 96 + k) ∧
    (readerLoop 2 96 100 [none, some 99, some 101]).emitted =
      [(96, 100), (97, 100), (98, 100), (99, 101)] :=
  ⟨(reader_emits_consecutive 2 96 100 [none, some 99, some 101] (by decide) (by decide)
      (by intro h hh; simp at hh; omega)).1, by decide⟩

theorem readerStart_eq (cfg : IngestionConfig) (lastProcessed head sb : Nat) (latest : Bool)
    (hL : lastProcessed + 1 < u64) (hs : StartBlockNumber cfg = some (sb, latest)) :
    readerStart cfg lastProcessed (Except.ok head) =
      some
        ((if lastProcessed ≠ 0 then lastProcessed + 1
          else if latest = true then head - cfg.Confirmations else sb) -
          cfg.ReorgReplayDepth) := by
  unfold readerStart
  simp only [hs]
  have hmod : (lastProcessed + 1) % u64 = lastProcessed + 1 := Nat.mod_eq_of_lt hL
  rw [hmod]
  by_cases h0 : lastProcessed = 0
  · subst h0
    cases latest <;> simp <;> split_ifs <;> first | rfl | omega
  · have hpos : lastProcessed > 0 := Nat.pos_of_ne_zero h0
    simp [hpos, h0]
    split_ifs <;> omega

/-- C22: when `fetchHead` and `StartBlockNumber` succeed, the reader starts at
`max(0, base - reorg_replay_depth)`, where `base` is `checkpoint + 1` for a
non-zero checkpoint (below `2^64 - 1`), else `max(0, head - confirmations)` for
the start block `latest`, else the numeric start block; every number it sends
continues the run `start, start + 1, ...`, so the first one sent is `start`. -/
theorem reader_first_block (cfg : IngestionConfig) (lastProcessed head sb : Nat)
    (latest : Bool) (hL : lastProcessed + 1 < u64)
    (hs : StartBlockNumber cfg = some (sb, latest)) :
    ∃ start : Nat, readerStart cfg lastProcessed (Except.ok head) = some start ∧
      (start : Int) =
        max 0
          ((if lastProcessed ≠ 0 then (lastProcessed : Int) + 1
            else if latest = true then max 0 ((head : Int) - (cfg.Confirmations : Int))
            else (sb : Int)) - (cfg.ReorgReplayDepth : Int)) ∧
      ∀ updates : List (Option Nat),
        ∃ k, (readerLoop cfg.Confirmations start head updates).emitted.map Prod.fst =
          List.range' start k := by
  refine ⟨_, readerStart_eq cfg lastProcessed head sb latest hL hs, ?_, ?_⟩
  · by_cases h0 : lastProcessed = 0
    · cases latest <;> simp [h0] <;> omega
    · simp [h0]; omega
  · intro updates
    obtain ⟨k, hk, -⟩ := (readerLoop_inv cfg.Confirmations _ head updates).1
    exact ⟨k, hk⟩

/-- Witness for C22 (`reader_first_block`): checkpoint 100 with a replay depth of
5 and head 100. -/
theorem reader_first_block_witness :
    ∃ start : Nat, readerStart testIngestion 100 (Except.ok 100) = some start ∧
      (start : Int) =
        max 0
          ((if (100 : Nat) ≠ 0 then ((100 : Nat) : Int) + 1
            else if true = true then
              max 0 (((100 : Nat) : Int) - (testIngestion.Confirmations : Int))
            else ((0 : Nat) : Int)) - (testIngestion.ReorgReplayDepth : Int)) ∧
      ∀ updates : List (Option Nat),
        ∃ k, (readerLoop testIngestion.Confirmations start 100 updates).emitted.map Prod.fst =
          List.range' start k :=
  reader_first_block testIngestion 100 100 0 true (by decide) (by decide)

/-- The start block for checkpoint 100 (scenario S5), for a fresh start at
`latest` and for a numeric and a malformed start block. -/
theorem test_readerStart :
    readerStart testIngestion 100 (Except.ok 100) = some 96 ∧
    (readerLoop 2 96 100 [none]).emitted.map Prod.fst = [96, 97, 98] ∧
    readerStart testIngestion 0 (Except.ok 1000) = some 993 ∧
    readerStart { testIngestion with StartBlock := "50" } 0 (Except.ok 1000) = some 45 ∧
    readerStart { testIngestion with StartBlock := "5x" } 0 (Except.ok 1000) = none := by
  decide

/-! ## Theorems: dynamic-fee transaction -/

/-- C24: `buildDynamicTx` returns an error exactly when the chain id is nil,
the value is nil or negative, the gas limit is 0, a fee field is nil or a fee
field is negative; in every other case it returns the dynamic-fee transaction
whose chain id, nonce, gas limit, fee cap, tip cap, recipient, value and data
are the inputs. -/
theorem buildDynamicTx_error_iff (chainID : Option Int) (toAddr : Address)
    (value : Option Int) (data : List Byte) (p : BuildParams) :
    ((∃ e, buildDynamicTx chainID toAddr value data p = Except.error e) ↔
      (chainID = none ∨ value = none ∨ (∃ v, value = some v ∧ v < 0) ∨ p.GasLimit = 0 ∨
        p.Fee.MaxFeePerGas = none ∨ p.Fee.MaxPriorityFeePerGas = none ∨
        (∃ f, p.Fee.MaxFeePerGas = some f ∧ f < 0) ∨
        (∃ t, p.Fee.MaxPriorityFeePerGas = some t ∧ t < 0))) ∧
    (¬ (chainID = none ∨ value = none ∨ (∃ v, value = some v ∧ v < 0) ∨ p.GasLimit = 0 ∨
        p.Fee.MaxFeePerGas = none ∨ p.Fee.MaxPriorityFeePerGas = none ∨
        (∃ f, p.Fee.MaxFeePerGas = some f ∧ f < 0) ∨
        (∃ t, p.Fee.MaxPriorityFeePerGas = some t ∧ t < 0)) →
      ∃ tx, buildDynamicTx chainID toAddr value data p = Except.ok tx ∧
        chainID = some tx.ChainID ∧ tx.Nonce = p.Nonce ∧ tx.Gas = p.GasLimit ∧
        p.Fee.MaxFeePerGas = some tx.GasFeeCap ∧
        p.Fee.MaxPriorityFeePerGas = some tx.GasTipCap ∧
        tx.To = toAddr ∧ value = some tx.Value ∧ tx.Data = data) := by
  obtain ⟨nonce, gasLimit, ⟨maxFee, maxPrio⟩⟩ := p
  unfold buildDynamicTx
  cases chainID with
  | none => simp
  | some cid =>
    cases value with
    | none => simp
    | some val =>
      by_cases hg : gasLimit = 0
      · simp [hg]
      · cases maxFee with
        | none => simp [hg]
        | some f =>
          cases maxPrio with
          | none => simp [hg]
          | some t =>
            by_cases hf : f < 0
            · simp [hg, hf]
            · by_cases ht : t < 0
              · simp [hg, hf, ht]
              · by_cases hv : val < 0
                · simp [hg, hf, ht, hv]
                · simp [hg, hf, ht, hv]

/-- Witness for C24 (`buildDynamicTx_error_iff`): the parameters of
`TestBuildBuyTxCalldata` are accepted. -/
theorem buildDynamicTx_error_iff_witness :
    ∃ tx, buildDynamicTx (some 8453) (testAddress 0x11) (some 1) selectorBuy testBuyParams =
        Except.ok tx ∧
      some (8453 : Int) = some tx.ChainID ∧ tx.Nonce = testBuyParams.Nonce ∧
      tx.Gas = testBuyParams.GasLimit ∧
      testBuyParams.Fee.MaxFeePerGas = some tx.GasFeeCap ∧
      testBuyParams.Fee.MaxPriorityFeePerGas = some tx.GasTipCap ∧
      tx.To = testAddress 0x11 ∧ some (1 : Int) = some tx.Value ∧ tx.Data = selectorBuy :=
  (buildDynamicTx_error_iff (some 8453) (testAddress 0x11) (some 1) selectorBuy
    testBuyParams).2 (by decide)

/-- The result of `buildDynamicTx` on accepted and on rejected inputs. -/
theorem test_buildDynamicTx :
    buildDynamicTx (some 8453) (testAddress 0x11) (some 1) selectorBuy testBuyParams =
      Except.ok testTx ∧
    buildDynamicTx none (testAddress 0x11) (some 1) selectorBuy testBuyParams =
      Except.error "chainID is required" ∧
    buildDynamicTx (some 8453) (testAddress 0x11) (some (-1)) selectorBuy testBuyParams =
      Except.error "value must be non-negative" ∧
    buildDynamicTx (some 8453) (testAddress 0x11) (some 1) selectorBuy
      { testBuyParams with GasLimit := 0 } = Except.error "gasLimit is required" ∧
    buildDynamicTx (some 8453) (testAddress 0x11) (some 1) selectorBuy
      { testBuyParams with Fee := ⟨some (-1), some 0⟩ } =
      Except.error "fee values must be non-negative" := by
  decide

/-! ## Theorems: retry -/

theorem wrapInt_mul_wrapInt (a b : Int) : wrapInt (a * wrapInt b) = wrapInt (a * b) := by
  unfold wrapInt
  have h : a * ((b + 9223372036854775808) % 18446744073709551616 - 9223372036854775808) +
      9223372036854775808 =
      (a * b + 9223372036854775808) +
        18446744073709551616 * (-(a * ((b + 9223372036854775808) / 18446744073709551616))) := by
    have hb := Int.emod_add_ediv (b + 9223372036854775808) 18446744073709551616
    have hb2 : (b + 9223372036854775808) % 18446744073709551616 =
        b + 9223372036854775808 -
          18446744073709551616 * ((b + 9223372036854775808) / 18446744073709551616) := by
      omega
    rw [hb2]
    ring
  rw [h, Int.add_mul_emod_self_left]

theorem retry_wait_exact (backoff : Int) (i : Nat)
    (h1 : -9223372036854775808 ≤ backoff * 2 ^ i) (h2 : backoff * 2 ^ i < 9223372036854775808) :
    wrapInt (backoff * wrapInt (2 ^ i)) = backoff * 2 ^ i := by
  rw [wrapInt_mul_wrapInt]
  exact wrapInt_eq _ h1 h2

theorem retryFrom_all_fail {σ : Type} (backoff : Int) (fn : Nat → σ → Option String × σ)
    (s : σ) (remaining : Nat) :
    ∀ (attempt : Nat) (waits : List Int),
      (∀ i, attempt ≤ i → i ≤ attempt + remaining → retryErr fn s i ≠ none) →
      retryFrom backoff fn remaining attempt (retryState fn s attempt) waits =
        ⟨retryErr fn s (attempt + remaining), retryState fn s (attempt + remaining + 1),
          attempt + remaining + 1,
          waits ++ (List.range' attempt remaining).map
            (fun i => wrapInt (backoff * wrapInt (2 ^ i)))⟩ := by
  induction remaining with
  | zero =>
    intro attempt waits hfail
    have h := hfail attempt (le_refl _) (by omega)
    unfold retryErr at h
    unfold retryFrom
    rcases hfn : fn attempt (retryState fn s attempt) with ⟨e, s1⟩
    rw [hfn] at h
    cases e with
    | none => exact absurd rfl h
    | some e => simp [retryErr, retryState, hfn]
  | succ remaining ih =>
    intro attempt waits hfail
    have h := hfail attempt (le_refl _) (by omega)
    unfold retryErr at h
    unfold retryFrom
    rcases hfn : fn attempt (retryState fn s attempt) with ⟨e, s1⟩
    rw [hfn] at h
    cases e with
    | none => exact absurd rfl h
    | some e =>
      have hs1 : s1 = retryState fn s (attempt + 1) := by
        simp [retryState, hfn]
      dsimp only
      rw [hs1, ih (attempt + 1) _ (fun i hi1 hi2 => hfail i (by omega) (by omega))]
      have e1 : attempt + 1 + remaining = attempt + (remaining + 1) := by omega
      simp only [e1, List.range'_succ, List.map_cons, List.append_assoc, List.singleton_append]

theorem retryFrom_first_success {σ : Type} (backoff : Int) (fn : Nat → σ → Option String × σ)
    (s : σ) (remaining : Nat) :
    ∀ (attempt j : Nat) (waits : List Int),
      attempt ≤ j → j ≤ attempt + remaining →
      (∀ i, attempt ≤ i → i < j → retryErr fn s i ≠ none) → retryErr fn s j = none →
      retryFrom backoff fn remaining attempt (retryState fn s attempt) waits =
        ⟨none, retryState fn s (j + 1), j + 1,
          waits ++ (List.range' attempt (j - attempt)).map
            (fun i => wrapInt (backoff * wrapInt (2 ^ i)))⟩ := by
  induction remaining with
  | zero =>
    intro attempt j waits h1 h2 _ hj
    have hja : j = attempt := by omega
    subst hja
    unfold retryErr at hj
    unfold retryFrom
    rcases hfn : fn j (retryState fn s j) with ⟨e, s1⟩
    rw [hfn] at hj
    simp only at hj
    subst hj
    simp [retryState, hfn]
  | succ remaining ih =>
    intro attempt j waits h1 h2 hfail hj
    unfold retryFrom
    rcases hfn : fn attempt (retryState fn s attempt) with ⟨e, s1⟩
    by_cases hja : j = attempt
    · subst hja
      unfold retryErr at hj
      rw [hfn] at hj
      simp only at hj
      subst hj
      simp [retryState, hfn]
    · have h := hfail attempt (le_refl _) (by omega)
      unfold retryErr at h
      rw [hfn] at h
      cases e with
      | none => exact absurd rfl h
      | some e =>
        have hs1 : s1 = retryState fn s (attempt + 1) := by
          simp [retryState, hfn]
        dsimp only
        rw [hs1, ih (attempt + 1) j _ (by omega) (by omega)
          (fun i hi1 hi2 => hfail i (by omega) hi2) hj]
        have e1 : j - attempt = (j - (attempt + 1)) + 1 := by omega
        simp only [e1, List.range'_succ, List.map_cons, List.append_assoc,
          List.singleton_append]

theorem retry_cases {σ : Type} (max backoff : Int) (fn : Nat → σ → Option String × σ) (s : σ)
    (hmax : 0 ≤ max) :
    (∃ j, j ≤ max.toNat ∧ (∀ i, i < j → retryErr fn s i ≠ none) ∧ retryErr fn s j = none ∧
      Retry max backoff fn s =
        ⟨none, retryState fn s (j + 1), j + 1,
          (List.range j).map (fun i => wrapInt (backoff * wrapInt (2 ^ i)))⟩) ∨
    ((∀ i, i ≤ max.toNat → retryErr fn s i ≠ none) ∧
      Retry max backoff fn s =
        ⟨retryErr fn s max.toNat, retryState fn s (max.toNat + 1), max.toNat + 1,
          (List.range max.toNat).map (fun i => wrapInt (backoff * wrapInt (2 ^ i)))⟩) := by
  have hnot : ¬ max < 0 := by omega
  unfold Retry
  rw [if_neg hnot]
  by_cases hall : ∀ i, i ≤ max.toNat → retryErr fn s i ≠ none
  · right
    refine ⟨hall, ?_⟩
    have h := retryFrom_all_fail backoff fn s max.toNat 0 []
      (fun i _ hi => hall i (by omega))
    have h0 : retryState fn s 0 = s := rfl
    rw [h0] at h
    simp only [Nat.zero_add, List.nil_append] at h
    rw [h, List.range_eq_range']
  · left
    have hex : ∃ j, j ≤ max.toNat ∧ retryErr fn s j = none := by
      by_contra hcon
      apply hall
      intro i hi hnone
      exact hcon ⟨i, hi, hnone⟩
    classical
    refine ⟨Nat.find hex, (Nat.find_spec hex).1, ?_, (Nat.find_spec hex).2, ?_⟩
    · intro i hi hnone
      have hle : i ≤ max.toNat := le_trans (le_of_lt hi) (Nat.find_spec hex).1
      exact Nat.find_min hex hi ⟨hle, hnone⟩
    · have h := retryFrom_first_success backoff fn s max.toNat 0 (Nat.find hex) []
        (Nat.zero_le _) (by have := (Nat.find_spec hex).1; omega)
        (fun i _ hi hnone =>
          Nat.find_min hex hi ⟨le_trans (le_of_lt hi) (Nat.find_spec hex).1, hnone⟩)
        (Nat.find_spec hex).2
      have h0 : retryState fn s 0 = s := rfl
      rw [h0] at h
      simp only [Nat.sub_zero, List.nil_append] at h
      rw [h, List.range_eq_range']

/-- C26: for `max >= 0` and an uncancelled context, `util.Retry` invokes the
operation at least once and at most `max + 1` times; when invocation `j <= max`
is the first to return nil, there are exactly `j + 1` invocations and the result
is nil; when all of the invocations `0..max` fail, there are `max + 1` of them
and the result is the error of the last one. The wait before invocation `i + 1`
is `backoff * 2^i` in `int64` arithmetic, the exact product whenever that fits
in an `int64`. -/
theorem retry_attempts {σ : Type} (max backoff : Int) (fn : Nat → σ → Option String × σ)
    (s : σ) (hmax : 0 ≤ max) :
    1 ≤ (Retry max backoff fn s).calls ∧
    (Retry max backoff fn s).calls ≤ max.toNat + 1 ∧
    (Retry max backoff fn s).state = retryState fn s (Retry max backoff fn s).calls ∧
    (Retry max backoff fn s).waits =
      (List.range ((Retry max backoff fn s).calls - 1)).map
        (fun i => wrapInt (backoff * wrapInt (2 ^ i))) ∧
    ((∀ i, i < (Retry max backoff fn s).calls - 1 →
        -9223372036854775808 ≤ backoff * 2 ^ i ∧ backoff * 2 ^ i < 9223372036854775808) →
      (Retry max backoff fn s).waits =
        (List.range ((Retry max backoff fn s).calls - 1)).map (fun i => backoff * 2 ^ i)) ∧
    (∀ j, j ≤ max.toNat → (∀ i, i < j → retryErr fn s i ≠ none) → retryErr fn s j = none →
      (Retry max backoff fn s).calls = j + 1 ∧ (Retry max backoff fn s).err = none) ∧
    ((∀ i, i ≤ max.toNat → retryErr fn s i ≠ none) →
      (Retry max backoff fn s).calls = max.toNat + 1 ∧
      (Retry max backoff fn s).err = retryErr fn s max.toNat) := by
  have hexact : ∀ n : Nat,
      (∀ i, i < n →
        -9223372036854775808 ≤ backoff * 2 ^ i ∧ backoff * 2 ^ i < 9223372036854775808) →
      (List.range n).map (fun i => wrapInt (backoff * wrapInt (2 ^ i))) =
        (List.range n).map (fun i => backoff * 2 ^ i) := by
    intro n hn
    apply List.map_congr_left
    intro i hi
    have hi2 := hn i (List.mem_range.1 hi)
    exact retry_wait_exact backoff i hi2.1 hi2.2
  rcases retry_cases max backoff fn s hmax with ⟨j, hj, hfail, hok, hr⟩ | ⟨hfail, hr⟩
  · rw [hr]
    refine ⟨by simp, by simp; omega, rfl, by simp, ?_, ?_, ?_⟩
    · intro hfit
      simpa using hexact j (by simpa using hfit)
    · intro j2 hj2 hfail2 hok2
      have hjj : j2 = j := by
        rcases Nat.lt_trichotomy j2 j with h | h | h
        · exact absurd hok2 (hfail j2 h)
        · exact h
        · exact absurd hok (hfail2 j h)
      subst hjj
      exact ⟨rfl, rfl⟩
    · intro hall
      exact absurd hok (hall j hj)
  · rw [hr]
    refine ⟨by simp, by simp, rfl, by simp, ?_, ?_, ?_⟩
    · intro hfit
      simpa using hexact max.toNat (by simpa using hfit)
    · intro j hj _ hok
      exact absurd hok (hfail j hj)
    · intro _
      exact ⟨rfl, rfl⟩

/-- Witness for C26 (`retry_attempts`): an operation that succeeds on its third
invocation, with `max = 3` and a backoff of 500 ms. -/
theorem retry_attempts_witness :
    (Retry 3 500000000 testRetryFn 0).calls = 2 + 1 ∧
    (Retry 3 500000000 testRetryFn 0).err = none ∧
    (Retry 3 500000000 testRetryFn 0).waits = [500000000, 1000000000] :=
  ⟨((retry_attempts 3 500000000 testRetryFn 0 (by decide)).2.2.2.2.2.1 2 (by decide)
      (by decide) (by decide)).1,
    ((retry_attempts 3 500000000 testRetryFn 0 (by decide)).2.2.2.2.2.1 2 (by decide)
      (by decide) (by decide)).2, by decide⟩

theorem retry_nil_after_success {σ : Type} (max backoff : Int)
    (fn : Nat → σ → Option String × σ) (s : σ) (hmax : 0 ≤ max)
    (hnil : (Retry max backoff fn s).err = none) :
    ∃ j, j < (Retry max backoff fn s).calls ∧ retryErr fn s j = none := by
  rcases retry_cases max backoff fn s hmax with ⟨j, -, -, hok, hr⟩ | ⟨hfail, hr⟩
  · rw [hr]
    exact ⟨j, by simp, hok⟩
  · rw [hr] at hnil
    exact absurd hnil (hfail max.toNat (le_refl _))

theorem retry_negative (σ : Type) (max backoff : Int) (fn : Nat → σ → Option String × σ)
    (s : σ) (hmax : max < 0) :
    Retry max backoff fn s = ⟨none, s, 0, []⟩ := by
  unfold Retry
  rw [if_pos hmax]

/-- C30 at `max = -1`: the loop of `util.Retry` does not run, the result is nil
and the operation has not been invoked; `fetchBlockWithRetry` then returns the
zero block with a nil error although every RPC call would fail, `pushBlock`
sends the END item of a block without transactions for it, and
`fetchReceiptWithRetry` returns a nil receipt with a nil error. -/
theorem retry_negative_max_returns_nil :
    (Retry (-1) 500000000 (fun _ (n : Nat) => (some "rpc down", n + 1)) 0).err = none ∧
    (Retry (-1) 500000000 (fun _ (n : Nat) => (some "rpc down", n + 1)) 0).calls = 0 ∧
    (Retry (-1) 500000000 (fun _ (n : Nat) => (some "rpc down", n + 1)) 0).state = 0 ∧
    fetchBlockWithRetry (-1) 500000000 (fun _ block => (some "rpc down", block)) =
      (zeroBlock, none) ∧
    pushBlock testHexLib zeroBlock 42 = [⟨42, testHash 7, 0, none, true⟩] ∧
    fetchReceiptWithRetry { testEnrichConfig with RetryMax := -1 }
      (fun _ => Except.error "rpc down") = (none, none) := by
  decide

/-! ## Theorems: a tracker that waits for block `L + 1` -/

theorem advance_covered (P : Nat → Prop) (s : TrackerState) (h : CoveredInv P s)
    (hmem : s.next ∈ s.completed) : CoveredInv P (advance s) := by
  intro x hx
  simp only [advance, mem_deleteCompleted, List.mem_append, List.mem_singleton] at hx
  rcases hx with hx | hx | hx
  · exact h x (Or.inl hx.1)
  · exact h x (Or.inr hx)
  · subst hx
    exact h _ (Or.inl hmem)

theorem drain_covered (P : Nat → Prop) (save : Nat → Bool) :
    ∀ (fuel : Nat) (s : TrackerState), CoveredInv P s → CoveredInv P (drain save fuel s) := by
  intro fuel
  induction fuel with
  | zero => intro s hs; exact hs
  | succ fuel ih =>
    intro s hs
    simp only [drain]
    split_ifs with hmem hsave
    · exact ih _ (advance_covered P s hs hmem)
    · exact hs
    · exact hs

theorem trackerStep_covered (P : Nat → Prop) (save : Nat → Bool) (s : TrackerState)
    (e : TrackerInput) (hs : CoveredInv P s) (he : P e.block) :
    CoveredInv P (trackerStep save s e) := by
  cases e with
  | filtered b n =>
    simp only [trackerStep]
    split_ifs with hb
    · exact hs
    · apply drain_covered
      intro x hx
      unfold onFiltered at hx
      dsimp only at hx
      split_ifs at hx
      · simp only [mem_markCompleted] at hx
        rcases hx with (hx | hx) | hx
        · subst hx; exact he
        · exact hs x (Or.inl hx)
        · exact hs x (Or.inr hx)
      · exact hs x hx
  | ack b =>
    simp only [trackerStep]
    split_ifs with hb
    · exact hs
    · apply drain_covered
      intro x hx
      unfold onAck at hx
      dsimp only at hx
      split_ifs at hx
      · simp only [mem_markCompleted] at hx
        rcases hx with (hx | hx) | hx
        · subst hx; exact he
        · exact hs x (Or.inl hx)
        · exact hs x (Or.inr hx)
      · exact hs x hx

theorem foldl_covered (P : Nat → Prop) (save : Nat → Bool) (trace : List TrackerInput)
    (h : ∀ e ∈ trace, P e.block) :
    ∀ s : TrackerState, CoveredInv P s → CoveredInv P (trace.foldl (trackerStep save) s) := by
  induction trace with
  | nil => intro s hs; exact hs
  | cons e rest ih =>
    intro s hs
    exact ih (fun x hx => h x (List.mem_cons_of_mem _ hx)) _
      (trackerStep_covered P save s e hs (h e (List.mem_cons_self _ _)))

theorem drain_idle (save : Nat → Bool) (fuel : Nat) (s : TrackerState)
    (h : s.next ∉ s.completed) : drain save fuel s = s := by
  cases fuel with
  | zero => rfl
  | succ fuel => simp only [drain]; rw [if_neg h]

theorem idle_next_not_completed (L : Nat) (s : TrackerState) (h : IdleInv L s) :
    s.next ∉ s.completed := by
  intro hmem
  have h1 := h.2.2.2.2 _ hmem
  rw [h.1] at h1
  have h2 : (L + 1) % u64 ≤ L + 1 := Nat.mod_le _ _
  omega

theorem trackerStep_idle (save : Nat → Bool) (L : Nat) (s : TrackerState) (e : TrackerInput)
    (hs : IdleInv L s) (he : L + 1 < e.block) :
    IdleInv L (trackerStep save s e) ∧
      ∀ x ∈ s.completed, x ∈ (trackerStep save s e).completed := by
  obtain ⟨h1, h2, h3, h4, h5⟩ := hs
  cases e with
  | filtered b n =>
    have hb : L + 1 < b := he
    have hnle : ¬ b ≤ s.last := by rw [h2]; omega
    obtain ⟨f1, f2, f3, f4, f5⟩ := onFiltered_frame s b n
    have hidle : IdleInv L (onFiltered s b n) := by
      refine ⟨by rw [f2, h1], by rw [f1, h2], by rw [f3, h3], by rw [f4, h4], ?_⟩
      intro x hx
      unfold onFiltered at hx
      dsimp only at hx
      split_ifs at hx
      · rcases (mem_markCompleted _ _ _).1 hx with hx | hx
        · subst hx; exact hb
        · exact h5 x hx
      · exact h5 x hx
    simp only [trackerStep]
    rw [if_neg hnle, drain_idle save _ _ (idle_next_not_completed L _ hidle)]
    exact ⟨hidle, f5⟩
  | ack b =>
    have hb : L + 1 < b := he
    have hnle : ¬ b ≤ s.last := by rw [h2]; omega
    obtain ⟨f1, f2, f3, f4, f5⟩ := onAck_frame s b
    have hidle : IdleInv L (onAck s b) := by
      refine ⟨by rw [f2, h1], by rw [f1, h2], by rw [f3, h3], by rw [f4, h4], ?_⟩
      intro x hx
      unfold onAck at hx
      dsimp only at hx
      split_ifs at hx
      · rcases (mem_markCompleted _ _ _).1 hx with hx | hx
        · subst hx; exact hb
        · exact h5 x hx
      · exact h5 x hx
    simp only [trackerStep]
    rw [if_neg hnle, drain_idle save _ _ (idle_next_not_completed L _ hidle)]
    exact ⟨hidle, f5⟩

theorem foldl_idle (save : Nat → Bool) (L : Nat) (trace : List TrackerInput)
    (h : ∀ e ∈ trace, L + 1 < e.block) :
    ∀ s : TrackerState, IdleInv L s →
      IdleInv L (trace.foldl (trackerStep save) s) ∧
        ∀ x ∈ s.completed, x ∈ (trace.foldl (trackerStep save) s).completed := by
  induction trace with
  | nil => intro s hs; exact ⟨hs, fun x hx => hx⟩
  | cons e rest ih =>
    intro s hs
    obtain ⟨h1, h2⟩ := trackerStep_idle save L s e hs (h e (List.mem_cons_self _ _))
    obtain ⟨h3, h4⟩ := ih (fun x hx => h x (List.mem_cons_of_mem _ hx)) _ h1
    exact ⟨h3, fun x hx => h4 x (h2 x hx)⟩

theorem idle_init (L : Nat) : IdleInv L (TrackerState.init L) :=
  ⟨rfl, rfl, rfl, rfl, fun x hx => by simp [TrackerState.init] at hx⟩

/-- C28: in a run from checkpoint `L`, a persisted checkpoint `B` comes with
every block of `(L, B]` persisted before it, each of them the subject of an
input of the trace (a block is marked completed only by an input that concerns
it). Hence a trace whose inputs all concern blocks above `L + 1` persists
nothing: `cp.Save` is never called, `last` stays `L`, and the set of completed
blocks only grows along the trace. Such traces are what the reader leads to on
a fresh start: with checkpoint 0 and a computed start block above 1 every
number it sends is above 1. -/
theorem fresh_start_never_persists (save : Nat → Bool) (L : Nat)
    (trace : List TrackerInput) :
    (∀ B ∈ (runTracker save L trace).persisted, ∀ b, L < b → b ≤ B →
      b ∈ (runTracker save L trace).persisted ∧ ∃ e ∈ trace, e.block = b) ∧
    ((∀ e ∈ trace, L + 1 < e.block) →
      (runTracker save L trace).persisted = [] ∧
      (runTracker save L trace).saveCalls = 0 ∧
      (runTracker save L trace).last = L ∧
      ∀ pre post, trace = pre ++ post →
        ∀ x ∈ (runTracker save L pre).completed, x ∈ (runTracker save L trace).completed) ∧
    (∀ (cfg : IngestionConfig) (head start : Nat) (updates : List (Option Nat)),
      readerStart cfg 0 (Except.ok head) = some start → 1 < start →
      ∀ p ∈ (readerLoop cfg.Confirmations start head updates).emitted, 0 + 1 < p.1) := by
  refine ⟨?_, ?_, ?_⟩
  · intro B hB b hLb hbB
    obtain ⟨⟨k, hk, -⟩, -, -⟩ := runTracker_inv save L trace
    have hcov : CoveredInv (fun x => ∃ e ∈ trace, e.block = x) (runTracker save L trace) :=
      foldl_covered _ save trace (fun e he => ⟨e, he, rfl⟩) _
        (fun x hx => by simp [TrackerState.init] at hx)
    have hmem : b ∈ (runTracker save L trace).persisted := by
      rw [hk] at hB ⊢
      rw [List.mem_range'_1] at hB ⊢
      omega
    exact ⟨hmem, hcov b (Or.inr hmem)⟩
  · intro hblocks
    obtain ⟨⟨-, h2, h3, h4, -⟩, -⟩ := foldl_idle save L trace hblocks _ (idle_init L)
    refine ⟨h3, h4, h2, ?_⟩
    intro pre post hsplit x hx
    subst hsplit
    have hpre : ∀ e ∈ pre, L + 1 < e.block :=
      fun e he => hblocks e (List.mem_append_left _ he)
    have hpost : ∀ e ∈ post, L + 1 < e.block :=
      fun e he => hblocks e (List.mem_append_right _ he)
    obtain ⟨hidle, -⟩ := foldl_idle save L pre hpre _ (idle_init L)
    have := (foldl_idle save L post hpost _ hidle).2 x hx
    unfold runTracker
    rw [List.foldl_append]
    exact this
  · intro cfg head start updates _ hstart p hp
    obtain ⟨⟨k, hk, -⟩, -⟩ := readerLoop_inv cfg.Confirmations start head updates
    have hmem : p.1 ∈ (readerLoop cfg.Confirmations start head updates).emitted.map Prod.fst :=
      List.mem_map_of_mem _ hp
    rw [hk, List.mem_range'_1] at hmem
    omega

/-- Witness for C28 (`fresh_start_never_persists`): from checkpoint 0 the blocks
5 and 6 complete and nothing is persisted. -/
theorem fresh_start_never_persists_witness :
    ((runTracker (fun _ => true) 0
        [TrackerInput.filtered 5 0, TrackerInput.filtered 6 1, TrackerInput.ack 6]).persisted =
        [] ∧
      (runTracker (fun _ => true) 0
        [TrackerInput.filtered 5 0, TrackerInput.filtered 6 1, TrackerInput.ack 6]).saveCalls =
        0 ∧
      (runTracker (fun _ => true) 0
        [TrackerInput.filtered 5 0, TrackerInput.filtered 6 1, TrackerInput.ack 6]).last = 0 ∧
      ∀ pre post,
        [TrackerInput.filtered 5 0, TrackerInput.filtered 6 1, TrackerInput.ack 6] =
          pre ++ post →
        ∀ x ∈ (runTracker (fun _ => true) 0 pre).completed,
          x ∈ (runTracker (fun _ => true) 0
            [TrackerInput.filtered 5 0, TrackerInput.filtered 6 1,
              TrackerInput.ack 6]).completed) ∧
    (runTracker (fun _ => true) 0
      [TrackerInput.filtered 5 0, TrackerInput.filtered 6 1, TrackerInput.ack 6]).completed =
      [6, 5] :=
  ⟨(fresh_start_never_persists (fun _ => true) 0
      [TrackerInput.filtered 5 0, TrackerInput.filtered 6 1, TrackerInput.ack 6]).2.1
      (by decide), by decide⟩

/-! ## Theorems: gas multiplier -/

theorem bitLenAux_le_iff (fuel : Nat) :
    ∀ n k : Nat, n < 2 ^ fuel → (bitLenAux fuel n ≤ k ↔ n < 2 ^ k) := by
  induction fuel with
  | zero =>
    intro n k hn
    have h0 : n = 0 := by simpa using hn
    subst h0
    simp [bitLenAux]
  | succ fuel ih =>
    intro n k hn
    unfold bitLenAux
    by_cases h0 : n = 0
    · subst h0
      simp
    · rw [if_neg h0]
      have hhalf : n / 2 < 2 ^ fuel := by
        rw [Nat.div_lt_iff_lt_mul (by decide)]
        rw [pow_succ] at hn
        exact hn
      cases k with
      | zero =>
        constructor
        · intro h; omega
        · intro h
          have : n < 1 := by simpa using h
          omega
      | succ k =>
        rw [Nat.succ_le_succ_iff, ih (n / 2) k hhalf, Nat.div_lt_iff_lt_mul (by decide),
          pow_succ]

theorem bitLen_le_iff (n k : Nat) : bitLen n ≤ k ↔ n < 2 ^ k :=
  bitLenAux_le_iff n n k (Nat.lt_two_pow n)

theorem lt_two_pow_bitLen (n : Nat) : n < 2 ^ bitLen n :=
  (bitLen_le_iff n (bitLen n)).1 (le_refl _)

theorem bitLen_pos (n : Nat) (h : n ≠ 0) : 1 ≤ bitLen n := by
  by_contra hlt
  have h0 : bitLen n ≤ 0 := by omega
  have := (bitLen_le_iff n 0).1 h0
  simp at this
  exact h this

theorem truncVal_zero (e : Int) : truncVal 0 e = 0 := by
  unfold truncVal
  split_ifs <;> simp

theorem truncVal_lt (P : Nat) (e : Int) (hfit : (bitLen P : Int) + e ≤ 53) :
    truncVal P e < 2 ^ 53 := by
  have hlt := lt_two_pow_bitLen P
  unfold truncVal
  by_cases he : 0 ≤ e
  · rw [if_pos he]
    obtain ⟨n, rfl⟩ := Int.eq_ofNat_of_zero_le he
    simp only [Int.toNat_ofNat]
    have hle : bitLen P + n ≤ 53 := by omega
    calc P * 2 ^ n < 2 ^ bitLen P * 2 ^ n := Nat.mul_lt_mul_of_pos_right hlt (by positivity)
      _ = 2 ^ (bitLen P + n) := (pow_add 2 _ _).symm
      _ ≤ 2 ^ 53 := Nat.pow_le_pow_right (by decide) hle
  · rw [if_neg he]
    have hle : bitLen P ≤ 53 + (-e).toNat := by omega
    rw [Nat.div_lt_iff_lt_mul (by positivity)]
    calc P < 2 ^ bitLen P := hlt
      _ ≤ 2 ^ (53 + (-e).toNat) := Nat.pow_le_pow_right (by decide) hle
      _ = 2 ^ 53 * 2 ^ (-e).toNat := pow_add 2 _ _

theorem toUint64_finite (impl : Float64 → Nat) (m : Nat) (e : Int) (h : truncVal m e < u64) :
    Float64.toUint64 impl (Float64.finite false m e) = truncVal m e := by
  simp [Float64.toUint64, h]

theorem succ_div_cases (q d : Nat) (hd : 0 < d) :
    (q + 1) / d = q / d ∨ (q + 1) / d = q / d + 1 := by
  have h1 : q / d ≤ (q + 1) / d := Nat.div_le_div_right (Nat.le_succ q)
  have h2 : (q + 1) / d ≤ (q + d) / d := Nat.div_le_div_right (by omega)
  rw [Nat.add_div_right q hd] at h2
  omega

theorem toUint64_round (impl : Float64 → Nat) (P : Nat) (e : Int)
    (hfit : (bitLen P : Int) + e ≤ 53) :
    Float64.toUint64 impl (roundNearestEven false P e) = truncVal P e ∨
    Float64.toUint64 impl (roundNearestEven false P e) = truncVal P e + 1 := by
  by_cases hP : P = 0
  · subst hP
    left
    simp [roundNearestEven, Float64.toUint64, truncVal_zero]
  · have hbits := bitLen_pos P hP
    have hlt := lt_two_pow_bitLen P
    have ht53 := truncVal_lt P e hfit
    unfold roundNearestEven
    rw [if_neg hP]
    dsimp only
    by_cases hex : max (e + (bitLen P : Int) - 53) (-1074) ≤ e
    · rw [if_pos hex, if_neg (by omega)]
      left
      exact toUint64_finite impl P e (lt_trans ht53 (by decide))
    · rw [if_neg hex]
      -- the rounding branch: the new exponent is at most 0 and above `e`
      generalize hE : max (e + (bitLen P : Int) - 53) (-1074) = E at hex
      have hE0 : E ≤ 0 := by omega
      have hEe : e < E := by omega
      have hElow : e + (bitLen P : Int) - 53 ≤ E := by omega
      obtain ⟨k, hk⟩ : ∃ k : Nat, (E - e).toNat = k := ⟨_, rfl⟩
      obtain ⟨j, hj⟩ : ∃ j : Nat, (-E).toNat = j := ⟨_, rfl⟩
      have hkj : (-e).toNat = k + j := by omega
      have hk1 : 1 ≤ k := by omega
      rw [hk]
      have hq53 : P / 2 ^ k < 2 ^ 53 := by
        rw [Nat.div_lt_iff_lt_mul (by positivity)]
        have hle : bitLen P ≤ 53 + k := by omega
        calc P < 2 ^ bitLen P := hlt
          _ ≤ 2 ^ (53 + k) := Nat.pow_le_pow_right (by decide) hle
          _ = 2 ^ 53 * 2 ^ k := pow_add 2 _ _
      have htrunc : truncVal P e = P / 2 ^ k / 2 ^ j := by
        unfold truncVal
        rw [if_neg (by omega), hkj, pow_add, Nat.div_div_eq_div_mul]
      have hval : ∀ m : Nat, truncVal m E = m / 2 ^ j := by
        intro m
        unfold truncVal
        by_cases h0 : 0 ≤ E
        · have hE00 : E = 0 := by omega
          have hj0 : j = 0 := by omega
          rw [if_pos h0, hE00, hj0]
          simp
        · rw [if_neg h0, hj]
      generalize hm : (if 2 ^ (k - 1) < P % 2 ^ k ∨ P % 2 ^ k = 2 ^ (k - 1) ∧ P / 2 ^ k % 2 = 1
        then P / 2 ^ k + 1 else P / 2 ^ k) = m
      have hmq : m = P / 2 ^ k ∨ m = P / 2 ^ k + 1 := by
        rw [← hm]
        split_ifs
        · right; rfl
        · left; rfl
      by_cases hm0 : m = 0
      · rw [if_pos hm0]
        left
        have hq0 : P / 2 ^ k = 0 := by
          rcases hmq with h | h
          · rw [← h]; exact hm0
          · rw [hm0] at h; exact absurd h.symm (Nat.succ_ne_zero _)
        rw [htrunc, hq0]
        simp [Float64.toUint64, truncVal_zero]
      · rw [if_neg hm0]
        have hm53 : m ≤ 2 ^ 53 := by
          rcases hmq with h | h
          · rw [h]; exact le_of_lt hq53
          · rw [h]; exact hq53
        have hbm : bitLen m ≤ 54 := by
          rw [bitLen_le_iff]
          calc m ≤ 2 ^ 53 := hm53
            _ < 2 ^ 54 := by decide
        rw [if_neg (by omega)]
        have hdiv : m / 2 ^ j ≤ m := Nat.div_le_self _ _
        have hlt64 : truncVal m E < u64 := by
          rw [hval]
          have : (2 : Nat) ^ 53 < u64 := by decide
          omega
        rw [toUint64_finite impl m E hlt64, hval, htrunc]
        rcases hmq with h | h
        · left; rw [h]
        · rw [h]
          rcases succ_div_cases (P / 2 ^ k) (2 ^ j) (by positivity) with h2 | h2
          · left; exact h2
          · right; exact h2

theorem toUint64_round_exact (impl : Float64 → Nat) (P : Nat) (e : Int)
    (hfit : (bitLen P : Int) + e ≤ 53) (hb : bitLen P ≤ 53) (he : -1074 ≤ e) :
    Float64.toUint64 impl (roundNearestEven false P e) = truncVal P e := by
  by_cases hP : P = 0
  · subst hP
    simp [roundNearestEven, Float64.toUint64, truncVal_zero]
  · have ht53 := truncVal_lt P e hfit
    unfold roundNearestEven
    rw [if_neg hP]
    dsimp only
    rw [if_pos (by omega), if_neg (by omega)]
    exact toUint64_finite impl P e (lt_trans ht53 (by decide))

theorem ofUint64_exact (gas : Nat) (h : gas < 2 ^ 53) :
    Float64.ofUint64 gas = Float64.finite false gas 0 := by
  unfold Float64.ofUint64 roundNearestEven
  by_cases h0 : gas = 0
  · subst h0; simp
  · rw [if_neg h0]
    dsimp only
    have hb : bitLen gas ≤ 53 := (bitLen_le_iff gas 53).2 h
    rw [if_pos (by omega), if_neg (by omega)]

theorem truncVal_floor (P : Nat) (e : Int) :
    ((truncVal P e : Nat) : Int) = ⌊(P : Rat) * (2 : Rat) ^ e⌋ := by
  unfold truncVal
  by_cases he : 0 ≤ e
  · rw [if_pos he]
    obtain ⟨n, rfl⟩ := Int.eq_ofNat_of_zero_le he
    simp only [Int.toNat_ofNat]
    have : (P : Rat) * (2 : Rat) ^ ((n : Nat) : Int) = ((P * 2 ^ n : Nat) : Rat) := by
      push_cast
      rw [zpow_natCast]
    rw [this, Int.floor_natCast]
  · rw [if_neg he]
    have hn : e = -(((-e).toNat : Nat) : Int) := by omega
    generalize (-e).toNat = n at hn
    subst hn
    have : (P : Rat) * (2 : Rat) ^ (-((n : Nat) : Int)) = (P : Rat) / ((2 ^ n : Nat) : Rat) := by
      push_cast
      rw [zpow_neg, zpow_natCast, div_eq_mul_inv]
    rw [this, Rat.floor_natCast_div_natCast]
    push_cast
    rfl

theorem bitLen_fit (P : Nat) (e : Int) (hP : P ≠ 0)
    (h : (P : Rat) * (2 : Rat) ^ e < 2 ^ 53) : (bitLen P : Int) + e ≤ 53 := by
  have hpos : (0 : Rat) < (2 : Rat) ^ e := zpow_pos (by norm_num) e
  have hP1 : (1 : Rat) ≤ (P : Rat) := by exact_mod_cast Nat.one_le_iff_ne_zero.2 hP
  -- the exponent is below 53
  have he : e < 53 := by
    by_contra hcon
    have h53 : (53 : Int) ≤ e := by omega
    have h1 : (2 : Rat) ^ (53 : Int) ≤ (2 : Rat) ^ e := zpow_le_zpow_right₀ (by norm_num) h53
    have h2 : (2 : Rat) ^ e ≤ (P : Rat) * (2 : Rat) ^ e := le_mul_of_one_le_left hpos.le hP1
    have h3 : (2 : Rat) ^ (53 : Int) = 2 ^ 53 := by norm_num
    linarith
  obtain ⟨K, hK⟩ : ∃ K : Nat, (K : Int) = 53 - e := ⟨(53 - e).toNat, by omega⟩
  have hlt : P < 2 ^ K := by
    have h1 : (P : Rat) < (2 : Rat) ^ (53 - e) := by
      rw [zpow_sub₀ (by norm_num : (2 : Rat) ≠ 0), lt_div_iff₀ hpos]
      have h3 : (2 : Rat) ^ (53 : Int) = 2 ^ 53 := by norm_num
      rw [h3]
      exact h
    rw [← hK, zpow_natCast] at h1
    exact_mod_cast h1
  have := (bitLen_le_iff P K).2 hlt
  omega

theorem applyGasMultiplier_ge (impl : Float64 → Nat) (gas : Nat) (mult : Float64) :
    gas ≤ applyGasMultiplier impl gas mult := by
  unfold applyGasMultiplier
  dsimp only
  split_ifs <;> omega

theorem applyGasMultiplier_product (impl : Float64 → Nat) (gas mant : Nat) (exp : Int)
    (hone : (1 : Rat) ≤ (Float64.finite false mant exp).toRat)
    (hfit : (gas : Rat) * (Float64.finite false mant exp).toRat < 2 ^ 53) :
    (((applyGasMultiplier impl gas (Float64.finite false mant exp) : Nat) : Int) =
        ⌊(gas : Rat) * (Float64.finite false mant exp).toRat⌋ ∨
      ((applyGasMultiplier impl gas (Float64.finite false mant exp) : Nat) : Int) =
        ⌊(gas : Rat) * (Float64.finite false mant exp).toRat⌋ + 1) ∧
    (gas * mant < 2 ^ 53 →
      ((applyGasMultiplier impl gas (Float64.finite false mant exp) : Nat) : Int) =
        ⌊(gas : Rat) * (Float64.finite false mant exp).toRat⌋) := by
  have hrat : (Float64.finite false mant exp).toRat = (mant : Rat) * (2 : Rat) ^ exp := by
    simp [Float64.toRat]
  rw [hrat] at hone hfit ⊢
  have hpos : (0 : Rat) < (2 : Rat) ^ exp := zpow_pos (by norm_num) exp
  have hm0 : mant ≠ 0 := by
    intro h
    rw [h] at hone
    norm_num at hone
  have hnle : (Float64.finite false mant exp).leZero = false := by
    simp [Float64.leZero, hm0]
  have hgas_le : (gas : Rat) ≤ (gas : Rat) * ((mant : Rat) * (2 : Rat) ^ exp) :=
    le_mul_of_one_le_right (by positivity) hone
  have hgas53 : gas < 2 ^ 53 := by
    have : (gas : Rat) < 2 ^ 53 := lt_of_le_of_lt hgas_le hfit
    exact_mod_cast this
  have hassoc : (gas : Rat) * ((mant : Rat) * (2 : Rat) ^ exp) =
      ((gas * mant : Nat) : Rat) * (2 : Rat) ^ exp := by
    push_cast
    ring
  have hfloor : ((truncVal (gas * mant) exp : Nat) : Int) =
      ⌊(gas : Rat) * ((mant : Rat) * (2 : Rat) ^ exp)⌋ := by
    rw [hassoc]
    exact truncVal_floor (gas * mant) exp
  have hge : gas ≤ truncVal (gas * mant) exp := by
    have h1 : ((gas : Nat) : Int) ≤ ⌊(gas : Rat) * ((mant : Rat) * (2 : Rat) ^ exp)⌋ := by
      rw [Int.le_floor]
      exact_mod_cast hgas_le
    rw [← hfloor] at h1
    exact_mod_cast h1
  have hmul : (Float64.ofUint64 gas).mul (Float64.finite false mant exp) =
      roundNearestEven false (gas * mant) exp := by
    rw [ofUint64_exact gas hgas53]
    simp [Float64.mul]
  have happ : ∀ a : Nat, gas ≤ a →
      Float64.toUint64 impl (roundNearestEven false (gas * mant) exp) = a →
      applyGasMultiplier impl gas (Float64.finite false mant exp) = a := by
    intro a ha hadj
    unfold applyGasMultiplier
    rw [hnle]
    simp only [Bool.false_eq_true, if_false]
    rw [hmul, hadj, if_neg (by omega)]
  by_cases hg0 : gas = 0
  · subst hg0
    have h0 : applyGasMultiplier impl 0 (Float64.finite false mant exp) = 0 := by
      apply happ 0 (le_refl _)
      simp [roundNearestEven, Float64.toUint64, truncVal_zero]
    rw [h0]
    simp
  · have hP : gas * mant ≠ 0 := Nat.mul_ne_zero hg0 hm0
    have hbits : (bitLen (gas * mant) : Int) + exp ≤ 53 := by
      apply bitLen_fit (gas * mant) exp hP
      rw [← hassoc]
      exact hfit
    constructor
    · rcases toUint64_round impl (gas * mant) exp hbits with h | h
      · left
        rw [happ _ hge h, hfloor]
      · right
        rw [happ _ (by omega) h, ← hfloor]
        push_cast
        rfl
    · intro hexact
      have hb : bitLen (gas * mant) ≤ 53 := (bitLen_le_iff _ 53).2 hexact
      have hexp : -1074 ≤ exp := by
        by_contra hcon
        have hlt : exp < -1074 := by omega
        have hmant53 : mant < 2 ^ 53 := by
          have : mant ≤ gas * mant := Nat.le_mul_of_pos_left mant (Nat.pos_of_ne_zero hg0)
          omega
        have h1 : (mant : Rat) < 2 ^ 53 := by exact_mod_cast hmant53
        have h2 : (2 : Rat) ^ exp ≤ (2 : Rat) ^ (-53 : Int) :=
          zpow_le_zpow_right₀ (by norm_num) (by omega)
        have h3 : (mant : Rat) * (2 : Rat) ^ exp < 2 ^ 53 * (2 : Rat) ^ (-53 : Int) :=
          mul_lt_mul h1 h2 hpos (by positivity)
        have h4 : (2 : Rat) ^ 53 * (2 : Rat) ^ (-53 : Int) = 1 := by norm_num
        linarith
      rw [happ _ hge (toUint64_round_exact impl (gas * mant) exp hbits hb hexp), hfloor]

/-- C25: `applyGasMultiplier(g, m)` is never below `g`, for every `float64`
multiplier (NaN and the infinities included) and whatever an out-of-range
conversion gives; it is `g` when `m <= 0`. For a finite `m >= 1` with
`g * m < 2^53`, the result is `floor(g * m)` or `floor(g * m) + 1`, the
`float64` product being rounded to nearest before its fraction is cut; it is
`floor(g * m)` whenever the product is exact (`g * mantissa(m) < 2^53`). -/
theorem applyGasMultiplier_bounds (impl : Float64 → Nat) (gas : Nat) (mult : Float64) :
    gas ≤ applyGasMultiplier impl gas mult ∧
    (mult.leZero = true → applyGasMultiplier impl gas mult = gas) ∧
    (∀ (mant : Nat) (exp : Int), mult = Float64.finite false mant exp →
      (1 : Rat) ≤ mult.toRat → (gas : Rat) * mult.toRat < 2 ^ 53 →
      (((applyGasMultiplier impl gas mult : Nat) : Int) = ⌊(gas : Rat) * mult.toRat⌋ ∨
        ((applyGasMultiplier impl gas mult : Nat) : Int) = ⌊(gas : Rat) * mult.toRat⌋ + 1) ∧
      (gas * mant < 2 ^ 53 →
        ((applyGasMultiplier impl gas mult : Nat) : Int) = ⌊(gas : Rat) * mult.toRat⌋)) := by
  refine ⟨applyGasMultiplier_ge impl gas mult, ?_, ?_⟩
  · intro h
    unfold applyGasMultiplier
    rw [if_pos h]
  · intro mant exp hm hone hfit
    subst hm
    exact applyGasMultiplier_product impl gas mant exp hone hfit

theorem float64_1_5_toRat : float64_1_5.toRat = 3 / 2 := by
  simp [float64_1_5, Float64.toRat]
  norm_num

theorem float64_1_2_toRat : float64_1_2.toRat = 5404319552844595 / 4503599627370496 := by
  simp [float64_1_2, Float64.toRat]
  norm_num

/-- C25, counterexample: with the multiplier 1.5 and the estimate
`2^53 - 3 = 9007199254740989`, both exact as `float64`, the product
`13510798882111483.5` fits in 64 bits and its floor is `13510798882111483`, but
`applyGasMultiplier` returns `13510798882111484`: the `float64` product is
rounded to the nearest multiple of 2. With the `float64` of the literal `1.2`
(the default multiplier, below 6/5) and the estimate 21000 the exact product
is below 25200 and its floor is 25199, but the result is 25200. -/
theorem applyGasMultiplier_not_floor :
    applyGasMultiplier implAmd64 9007199254740989 float64_1_5 = 13510798882111484 ∧
    ⌊((9007199254740989 : Nat) : Rat) * float64_1_5.toRat⌋ = 13510798882111483 ∧
    (1 : Rat) ≤ float64_1_5.toRat ∧
    ((9007199254740989 : Nat) : Rat) * float64_1_5.toRat < 2 ^ 64 ∧
    applyGasMultiplier implAmd64 21000 float64_1_2 = 25200 ∧
    ⌊((21000 : Nat) : Rat) * float64_1_2.toRat⌋ = 25199 ∧
    (1 : Rat) ≤ float64_1_2.toRat := by
  refine ⟨by decide, ?_, ?_, ?_, by decide, ?_, ?_⟩
  · rw [float64_1_5_toRat, Int.floor_eq_iff]
    norm_num
  · rw [float64_1_5_toRat]; norm_num
  · rw [float64_1_5_toRat]; norm_num
  · rw [float64_1_2_toRat, Int.floor_eq_iff]
    norm_num
  · rw [float64_1_2_toRat]; norm_num

/-- Witness for C25 (`applyGasMultiplier_bounds`): the estimate 21000 with the
default multiplier 1.2, and with the multiplier 1.5. -/
theorem applyGasMultiplier_bounds_witness :
    ((((applyGasMultiplier implAmd64 21000 float64_1_2 : Nat) : Int) =
        ⌊((21000 : Nat) : Rat) * float64_1_2.toRat⌋ ∨
      ((applyGasMultiplier implAmd64 21000 float64_1_2 : Nat) : Int) =
        ⌊((21000 : Nat) : Rat) * float64_1_2.toRat⌋ + 1) ∧
      (21000 * 5404319552844595 < 2 ^ 53 →
        ((applyGasMultiplier implAmd64 21000 float64_1_2 : Nat) : Int) =
          ⌊((21000 : Nat) : Rat) * float64_1_2.toRat⌋)) ∧
    applyGasMultiplier implAmd64 21000 float64_1_5 = 31500 :=
  ⟨(applyGasMultiplier_bounds implAmd64 21000 float64_1_2).2.2 5404319552844595 (-52) rfl
      (by rw [float64_1_2_toRat]; norm_num) (by rw [float64_1_2_toRat]; norm_num),
    by decide⟩

/-! ## Theorems: a failed gas estimate and the nonce -/

theorem next_ok_caches (m : NonceManager) (a : Address) (n : Nat)
    (h : (m.Next a).1 = Except.ok n) :
    (m.Next a).2.next a = some ((n + 1) % u64) ∧
    (∃ c, (m.Next a).2.client = some c) ∧ (∀ v, m.next a = some v → v = n) := by
  unfold NonceManager.Next at h ⊢
  cases hc : m.client with
  | none => simp [hc] at h
  | some c =>
    simp only [hc] at h ⊢
    cases hv : m.next a with
    | some v =>
      simp only [hv] at h ⊢
      have hvn : v = n := by simpa using h
      subst hvn
      simp [setAddr]
    | none =>
      simp only [hv] at h ⊢
      cases hp : c.PendingNonceAt a (m.queried a) with
      | error e => simp [hp] at h
      | ok p =>
        simp only [hp] at h ⊢
        have hpn : p = n := by simpa using h
        subst hpn
        simp [setAddr]

theorem fees_frame (a : AutoBuilder) (env : BuildEnv) :
    (a.fees env).2.nonce = a.nonce ∧ (a.fees env).2.client = a.client ∧
    (a.fees env).2.builder = a.builder ∧ (a.fees env).2.cfg = a.cfg := by
  unfold AutoBuilder.fees
  cases a.oracle <;> exact ⟨rfl, rfl, rfl, rfl⟩

theorem buildTx_estimate_fails (a : AutoBuilder) (env : BuildEnv) (sender toAddr : Address)
    (value : Option Int) (data : List Byte) (fees : FeeParams) (m : NonceManager) (n : Nat)
    (e : String)
    (hfees : (a.fees env).1 = Except.ok fees) (hm : a.nonce = some m)
    (hn : (m.Next sender).1 = Except.ok n) (hc : a.client ≠ none)
    (hest : ∀ msg, env.EstimateGas msg = Except.error e) :
    a.buildTx env sender toAddr value data =
      (some (Except.error ("estimate gas failed: " ++ e)),
        { (a.fees env).2 with nonce := some (m.Next sender).2 }) := by
  obtain ⟨f1, f2, -, -⟩ := fees_frame a env
  unfold AutoBuilder.buildTx
  rcases hf : a.fees env with ⟨r, a1⟩
  rw [hf] at hfees f1 f2
  simp only at hfees f1 f2
  subst hfees
  dsimp only
  have hnn : a1.nextNonce env sender =
      (some (Except.ok n), { a1 with nonce := some (m.Next sender).2 }) := by
    unfold AutoBuilder.nextNonce
    rw [f1, hm]
    simp only [hn]
  rw [hnn]
  dsimp only
  have hcl : ∃ c, a1.client = some c := by
    rw [f2]
    cases hcc : a.client with
    | none => exact absurd hcc hc
    | some c => exact ⟨c, rfl⟩
  obtain ⟨c, hcc⟩ := hcl
  unfold AutoBuilder.estimateGas
  simp only [hcc, hest]

theorem buildDynamicTx_ok_nonce (chainID : Option Int) (toAddr : Address)
    (value : Option Int) (data : List Byte) (p : BuildParams) (tx : Transaction)
    (h : buildDynamicTx chainID toAddr value data p = Except.ok tx) : tx.Nonce = p.Nonce := by
  obtain ⟨nonce, gasLimit, ⟨maxFee, maxPrio⟩⟩ := p
  unfold buildDynamicTx at h
  cases chainID with
  | none => simp at h
  | some cid =>
    cases value with
    | none => simp at h
    | some val =>
      cases maxFee with
      | none => dsimp only at h; split_ifs at h
      | some f =>
        cases maxPrio with
        | none => dsimp only at h; split_ifs at h
        | some t =>
          dsimp only at h
          split_ifs at h
          simp only [Except.ok.injEq] at h
          rw [← h]

theorem buildTx_nonce (a : AutoBuilder) (env : BuildEnv) (sender toAddr : Address)
    (value : Option Int) (data : List Byte) (m : NonceManager) (c : ChainClient) (v : Nat)
    (tx : Transaction)
    (hm : a.nonce = some m) (hc : m.client = some c) (hv : m.next sender = some v)
    (hok : (a.buildTx env sender toAddr value data).1 = some (Except.ok tx)) :
    tx.Nonce = v := by
  obtain ⟨f1, -, -, -⟩ := fees_frame a env
  unfold AutoBuilder.buildTx at hok
  rcases hf : a.fees env with ⟨r, a1⟩
  rw [hf] at hok f1
  simp only at f1
  cases r with
  | error e => simp at hok
  | ok fees =>
    dsimp only at hok
    have hnn : a1.nextNonce env sender =
        (some (Except.ok v), { a1 with nonce := some (m.Next sender).2 }) := by
      unfold AutoBuilder.nextNonce
      rw [f1, hm]
      simp only [(next_cached m c sender v hc hv).1]
    rw [hnn] at hok
    dsimp only at hok
    cases hest : AutoBuilder.estimateGas { a1 with nonce := some (m.Next sender).2 } env sender
        toAddr value data fees with
    | none => rw [hest] at hok; simp at hok
    | some r2 =>
      rw [hest] at hok
      cases r2 with
      | error e => simp at hok
      | ok gasLimit =>
        dsimp only at hok
        cases hb : a1.builder with
        | none => rw [hb] at hok; simp at hok
        | some b =>
          rw [hb] at hok
          simp only [Option.some.injEq] at hok
          exact buildDynamicTx_ok_nonce b.ChainID toAddr value data _ tx hok

/-- C29: when `EstimateGas` fails inside `buildTx` (fees obtained, nonce
provider set and answering `n` for `from`), `buildTx` returns the
`EstimateGasError` and leaves the provider as `Next(from)` left it: no `Reset`
is called, the cached next value for `from` is `n + 1` (one above a cached
`n`), and every later successful build for `from` carries the nonce `n + 1`, so
`n` is skipped. `Service.Buy`, `Service.Sell` and `Service.Approve` return that
error without a call of `ResetNonce` and keep the advanced provider. -/
theorem estimate_failure_consumes_nonce (a : AutoBuilder) (env : BuildEnv) (sender : Address)
    (fees : FeeParams) (m : NonceManager) (n : Nat) (e : String)
    (hfees : (a.fees env).1 = Except.ok fees) (hm : a.nonce = some m)
    (hn : (m.Next sender).1 = Except.ok n) (hc : a.client ≠ none)
    (hest : ∀ msg, env.EstimateGas msg = Except.error e) :
    (∀ (toAddr : Address) (value : Option Int) (data : List Byte),
      (a.buildTx env sender toAddr value data).1 =
        some (Except.error ("estimate gas failed: " ++ e)) ∧
      (a.buildTx env sender toAddr value data).2.nonce = some (m.Next sender).2) ∧
    (m.Next sender).2.next sender = some ((n + 1) % u64) ∧
    (∀ v, m.next sender = some v → v = n) ∧
    (∀ (toAddr : Address) (value : Option Int) (data : List Byte) (env2 : BuildEnv)
        (to2 : Address) (v2 : Option Int) (d2 : List Byte) (tx : Transaction),
      ((a.buildTx env sender toAddr value data).2.buildTx env2 sender to2 v2 d2).1 =
        some (Except.ok tx) → tx.Nonce = (n + 1) % u64) ∧
    (∀ (s : Service) (senv : SendEnv) (simulate : Bool) (b : Builder) (pair : Address)
        (ethIn minOut : Int) (data : List Byte),
      s.auto = some a → a.builder = some b →
      buildBuyData (some minOut) b.deadline = Except.ok data →
      (s.Buy env senv (Except.ok (sender, pair, some ethIn, some minOut)) simulate).returned =
        some (none, some ("estimate gas failed: " ++ e)) ∧
      (s.Buy env senv (Except.ok (sender, pair, some ethIn, some minOut)) simulate).calls = [] ∧
      (s.Buy env senv (Except.ok (sender, pair, some ethIn, some minOut))
        simulate).service.auto = some (a.buildTx env sender pair (some ethIn) data).2) ∧
    (∀ (s : Service) (senv : SendEnv) (simulate : Bool) (b : Builder) (pair : Address)
        (tokenIn minRefund : Int) (data : List Byte),
      s.auto = some a → a.builder = some b →
      buildSellData (some tokenIn) (some minRefund) b.deadline = Except.ok data →
      (s.Sell env senv (Except.ok (sender, pair, some tokenIn, some minRefund))
        simulate).returned = some (none, some ("estimate gas failed: " ++ e)) ∧
      (s.Sell env senv (Except.ok (sender, pair, some tokenIn, some minRefund))
        simulate).calls = [] ∧
      (s.Sell env senv (Except.ok (sender, pair, some tokenIn, some minRefund))
        simulate).service.auto = some (a.buildTx env sender pair (some 0) data).2) ∧
    (∀ (s : Service) (senv : SendEnv) (simulate : Bool) (b : Builder)
        (spender token : Address) (amount : Int) (data : List Byte),
      s.auto = some a → a.builder = some b →
      buildApproveData spender (some amount) = Except.ok data →
      (s.Approve env senv (Except.ok (sender, spender, token, some amount))
        simulate).returned = some (none, some ("estimate gas failed: " ++ e)) ∧
      (s.Approve env senv (Except.ok (sender, spender, token, some amount))
        simulate).calls = [] ∧
      (s.Approve env senv (Except.ok (sender, spender, token, some amount))
        simulate).service.auto = some (a.buildTx env sender token (some 0) data).2) := by
  have hbuild := fun toAddr value data =>
    buildTx_estimate_fails a env sender toAddr value data fees m n e hfees hm hn hc hest
  obtain ⟨hcache, ⟨c, hcl⟩, hprev⟩ := next_ok_caches m sender n hn
  obtain ⟨cl, hcl2⟩ : ∃ cl, a.client = some cl := by
    cases hcc : a.client with
    | none => exact absurd hcc hc
    | some cl => exact ⟨cl, rfl⟩
  refine ⟨?_, hcache, hprev, ?_, ?_, ?_, ?_⟩
  · intro toAddr value data
    rw [hbuild]
    exact ⟨rfl, rfl⟩
  · intro toAddr value data env2 to2 v2 d2 tx hok
    rw [hbuild] at hok
    exact buildTx_nonce _ env2 sender to2 v2 d2 (m.Next sender).2 c ((n + 1) % u64) tx rfl hcl
      hcache hok
  · intro s senv simulate b pair ethIn minOut data ha hb hdata
    unfold Service.Buy
    simp only [ha]
    unfold AutoBuilder.BuildBuyTx
    simp only [hb, hcl2, hdata, hbuild, Service.afterBuild]
    simp
  · intro s senv simulate b pair tokenIn minRefund data ha hb hdata
    unfold Service.Sell
    simp only [ha]
    unfold AutoBuilder.BuildSellTx
    simp only [hb, hcl2, hdata, hbuild, Service.afterBuild]
    simp
  · intro s senv simulate b spender token amount data ha hb hdata
    unfold Service.Approve
    simp only [ha]
    unfold AutoBuilder.BuildApproveTx
    simp only [hb, hcl2, hdata, hbuild, Service.afterBuild]
    simp

/-- Witness for C29 (`estimate_failure_consumes_nonce`): the builder of
`testService`, whose provider holds 10 as the next nonce of `0x1111...`. -/
theorem estimate_failure_consumes_nonce_witness :
    ((testAuto.buildTx testEnvEstimateFails (testAddress 0x11) (testAddress 0x22) (some 1)
        selectorBuy).1 = some (Except.error ("estimate gas failed: " ++ "execution reverted")) ∧
      (testAuto.buildTx testEnvEstimateFails (testAddress 0x11) (testAddress 0x22) (some 1)
        selectorBuy).2.nonce =
        some ((runCalls (NewNonceManager (some testClient)) testCalls).2.Next
          (testAddress 0x11)).2) ∧
    ((runCalls (NewNonceManager (some testClient)) testCalls).2.Next (testAddress 0x11)).2.next
        (testAddress 0x11) = some ((10 + 1) % u64) ∧
    (runCalls (NewNonceManager (some testClient)) testCalls).2.next (testAddress 0x11) =
      some 10 :=
  ⟨(estimate_failure_consumes_nonce testAuto testEnvEstimateFails (testAddress 0x11) _
      (runCalls (NewNonceManager (some testClient)) testCalls).2 10 "execution reverted"
      rfl rfl (by decide) (by simp [testAuto]) (fun _ => rfl)).1 (testAddress 0x22) (some 1)
      selectorBuy,
    (estimate_failure_consumes_nonce testAuto testEnvEstimateFails (testAddress 0x11) _
      (runCalls (NewNonceManager (some testClient)) testCalls).2 10 "execution reverted"
      rfl rfl (by decide) (by simp [testAuto]) (fun _ => rfl)).2.1,
    by decide⟩

/-- A `Service.Buy` whose gas estimate fails: the cached nonce moves from 10 to 11. -/
theorem test_estimate_failure :
    (Service.Buy testService testEnvEstimateFails testEnvSendOk
      (Except.ok (testAddress 0x11, testAddress 0x22, some 1, some 5)) false).returned =
      some (none, some "estimate gas failed: execution reverted") ∧
    (Service.Buy testService testEnvEstimateFails testEnvSendOk
      (Except.ok (testAddress 0x11, testAddress 0x22, some 1, some 5)) false).calls = [] ∧
    (∃ a m, testService.auto = some a ∧ a.nonce = some m ∧
      m.next (testAddress 0x11) = some 10) ∧
    (∃ a m, (Service.Buy testService testEnvEstimateFails testEnvSendOk
      (Except.ok (testAddress 0x11, testAddress 0x22, some 1, some 5)) false).service.auto =
        some a ∧ a.nonce = some m ∧ m.next (testAddress 0x11) = some 11) :=
  ⟨rfl, rfl, ⟨_, _, rfl, rfl, by decide⟩, ⟨_, _, rfl, rfl, by decide⟩⟩

/-! ## Theorems: API authentication -/

theorem isPrefixOf_map_take {α : Type} [DecidableEq α] (f : α → α) (p l : List α) :
    p.isPrefixOf (l.map f) = true ↔ (l.take p.length).map f = p := by
  rw [List.isPrefixOf_iff_prefix, List.prefix_iff_eq_take, ← List.map_take]
  exact eq_comm

/-- C27: with a non-empty `auth_token`, `withAuth` invokes the wrapped handler
exactly when the token of the request equals `auth_token`, the token being the
`X-API-Key` header when that is non-empty and otherwise the trimmed text after
a case-insensitive `bearer ` prefix of the `Authorization` header; in every
other case it answers 401 `unauthorized` and the handler is not invoked. With
an empty `auth_token` every request reaches the handler. -/
theorem withAuth_gate (authToken : String) (r : AuthRequest) :
    (authToken ≠ "" →
      (withAuth authToken r = AuthOutcome.next ↔ requestToken r = some authToken) ∧
      (requestToken r ≠ some authToken →
        withAuth authToken r = AuthOutcome.writeError 401 "unauthorized")) ∧
    (authToken = "" → withAuth authToken r = AuthOutcome.next) := by
  have hpre : HasPrefix (ToLower r.Authorization) "bearer " = true ↔
      (r.Authorization.data.take 7).map Char.toLower = "bearer ".data := by
    unfold HasPrefix ToLower
    exact isPrefixOf_map_take Char.toLower "bearer ".data r.Authorization.data
  constructor
  · intro hne
    unfold withAuth requestToken
    rw [if_pos hne]
    dsimp only
    by_cases hkey : r.XAPIKey = ""
    · by_cases hb : (r.Authorization.data.take 7).map Char.toLower = "bearer ".data
      · have hb2 := hpre.2 hb
        simp only [hkey, hb, hb2, if_true, ne_eq, not_true_eq_false, if_false]
        by_cases heq : trimString (String.mk (r.Authorization.data.drop 7)) = authToken
        · simp [heq]
        · simp [heq]
      · have hb2 : ¬ HasPrefix (ToLower r.Authorization) "bearer " = true :=
          fun h => hb (hpre.1 h)
        simp only [hkey, hb, hb2, if_true, ne_eq, not_true_eq_false, if_false]
        have : ¬ "" = authToken := fun h => hne h.symm
        simp [this]
    · simp only [hkey, ne_eq, not_false_eq_true, if_true, if_false]
      by_cases heq : r.XAPIKey = authToken
      · simp [heq]
      · simp [heq]
  · intro h
    unfold withAuth
    simp [h]

/-- Witness for C27 (`withAuth_gate`): a bearer token with surrounding blanks. -/
theorem withAuth_gate_witness :
    (withAuth "s3cret" ⟨"", "Bearer  s3cret "⟩ = AuthOutcome.next ↔
      requestToken ⟨"", "Bearer  s3cret "⟩ = some "s3cret") ∧
    (requestToken ⟨"", "Bearer  s3cret "⟩ ≠ some "s3cret" →
      withAuth "s3cret" ⟨"", "Bearer  s3cret "⟩ = AuthOutcome.writeError 401 "unauthorized") :=
  (withAuth_gate "s3cret" ⟨"", "Bearer  s3cret "⟩).1 (by decide)

/-- The outcome of `withAuth` on requests with and without a matching token. -/
theorem test_withAuth :
    withAuth "s3cret" ⟨"", "Bearer  s3cret "⟩ = AuthOutcome.next ∧
    withAuth "s3cret" ⟨"", "BEARER s3cret"⟩ = AuthOutcome.next ∧
    withAuth "s3cret" ⟨"s3cret", ""⟩ = AuthOutcome.next ∧
    withAuth "s3cret" ⟨"wrong", "Bearer s3cret"⟩ = AuthOutcome.writeError 401 "unauthorized" ∧
    withAuth "s3cret" ⟨"", "Basic s3cret"⟩ = AuthOutcome.writeError 401 "unauthorized" ∧
    withAuth "s3cret" ⟨"", ""⟩ = AuthOutcome.writeError 401 "unauthorized" ∧
    withAuth "s3cret" ⟨"", "Bearer"⟩ = AuthOutcome.writeError 401 "unauthorized" ∧
    withAuth "" ⟨"", ""⟩ = AuthOutcome.next := by
  decide

end PumpPilot
